import Mathlib

/-!
# Card entry system (kaynakkodu.c): persistent access-control store

Shallow embedding of the EEPROM-backed registry of authorised cards, the ring
log of access events and the scan pipeline `processRFID`, followed by the
theorems about them.

Conventions of the embedding
* The program state is one record `State`: the EEPROM cells, the globals
  `lastUID`, `lastUIDLen`, `ds3231_ok`, and the sequence of effects issued so
  far (EEPROM writes and commits, GPIO, buzzer, delays, reader and HTTP calls).
* A byte is a `Nat`; a value converted to `uint8_t` is reduced `% 256`, one
  converted to `uint16_t` is reduced `% 65536`, a `uint32_t` `% 2 ^ 32`.
* A `uint8_t` array (`uid`, `lastUID`, `tmp`) is a function from index to
  byte. Indexes past the end of a C array are outside the defined behaviour of
  the program; the array `tmp[7]` of `authFind` reads as 0 there.
* `authFind` returns `some i` for `true` with `*outIndex = i` and `none` for
  `false`; `authAdd` returns its `bool` together with the new state.
* `logListHTML` is modelled by the rows it decodes (the fields read in its
  loop), not by the HTML text built from them.
* A C `for` loop that counts upwards is `forRange lo n body` (n iterations
  starting at `lo`); a loop with an early `return` is a recursion on the number
  of remaining iterations; the scan of `sameUID` is `List.all` over its
  index range.
* The states the device can reach are `runOps s ops`: the state after a list
  of operations `Op`, each one call of a function that changes the state.
* The addresses a call writes are those of the `EEPROM.write` effects it
  appends to the trace; the addresses it reads are listed by the `reads`
  definitions, which follow the control flow of the function (`loopT` is the
  loop together with the addresses it reads).
-/

namespace Kartli

/-! ## Layout constants (lines 34-46) -/

abbrev EEPROM_SIZE : Nat := 4096
abbrev AUTH_START : Nat := 64
abbrev AUTH_REC_SIZE : Nat := 24
abbrev AUTH_MAX : Nat := 80
abbrev LOG_START : Nat := AUTH_START + AUTH_MAX * AUTH_REC_SIZE
abbrev LOG_REC_SIZE : Nat := 16
abbrev LOG_CAPACITY : Nat := (EEPROM_SIZE - LOG_START) / LOG_REC_SIZE
abbrev LOG_THRESHOLD : Nat := ((LOG_CAPACITY * 90) / 100) % 65536

abbrev DOOR_UNLOCK_MS : Nat := 2000
abbrev TONE_OK_FREQ : Nat := 2000
abbrev TONE_NO_FREQ : Nat := 800
abbrev TONE_MS_SHORT : Nat := 120
abbrev TONE_MS_LONG : Nat := 350
abbrev TONE_GAP_MS : Nat := 80
abbrev RELAY_ACTIVE_HIGH : Bool := true

/-! ## State and effects -/

/-- Output pins driven by the program. -/
inductive Pin where
  | PIN_RELAY
  | PIN_BUZZ
  | PIN_LED
  deriving DecidableEq, Repr

/-- One call into a peripheral or library, in program order. -/
inductive Effect where
  | eepromWrite (addr : Nat) (val : Nat)
  | eepromCommit
  | digitalWrite (pin : Pin) (high : Bool)
  | tone (pin : Pin) (freq : Nat)
  | noTone (pin : Pin)
  | delay (ms : Nat)
  | piccHaltA
  | pcdStopCrypto1
  | requestAuthentication
  | sendHeader
  | send (code : Nat)
  deriving DecidableEq, Repr

/-- Effects on the persistent store: an EEPROM byte write or a commit. -/
def Effect.isStorage : Effect → Bool
  | Effect.eepromWrite _ _ => true
  | Effect.eepromCommit => true
  | _ => false

/-- Global state of the sketch: EEPROM cells, the globals of lines 69-71 and
the effects issued so far. -/
structure State where
  eeprom : Nat → Nat
  lastUID : Nat → Nat
  lastUIDLen : Nat
  ds3231_ok : Bool
  trace : List Effect

/-- Append one effect to the trace. -/
def emit (s : State) (e : Effect) : State :=
  { s with trace := s.trace ++ [e] }

/-- Upward counting loop: `for (i = lo; i < lo + n; i++) body`. -/
def forRange (lo : Nat) : Nat → (Nat → State → State) → State → State
  | 0, _, s => s
  | n + 1, body, s => forRange (lo + 1) n body (body lo s)

namespace EEPROM

/-- Modelled from the spec: the persistent byte storage collaborator
`readByte(addr) -> u8` of section 6 (the EEPROM library is not part of the
sources). As in the ESP8266 core library, an address outside the region of
`EEPROM_SIZE` bytes reads as 0. -/
def read (s : State) (addr : Nat) : Nat :=
  if addr < EEPROM_SIZE then s.eeprom addr % 256 else 0

/-- Modelled from the spec: the persistent byte storage collaborator
`writeByte(addr, value)` of section 6 (the EEPROM library is not part of the
sources). The value is a `uint8_t`; as in the ESP8266 core library a write
outside the region is dropped. The call is recorded in the trace. -/
def write (s : State) (addr : Nat) (val : Nat) : State :=
  { s with
    eeprom := if addr < EEPROM_SIZE then Function.update s.eeprom addr (val % 256) else s.eeprom
    trace := s.trace ++ [Effect.eepromWrite addr (val % 256)] }

end EEPROM

/-! ## EEPROM helpers (lines 74-82) -/

/-- 16-bit little-endian read. -/
def e16 (s : State) (addr : Nat) : Nat :=
  (EEPROM.read s addr ||| (EEPROM.read s (addr + 1) <<< 8)) % 65536

/-- 16-bit little-endian write of a `uint16_t`. -/
def w16 (s : State) (addr : Nat) (v : Nat) : State :=
  let v := v % 65536
  let s := EEPROM.write s addr (v &&& 0xFF)
  EEPROM.write s (addr + 1) ((v >>> 8) &&& 0xFF)

/-- Flush to flash: `EEPROM.commit()`. -/
def eepromCommit (s : State) : State := emit s Effect.eepromCommit

/-- Length and content comparison of two UIDs (lines 85-89). -/
def sameUID (a : Nat → Nat) (alen : Nat) (b : Nat → Nat) (blen : Nat) : Bool :=
  if alen ≠ blen then false
  else (List.range alen).all (fun i => a i % 256 == b i % 256)

/-- UNIX time from the RTC, 0 when the RTC is not ready (lines 92-98);
`rtcUnixtime` is what `rtc.now().unixtime()` returns at the call. -/
def nowUnix (s : State) (rtcUnixtime : Nat) : Nat :=
  if s.ds3231_ok then rtcUnixtime % 2 ^ 32 else 0

/-- Buzzer pattern for an accepted card (lines 101-106). -/
def beepOK (s : State) : State :=
  let s := emit s (Effect.tone Pin.PIN_BUZZ TONE_OK_FREQ)
  let s := emit s (Effect.delay TONE_MS_SHORT)
  let s := emit s (Effect.noTone Pin.PIN_BUZZ)
  let s := emit s (Effect.delay TONE_GAP_MS)
  let s := emit s (Effect.tone Pin.PIN_BUZZ TONE_OK_FREQ)
  let s := emit s (Effect.delay TONE_MS_SHORT)
  emit s (Effect.noTone Pin.PIN_BUZZ)

/-- Buzzer pattern for a rejected card (lines 109-114). -/
def beepNO (s : State) : State :=
  let s := emit s (Effect.tone Pin.PIN_BUZZ TONE_NO_FREQ)
  let s := emit s (Effect.delay TONE_MS_LONG)
  let s := emit s (Effect.noTone Pin.PIN_BUZZ)
  let s := emit s (Effect.delay TONE_GAP_MS)
  let s := emit s (Effect.tone Pin.PIN_BUZZ TONE_NO_FREQ)
  let s := emit s (Effect.delay TONE_MS_LONG)
  emit s (Effect.noTone Pin.PIN_BUZZ)

/-- Drive the relay, honouring its active level (lines 117-120). -/
def relaySet (s : State) (isOn : Bool) : State :=
  let level := if RELAY_ACTIVE_HIGH then isOn else !isOn
  emit s (Effect.digitalWrite Pin.PIN_RELAY level)

/-! ## Bootstrap (lines 132-149) -/

/-- Prepare the EEPROM when signature or version are missing. -/
def eepromInitIfNeeded (s : State) : State :=
  let magic := e16 s 0
  let ver := e16 s 2
  if magic ≠ 0xBEEF ∨ ver ≠ 1 then
    let s := w16 s 0 0xBEEF
    let s := w16 s 2 1
    let s := w16 s 4 0
    let s := w16 s 6 0
    let s := w16 s 8 0
    let s := w16 s 10 0
    let s := forRange AUTH_START (LOG_START - AUTH_START) (fun i s => EEPROM.write s i 0xFF) s
    let s := forRange LOG_START (EEPROM_SIZE - LOG_START) (fun i s => EEPROM.write s i 0x00) s
    eepromCommit s
  else s

/-! ## Registry of authorised cards (lines 152-189) -/

/-- Number of authorised cards, from the header. -/
def authCount (s : State) : Nat := e16 s 4

/-- Loop of `authFind`: `n` iterations remain, the next index is `i`. -/
def authFind.loop (s : State) (uid : Nat → Nat) (uidLen : Nat) : Nat → Nat → Option Nat
  | 0, _ => none
  | n + 1, i =>
    let base := AUTH_START + i * AUTH_REC_SIZE
    let len := EEPROM.read s base
    if len = 0xFF ∨ len = 0 then authFind.loop s uid uidLen n (i + 1)
    else
      let tmp : Nat → Nat := fun k => if k < 7 then EEPROM.read s (base + 1 + k) else 0
      if sameUID uid uidLen tmp len then some i
      else authFind.loop s uid uidLen n (i + 1)

/-- Is the UID in the authorised list? `some i` is `true` with `*outIndex = i`,
`none` is `false`. -/
def authFind (s : State) (uid : Nat → Nat) (uidLen : Nat) : Option Nat :=
  let count := authCount s
  authFind.loop s uid uidLen count 0

/-- Add an authorised card (idempotent). `name` holds the bytes of the label,
a C string (no NUL among them); `buf` is the zeroed 16-byte buffer after
`name.substring(0,15).toCharArray(buf, 16)`. The result is the returned
`bool` and the state after the call. -/
def authAdd (s : State) (uid : Nat → Nat) (uidLen : Nat) (name : List Nat) : Bool × State :=
  if uidLen = 0 ∨ uidLen > 7 then (false, s)
  else if (authFind s uid uidLen).isSome then (true, s)
  else
    let count := authCount s
    if count ≥ AUTH_MAX then (false, s)
    else
      let base := AUTH_START + count * AUTH_REC_SIZE
      let s := EEPROM.write s base uidLen
      let s := forRange 0 7 (fun k s => EEPROM.write s (base + 1 + k) (if k < uidLen then uid k else 0)) s
      let buf : Nat → Nat := fun i => (name.take 15).getD i 0
      let s := forRange 0 16 (fun i s => EEPROM.write s (base + 8 + i) (buf i)) s
      let s := w16 s 4 (count + 1)
      let s := eepromCommit s
      (true, s)

/-! ## Ring log (lines 216-303) -/

/-- Next slot to write, from the header. -/
def logHead (s : State) : Nat := e16 s 6

/-- Oldest occupied slot, from the header. -/
def logTail (s : State) : Nat := e16 s 8

/-- Number of occupied slots, from the header. -/
def logCount (s : State) : Nat := e16 s 10

/-- Write one log record into the ring; `rtcUnixtime` is the RTC reading at
the call. -/
def logWriteOne (s : State) (uid : Nat → Nat) (uidLen : Nat) (allowed : Bool)
    (rtcUnixtime : Nat) : State :=
  let head := logHead s
  let tail := logTail s
  let cnt := logCount s
  let tc := if cnt ≥ LOG_THRESHOLD then ((tail + 1) % LOG_CAPACITY, if cnt > 0 then cnt - 1 else cnt)
    else (tail, cnt)
  let tail := tc.1
  let cnt := tc.2
  let base := LOG_START + head * LOG_REC_SIZE
  let s := EEPROM.write s (base + 0) uidLen
  let s := forRange 0 7 (fun k s => EEPROM.write s (base + 1 + k) (if k < uidLen then uid k else 0)) s
  let ts := nowUnix s rtcUnixtime
  let s := forRange 0 4 (fun i s => EEPROM.write s (base + 8 + i) ((ts >>> (8 * i)) &&& 0xFF)) s
  let s := EEPROM.write s (base + 12) (if allowed then 1 else 0)
  let s := EEPROM.write s (base + 13) 0
  let s := EEPROM.write s (base + 14) 0
  let s := EEPROM.write s (base + 15) 0
  let head := (head + 1) % LOG_CAPACITY
  let cnt := if cnt < LOG_CAPACITY then cnt + 1 else cnt
  let s := w16 s 6 head
  let s := w16 s 8 tail
  let s := w16 s 10 cnt
  eepromCommit s

/-- One row of the log table: the fields `logListHTML` decodes from a slot. -/
structure LogRow where
  uidLen : Nat
  uid : List Nat
  ts : Nat
  allowed : Nat
  deriving DecidableEq, Repr

/-- Decode the slot at `base` as in the loop body of `logListHTML`. -/
def logListHTML.row (s : State) (base : Nat) : LogRow :=
  let len := EEPROM.read s (base + 0)
  let u := (List.range 7).map (fun k => EEPROM.read s (base + 1 + k))
  let ts := (EEPROM.read s (base + 8) ||| (EEPROM.read s (base + 9) <<< 8) |||
    (EEPROM.read s (base + 10) <<< 16) ||| (EEPROM.read s (base + 11) <<< 24)) % 2 ^ 32
  let allowed := EEPROM.read s (base + 12)
  { uidLen := len, uid := u, ts := ts, allowed := allowed }

/-- Loop of `logListHTML`: `n` iterations remain, `i` is the loop index and
`shown` the number of rows produced. -/
def logListHTML.loop (s : State) (tail cnt maxRows : Nat) : Nat → Nat → Nat → List LogRow
  | 0, _, _ => []
  | n + 1, i, shown =>
    if i < cnt ∧ shown < maxRows then
      let idx := (tail + i) % LOG_CAPACITY
      let base := LOG_START + idx * LOG_REC_SIZE
      logListHTML.row s base :: logListHTML.loop s tail cnt maxRows n (i + 1) (shown + 1)
    else []

/-- Rows of the log table, oldest first: the records `logListHTML` walks. -/
def logListHTML (s : State) (maxRows : Nat) : List LogRow :=
  let tail := logTail s
  let cnt := logCount s
  logListHTML.loop s tail cnt maxRows cnt 0 0

/-! ## Door, handlers and the scan pipeline -/

/-- Hold the door open for `DOOR_UNLOCK_MS` (lines 306-310). -/
def unlockDoor (s : State) : State :=
  let s := relaySet s true
  let s := emit s (Effect.delay DOOR_UNLOCK_MS)
  relaySet s false

/-- Clear all logs (lines 351-360); `authenticated` is the result of
`requireAuth()`. -/
def handleWipeLogs (s : State) (authenticated : Bool) : State :=
  if !authenticated then emit s Effect.requestAuthentication
  else
    let s := w16 s 6 0
    let s := w16 s 8 0
    let s := w16 s 10 0
    let s := forRange LOG_START (EEPROM_SIZE - LOG_START) (fun i s => EEPROM.write s i 0x00) s
    let s := eepromCommit s
    let s := emit s Effect.sendHeader
    emit s (Effect.send 303)

/-- Clear all authorised cards (lines 399-406). -/
def handleWipeCards (s : State) (authenticated : Bool) : State :=
  if !authenticated then emit s Effect.requestAuthentication
  else
    let s := w16 s 4 0
    let s := forRange AUTH_START (LOG_START - AUTH_START) (fun i s => EEPROM.write s i 0xFF) s
    let s := eepromCommit s
    let s := emit s Effect.sendHeader
    emit s (Effect.send 303)

/-- Lines 429-430 of `processRFID`: remember the length of the scanned UID and
copy its first `min(size, 7)` bytes into `lastUID`. -/
def processRFID.capture (s : State) (size : Nat) (uidByte : Nat → Nat) : State :=
  let s := { s with lastUIDLen := size % 256 }
  forRange 0 (min s.lastUIDLen 7)
    (fun i s => { s with lastUID := Function.update s.lastUID i (uidByte i % 256) }) s

/-- One pass of the scan pipeline (lines 425-447). `card` is `none` when no
new card is present or its serial cannot be read, else `(uid.size,
uid.uidByte)` as delivered by the reader. -/
def processRFID (s : State) (card : Option (Nat × (Nat → Nat))) (rtcUnixtime : Nat) : State :=
  match card with
  | none => s
  | some (size, uidByte) =>
    let s := processRFID.capture s size uidByte
    let allowed := (authFind s s.lastUID s.lastUIDLen).isSome
    let s := logWriteOne s s.lastUID s.lastUIDLen allowed rtcUnixtime
    let s := emit s (Effect.digitalWrite Pin.PIN_LED false)
    let s := if allowed then unlockDoor (beepOK s) else beepNO s
    let s := emit s (Effect.digitalWrite Pin.PIN_LED true)
    let s := emit s Effect.piccHaltA
    emit s Effect.pcdStopCrypto1

/-! ## Sequences of registry calls -/

/-- One call `authAdd(uid, uidLen, name)`. -/
structure AddOp where
  uid : Nat → Nat
  uidLen : Nat
  name : List Nat

/-- What one call of `authAdd` in a sequence did: the call, its return value
and the value of registryCount when it was made. -/
structure AddResult where
  op : AddOp
  ok : Bool
  countBefore : Nat

/-- The store after a sequence of `authAdd` calls. -/
def runAdds (s : State) : List AddOp → State
  | [] => s
  | op :: ops => runAdds (authAdd s op.uid op.uidLen op.name).2 ops

/-- The outcome of each call in a sequence of `authAdd` calls. -/
def addResults (s : State) : List AddOp → List AddResult
  | [] => []
  | op :: ops =>
    { op := op, ok := (authAdd s op.uid op.uidLen op.name).1, countBefore := authCount s }
      :: addResults (authAdd s op.uid op.uidLen op.name).2 ops

/-- One call `logWriteOne(uid, uidLen, allowed)` together with the RTC
reading at the call. -/
structure LogEntry where
  uid : Nat → Nat
  uidLen : Nat
  allowed : Bool
  rtc : Nat

/-- The store after a sequence of `logWriteOne` calls, first call first. -/
def runLogs (s : State) (es : List LogEntry) : State :=
  es.foldl (fun s e => logWriteOne s e.uid e.uidLen e.allowed e.rtc) s

/-- The table row that corresponds to one logged call: UID length, the seven
UID bytes zero-padded, the timestamp `nowUnix` gave, and the flag 1 or 0. -/
def logRowOf (s : State) (e : LogEntry) : LogRow :=
  { uidLen := e.uidLen % 256
    uid := (List.range 7).map (fun k => (if k < e.uidLen then e.uid k else 0) % 256)
    ts := nowUnix s e.rtc
    allowed := if e.allowed then 1 else 0 }

/-! ## Concrete stores used to instantiate the theorems -/

/-- A factory-fresh device: every EEPROM cell erased to 0xFF, nothing scanned. -/
def blankState : State :=
  { eeprom := fun _ => 0xFF, lastUID := fun _ => 0, lastUIDLen := 0, ds3231_ok := false,
    trace := [] }

/-- The card `04:a1:b2:c3` (4-byte UID). -/
def aliceUID : Nat → Nat := fun k => [0x04, 0xA1, 0xB2, 0xC3].getD k 0

/-- The label "Alice" as bytes. -/
def aliceName : List Nat := [65, 108, 105, 99, 101]

/-- The card `04:00:00:00` (4-byte UID). -/
def strangerUID : Nat → Nat := fun k => [0x04, 0x00, 0x00, 0x00].getD k 0

/-- The call `authAdd([04 a1 b2 c3], 4, "Alice")`. -/
def aliceCard : AddOp := { uid := aliceUID, uidLen := 4, name := aliceName }

/-- The call `authAdd([04 00 00 00], 4, "")`. -/
def strangerCard : AddOp := { uid := strangerUID, uidLen := 4, name := [] }

/-- One `logWriteOne` call for the card 04:a1:b2:c3, accepted, RTC not set. -/
def sampleEntry : LogEntry := { uid := aliceUID, uidLen := 4, allowed := true, rtc := 0 }

/-- Eighty cards with the pairwise different one-byte UIDs 0..79. -/
def eightyCards : List AddOp :=
  (List.range 80).map (fun i => { uid := fun _ => i, uidLen := 1, name := [] })

/-- The store of a factory-fresh device after the bootstrap of `setup()`. -/
abbrev emptyState : State := eepromInitIfNeeded blankState

/-! ## Byte layout of the records, as the code writes them -/

/-- Byte `k` (0..15) of the log record that `logWriteOne` lays out for the
UID `uid` of length `uidLen`, the decision `allowed` and the timestamp `ts`. -/
def logRecordByte (uid : Nat → Nat) (uidLen : Nat) (allowed : Bool) (ts : Nat) (k : Nat) : Nat :=
  if k = 0 then uidLen % 256
  else if k < 8 then (if k - 1 < uidLen then uid (k - 1) else 0) % 256
  else if k < 12 then ((ts >>> (8 * (k - 8))) &&& 0xFF) % 256
  else if k = 12 then (if allowed then 1 else 0)
  else 0

/-- Loop body of `authFind` at index `i`: the slot is occupied and holds the
queried UID. -/
def authFind.hit (s : State) (uid : Nat → Nat) (uidLen : Nat) (i : Nat) : Bool :=
  let base := AUTH_START + i * AUTH_REC_SIZE
  let len := EEPROM.read s base
  if len = 0xFF ∨ len = 0 then false
  else sameUID uid uidLen (fun k => if k < 7 then EEPROM.read s (base + 1 + k) else 0) len

/-- Byte `k` (0..23) of the registry record that `authAdd` lays out. -/
def authRecordByte (uid : Nat → Nat) (uidLen : Nat) (name : List Nat) (k : Nat) : Nat :=
  if k = 0 then uidLen % 256
  else if k < 8 then (if k - 1 < uidLen then uid (k - 1) else 0) % 256
  else ((name.take 15).getD (k - 8) 0) % 256

/-! ## Reachable states -/

/-- One operation of the running device on its state: a call of `logWriteOne`,
the log wipe handler, a call of `authAdd`, the registry wipe handler, one pass
of `processRFID`, or a restart (the `eepromInitIfNeeded` of `setup()`). -/
inductive Op where
  | logWrite (uid : Nat → Nat) (uidLen : Nat) (allowed : Bool) (rtc : Nat)
  | wipeLogs (authenticated : Bool)
  | add (uid : Nat → Nat) (uidLen : Nat) (name : List Nat)
  | wipeCards (authenticated : Bool)
  | scan (card : Option (Nat × (Nat → Nat))) (rtc : Nat)
  | restart

/-- The state after one operation. -/
def step (s : State) : Op → State
  | Op.logWrite uid uidLen allowed rtc => logWriteOne s uid uidLen allowed rtc
  | Op.wipeLogs authenticated => handleWipeLogs s authenticated
  | Op.add uid uidLen name => (authAdd s uid uidLen name).2
  | Op.wipeCards authenticated => handleWipeCards s authenticated
  | Op.scan card rtc => processRFID s card rtc
  | Op.restart => eepromInitIfNeeded s

/-- The state after a sequence of operations, first operation first. -/
def runOps (s : State) (ops : List Op) : State := ops.foldl step s

/-- The idLen byte of registry slot `i`. -/
def slotLen (s : State) (i : Nat) : Nat := EEPROM.read s (AUTH_START + i * AUTH_REC_SIZE)

/-- The id byte `k` (0..6) of registry slot `i`. -/
def slotByte (s : State) (i k : Nat) : Nat :=
  EEPROM.read s (AUTH_START + i * AUTH_REC_SIZE + 1 + k)

/-- The header carries the signature and version that `eepromInitIfNeeded`
accepts. -/
def HeaderOK (s : State) : Prop := e16 s 0 = 0xBEEF ∧ e16 s 2 = 1

/-- The ring fields are consistent: head and tail are slots, the count is at
most the eviction threshold, and head is `count` slots after tail. -/
def RingOK (s : State) : Prop :=
  logHead s < LOG_CAPACITY ∧ logTail s < LOG_CAPACITY ∧ logCount s ≤ LOG_THRESHOLD ∧
  logHead s = (logTail s + logCount s) % LOG_CAPACITY

/-- The registry is consistent: at most AUTH_MAX records, slots below
registryCount occupied with a length in 1..7, slots from registryCount on
empty, and no two occupied slots with the same length and the same first
`idLen` id bytes. -/
def RegistryOK (s : State) : Prop :=
  authCount s ≤ AUTH_MAX ∧
  (∀ i, i < authCount s → 1 ≤ slotLen s i ∧ slotLen s i ≤ 7) ∧
  (∀ i, authCount s ≤ i → i < AUTH_MAX → slotLen s i = 0xFF) ∧
  (∀ i j, i < j → j < authCount s →
    ¬ (slotLen s i = slotLen s j ∧ ∀ k, k < slotLen s i → slotByte s i k = slotByte s j k))

/-- The three parts together: what every state reachable from a bootstrapped
store satisfies. -/
def WellFormed (s : State) : Prop := HeaderOK s ∧ RingOK s ∧ RegistryOK s

instance (s : State) : Decidable (HeaderOK s) := by
  unfold HeaderOK
  infer_instance

instance (s : State) : Decidable (RingOK s) := by
  unfold RingOK
  infer_instance

instance (s : State) : Decidable (RegistryOK s) :=
  decidable_of_iff
    (authCount s ≤ AUTH_MAX ∧
      (∀ i, i < authCount s → 1 ≤ slotLen s i ∧ slotLen s i ≤ 7) ∧
      (∀ i, i < AUTH_MAX → authCount s ≤ i → slotLen s i = 0xFF) ∧
      (∀ j, j < authCount s → ∀ i, i < j →
        ¬ (slotLen s i = slotLen s j ∧
            ∀ k, k < slotLen s i → slotByte s i k = slotByte s j k)))
    ⟨fun h => ⟨h.1, h.2.1, fun i a b => h.2.2.1 i b a, fun i j a b => h.2.2.2 j b i a⟩,
     fun h => ⟨h.1, h.2.1, fun i a b => h.2.2.1 i b a, fun j b i a => h.2.2.2 i j a b⟩⟩

instance (s : State) : Decidable (WellFormed s) := by
  unfold WellFormed
  infer_instance

/-- A session on a bootstrapped device: register Alice's card, scan it, scan
a card that is not registered, clear the log, log one entry by hand. -/
def sampleOps : List Op :=
  [Op.add aliceUID 4 aliceName, Op.scan (some (4, aliceUID)) 0,
   Op.scan (some (4, strangerUID)) 0, Op.wipeLogs true,
   Op.logWrite aliceUID 4 true 0, Op.restart, Op.wipeCards false]

/-- A 10-byte UID `04:a1:b2:c3:d4:e5:f6:07:18:29`; its first seven bytes are
also used as a 7-byte credential. -/
def tenByteUID : Nat → Nat :=
  fun k => [0x04, 0xA1, 0xB2, 0xC3, 0xD4, 0xE5, 0xF6, 0x07, 0x18, 0x29].getD k 0

/-- A session that registers the first seven bytes of `tenByteUID` as a
7-byte credential. -/
def sevenByteOps : List Op := [Op.add tenByteUID 7 aliceName]

/-- The state after a sequence of passes of `processRFID`, first pass first;
each pass is given by what the reader delivers and the RTC reading. -/
def runScans (s : State) (cards : List (Option (Nat × (Nat → Nat)) × Nat)) : State :=
  cards.foldl (fun s c => processRFID s c.1 c.2) s

/-- A store with a valid header whose registryCount field holds 81, one more
than AUTH_MAX: registry partition erased, everything else zero, logHead 0. -/
def overfullState : State :=
  { eeprom := fun a =>
      if a = 0 then 0xEF else if a = 1 then 0xBE else if a = 2 then 1
      else if a = 4 then 81 else if 64 ≤ a ∧ a < 1984 then 0xFF else 0
    lastUID := fun _ => 0, lastUIDLen := 0, ds3231_ok := false, trace := [] }

/-! ## Addresses the program passes to the EEPROM -/

/-- Addresses of the `EEPROM.write` calls in a list of effects, in order. -/
def writesOf (t : List Effect) : List Nat :=
  t.filterMap (fun e => match e with
    | Effect.eepromWrite a _ => some a
    | _ => none)

/-- The state `s'` continues the trace of `s`, and every `EEPROM.write` issued
in between has its address in `P`. -/
def WritesWithin (P : Nat → Prop) (s s' : State) : Prop :=
  s.trace <+: s'.trace ∧ ∀ a ∈ writesOf (s'.trace.drop s.trace.length), P a

instance (P : Nat → Prop) [DecidablePred P] (s s' : State) : Decidable (WritesWithin P s s') := by
  unfold WritesWithin
  infer_instance

/-- Addresses that `e16(addr)` passes to `EEPROM.read`. -/
def e16.reads (addr : Nat) : List Nat := [addr, addr + 1]

/-- Addresses that `eepromInitIfNeeded` passes to `EEPROM.read`: `e16(0)` and
`e16(2)`. -/
def eepromInitIfNeeded.reads : List Nat := e16.reads 0 ++ e16.reads 2

/-- The loop of `authFind` with the addresses it passes to `EEPROM.read`:
the length byte of each visited slot and, for an occupied slot, its seven id
bytes. -/
def authFind.loopT (s : State) (uid : Nat → Nat) (uidLen : Nat) :
    Nat → Nat → Option Nat × List Nat
  | 0, _ => (none, [])
  | n + 1, i =>
    let base := AUTH_START + i * AUTH_REC_SIZE
    let len := EEPROM.read s base
    if len = 0xFF ∨ len = 0 then
      let r := authFind.loopT s uid uidLen n (i + 1)
      (r.1, base :: r.2)
    else
      let tmp : Nat → Nat := fun k => if k < 7 then EEPROM.read s (base + 1 + k) else 0
      let here := base :: (List.range 7).map (fun k => base + 1 + k)
      if sameUID uid uidLen tmp len then (some i, here)
      else
        let r := authFind.loopT s uid uidLen n (i + 1)
        (r.1, here ++ r.2)

/-- Addresses that `authFind` passes to `EEPROM.read`: `authCount()`, then the
loop. -/
def authFind.reads (s : State) (uid : Nat → Nat) (uidLen : Nat) : List Nat :=
  e16.reads 4 ++ (authFind.loopT s uid uidLen (authCount s) 0).2

/-- Addresses that `authAdd` passes to `EEPROM.read`: none for an invalid
length, else those of `authFind` and, when the card is not found, of
`authCount()`. -/
def authAdd.reads (s : State) (uid : Nat → Nat) (uidLen : Nat) : List Nat :=
  if uidLen = 0 ∨ uidLen > 7 then []
  else if (authFind s uid uidLen).isSome then authFind.reads s uid uidLen
  else authFind.reads s uid uidLen ++ e16.reads 4

/-- Addresses that `logWriteOne` passes to `EEPROM.read`: `logHead()`,
`logTail()`, `logCount()`. -/
def logWriteOne.reads : List Nat := e16.reads 6 ++ e16.reads 8 ++ e16.reads 10

/-- Addresses read to decode the slot at `base` in the loop body of
`logListHTML`. -/
def logListHTML.rowReads (base : Nat) : List Nat :=
  [base + 0] ++ (List.range 7).map (fun k => base + 1 + k)
    ++ [base + 8, base + 9, base + 10, base + 11, base + 12]

/-- The loop of `logListHTML` with the addresses it passes to `EEPROM.read`. -/
def logListHTML.loopT (s : State) (tail cnt maxRows : Nat) :
    Nat → Nat → Nat → List LogRow × List Nat
  | 0, _, _ => ([], [])
  | n + 1, i, shown =>
    if i < cnt ∧ shown < maxRows then
      let idx := (tail + i) % LOG_CAPACITY
      let base := LOG_START + idx * LOG_REC_SIZE
      let r := logListHTML.loopT s tail cnt maxRows n (i + 1) (shown + 1)
      (logListHTML.row s base :: r.1, logListHTML.rowReads base ++ r.2)
    else ([], [])

/-- Addresses that `logListHTML` passes to `EEPROM.read`: `logCount()` and
`logFillPercent()` for the heading, `logTail()`, `logCount()`, then the loop. -/
def logListHTML.reads (s : State) (maxRows : Nat) : List Nat :=
  e16.reads 10 ++ e16.reads 10 ++ e16.reads 8 ++ e16.reads 10
    ++ (logListHTML.loopT s (logTail s) (logCount s) maxRows (logCount s) 0 0).2

/-! ## Basic facts about the storage primitives -/

section Basics

theorem forRange_zero (lo : Nat) (body : Nat → State → State) (s : State) :
    forRange lo 0 body s = s := rfl

theorem forRange_succ (lo n : Nat) (body : Nat → State → State) (s : State) :
    forRange lo (n + 1) body s = forRange (lo + 1) n body (body lo s) := rfl

@[simp] theorem eeprom_emit (s : State) (e : Effect) : (emit s e).eeprom = s.eeprom := rfl

@[simp] theorem eeprom_eepromCommit (s : State) : (eepromCommit s).eeprom = s.eeprom := rfl

theorem eeprom_write (s : State) (a v b : Nat) :
    (EEPROM.write s a v).eeprom b = if b = a ∧ a < EEPROM_SIZE then v % 256 else s.eeprom b := by
  unfold EEPROM.write
  by_cases h : a < EEPROM_SIZE
  · by_cases hb : b = a
    · subst hb; simp [h]
    · simp [h, hb, Function.update_noteq hb]
  · simp [h]

theorem read_lt (s : State) (a : Nat) : EEPROM.read s a < 256 := by
  unfold EEPROM.read
  split
  · exact Nat.mod_lt _ (by decide)
  · decide

theorem read_congr {s t : State} {a : Nat} (h : s.eeprom a = t.eeprom a) :
    EEPROM.read s a = EEPROM.read t a := by
  unfold EEPROM.read; rw [h]

theorem read_write (s : State) (a v b : Nat) :
    EEPROM.read (EEPROM.write s a v) b
      = if b = a ∧ a < EEPROM_SIZE then v % 256 else EEPROM.read s b := by
  unfold EEPROM.read
  rw [eeprom_write]
  by_cases hb : b = a ∧ a < EEPROM_SIZE
  · obtain ⟨rfl, h⟩ := hb
    simp [h]
  · simp [hb]

theorem eeprom_w16 (s : State) (a v b : Nat) :
    (w16 s a v).eeprom b
      = if b = a + 1 ∧ a + 1 < EEPROM_SIZE then v % 65536 / 256
        else if b = a ∧ a < EEPROM_SIZE then v % 256
        else s.eeprom b := by
  unfold w16
  simp only [eeprom_write]
  have h1 : (((v % 65536) >>> 8) &&& 0xFF) % 256 = v % 65536 / 256 := by
    rw [show (0xFF : Nat) = 2 ^ 8 - 1 from rfl, Nat.and_pow_two_sub_one_eq_mod,
      Nat.shiftRight_eq_div_pow]
    norm_num
    omega
  have h2 : (v % 65536 &&& 0xFF) % 256 = v % 256 := by
    rw [show (0xFF : Nat) = 2 ^ 8 - 1 from rfl, Nat.and_pow_two_sub_one_eq_mod]
    norm_num
  rw [h1, h2]

theorem e16_eq (s : State) (a : Nat) :
    e16 s a = EEPROM.read s a + 256 * EEPROM.read s (a + 1) := by
  unfold e16
  have h0 := read_lt s a
  have h1 := read_lt s (a + 1)
  rw [Nat.or_comm, Nat.shiftLeft_eq, Nat.mul_comm,
    ← Nat.mul_add_lt_is_or (show EEPROM.read s a < 2 ^ 8 from h0)]
  omega

theorem e16_lt (s : State) (a : Nat) : e16 s a < 65536 := by
  unfold e16; exact Nat.mod_lt _ (by decide)

theorem e16_congr {s t : State} {a : Nat} (h0 : s.eeprom a = t.eeprom a)
    (h1 : s.eeprom (a + 1) = t.eeprom (a + 1)) : e16 s a = e16 t a := by
  rw [e16_eq, e16_eq, read_congr h0, read_congr h1]

/-- A 16-bit field read from two known cells. -/
theorem e16_of_cells (s : State) (a lo hi : Nat) (ha : a + 1 < EEPROM_SIZE)
    (h0 : s.eeprom a = lo) (h1 : s.eeprom (a + 1) = hi) (hlo : lo < 256) (hhi : hi < 256) :
    e16 s a = lo + 256 * hi := by
  rw [e16_eq]
  unfold EEPROM.read
  rw [if_pos (by omega), if_pos ha, h0, h1, Nat.mod_eq_of_lt hlo, Nat.mod_eq_of_lt hhi]

/-- A loop of byte writes to consecutive addresses `c + i`. -/
theorem eeprom_forRange_write (c : Nat) (g : Nat → Nat) :
    ∀ (n lo : Nat) (s : State) (b : Nat),
      (forRange lo n (fun i s => EEPROM.write s (c + i) (g i)) s).eeprom b
        = if c + lo ≤ b ∧ b < c + lo + n ∧ b < EEPROM_SIZE then g (b - c) % 256
          else s.eeprom b := by
  intro n
  induction n with
  | zero =>
    intro lo s b
    have h : ¬ (c + lo ≤ b ∧ b < c + lo + 0 ∧ b < EEPROM_SIZE) := by omega
    simp only [forRange_zero, h, if_false]
  | succ n ih =>
    intro lo s b
    rw [forRange_succ, ih, eeprom_write]
    by_cases h1 : b = c + lo
    · subst h1
      by_cases h2 : c + lo < EEPROM_SIZE
      · simp [h2]
      · simp [h2]
    · by_cases h2 : c + (lo + 1) ≤ b ∧ b < c + (lo + 1) + n ∧ b < EEPROM_SIZE
      · have h3 : c + lo ≤ b ∧ b < c + lo + (n + 1) ∧ b < EEPROM_SIZE := by omega
        simp [h2, h3]
      · have h3 : ¬ (c + lo ≤ b ∧ b < c + lo + (n + 1) ∧ b < EEPROM_SIZE) := by omega
        simp [h1, h2, h3]

/-- A fill loop writing the constant `v` to the addresses `lo .. lo + n - 1`. -/
theorem eeprom_forRange_fill (v : Nat) (n lo : Nat) (s : State) (b : Nat) :
    (forRange lo n (fun i s => EEPROM.write s i v) s).eeprom b
      = if lo ≤ b ∧ b < lo + n ∧ b < EEPROM_SIZE then v % 256 else s.eeprom b := by
  have h := eeprom_forRange_write 0 (fun _ => v) n lo s b
  simp only [Nat.zero_add] at h
  exact h

@[simp] theorem ds3231_ok_write (s : State) (a v : Nat) :
    (EEPROM.write s a v).ds3231_ok = s.ds3231_ok := rfl

theorem ds3231_ok_forRange_write (f g : Nat → Nat) :
    ∀ (n lo : Nat) (s : State),
      (forRange lo n (fun i s => EEPROM.write s (f i) (g i)) s).ds3231_ok = s.ds3231_ok := by
  intro n
  induction n with
  | zero => intro lo s; rfl
  | succ n ih => intro lo s; rw [forRange_succ, ih]; rfl

theorem e16_eepromCommit (s : State) (a : Nat) : e16 (eepromCommit s) a = e16 s a :=
  e16_congr rfl rfl

theorem e16_w16_same (s : State) (a v : Nat) (ha : a + 1 < EEPROM_SIZE) :
    e16 (w16 s a v) a = v % 65536 := by
  have ha1 : a + 1 < 4096 := ha
  have h := e16_of_cells (w16 s a v) a (v % 256) (v % 65536 / 256) ha
    (by rw [eeprom_w16, if_neg (by omega), if_pos ⟨rfl, by omega⟩])
    (by rw [eeprom_w16, if_pos ⟨rfl, ha⟩])
    (Nat.mod_lt _ (by decide)) (by omega)
  rw [h]; omega

theorem e16_w16_other (s : State) (a v c : Nat) (h : c + 1 < a ∨ a + 1 < c) :
    e16 (w16 s a v) c = e16 s c := by
  apply e16_congr
  · rw [eeprom_w16, if_neg (by omega), if_neg (by omega)]
  · rw [eeprom_w16, if_neg (by omega), if_neg (by omega)]

end Basics

/-! ## Bootstrap and the two wipes -/

section Bootstrap

/-- Cells of the store after a bootstrap that found no valid header. -/
theorem eeprom_eepromInitIfNeeded (s : State) (h : ¬ (e16 s 0 = 0xBEEF ∧ e16 s 2 = 1))
    (b : Nat) :
    (eepromInitIfNeeded s).eeprom b
      = if 1984 ≤ b ∧ b < 4096 then 0
        else if 64 ≤ b ∧ b < 1984 then 0xFF
        else if b = 0 then 0xEF
        else if b = 1 then 0xBE
        else if b = 2 then 1
        else if b < 12 then 0
        else s.eeprom b := by
  have hc : e16 s 0 ≠ 0xBEEF ∨ e16 s 2 ≠ 1 := by
    by_cases h0 : e16 s 0 = 0xBEEF
    · right; intro h2; exact h ⟨h0, h2⟩
    · left; exact h0
  unfold eepromInitIfNeeded
  simp only [hc, if_true]
  clear hc h
  simp only [eeprom_eepromCommit, eeprom_forRange_fill]
  simp only [eeprom_w16]
  simp only [LOG_START, AUTH_START, AUTH_MAX, AUTH_REC_SIZE, EEPROM_SIZE, Nat.reduceAdd,
    Nat.reduceMul, Nat.reduceSub, Nat.reduceMod, Nat.reduceDiv]
  by_cases h3 : b < 12
  · interval_cases b <;> simp
  · simp (disch := omega) only [if_neg, if_pos]
    split_ifs <;> first | rfl | omega

/-- Cells of the store after the registry wipe. -/
theorem eeprom_handleWipeCards (s : State) (b : Nat) :
    (handleWipeCards s true).eeprom b
      = if 64 ≤ b ∧ b < 1984 then 0xFF
        else if b = 4 ∨ b = 5 then 0
        else s.eeprom b := by
  unfold handleWipeCards
  simp only [Bool.not_true, Bool.false_eq_true, if_false, eeprom_emit, eeprom_eepromCommit, eeprom_forRange_fill, eeprom_w16]
  norm_num
  split_ifs <;> first | rfl | omega

/-- Cells of the store after the log wipe. -/
theorem eeprom_handleWipeLogs (s : State) (b : Nat) :
    (handleWipeLogs s true).eeprom b
      = if 1984 ≤ b ∧ b < 4096 then 0
        else if 6 ≤ b ∧ b < 12 then 0
        else s.eeprom b := by
  unfold handleWipeLogs
  simp only [Bool.not_true, Bool.false_eq_true, if_false, eeprom_emit, eeprom_eepromCommit, eeprom_forRange_fill, eeprom_w16]
  norm_num
  split_ifs <;> first | rfl | omega

theorem blankState_header : ¬ (e16 blankState 0 = 0xBEEF ∧ e16 blankState 2 = 1) := by
  have h : e16 blankState 2 = 255 + 256 * 255 :=
    e16_of_cells blankState 2 255 255 (by decide) rfl rfl (by decide) (by decide)
  rw [h]
  omega

/-- Header and partitions after a bootstrap that found no valid header. -/
theorem eepromInitIfNeeded_fresh (t : State) (ht : ¬ (e16 t 0 = 0xBEEF ∧ e16 t 2 = 1)) :
    e16 (eepromInitIfNeeded t) 0 = 0xBEEF ∧ e16 (eepromInitIfNeeded t) 2 = 1 ∧
    authCount (eepromInitIfNeeded t) = 0 ∧ logHead (eepromInitIfNeeded t) = 0 ∧
    logTail (eepromInitIfNeeded t) = 0 ∧ logCount (eepromInitIfNeeded t) = 0 ∧
    (∀ a, AUTH_START ≤ a → a < LOG_START → EEPROM.read (eepromInitIfNeeded t) a = 0xFF) ∧
    (∀ a, LOG_START ≤ a → a < EEPROM_SIZE → EEPROM.read (eepromInitIfNeeded t) a = 0x00) := by
  have cell := eeprom_eepromInitIfNeeded t ht
  refine ⟨?_, ?_, ?_, ?_, ?_, ?_, ?_, ?_⟩
  · exact e16_of_cells _ 0 0xEF 0xBE (by decide) (by rw [cell]; rfl) (by rw [cell]; rfl)
      (by decide) (by decide)
  · exact e16_of_cells _ 2 1 0 (by decide) (by rw [cell]; rfl) (by rw [cell]; rfl)
      (by decide) (by decide)
  · exact e16_of_cells _ 4 0 0 (by decide) (by rw [cell]; rfl) (by rw [cell]; rfl)
      (by decide) (by decide)
  · exact e16_of_cells _ 6 0 0 (by decide) (by rw [cell]; rfl) (by rw [cell]; rfl)
      (by decide) (by decide)
  · exact e16_of_cells _ 8 0 0 (by decide) (by rw [cell]; rfl) (by rw [cell]; rfl)
      (by decide) (by decide)
  · exact e16_of_cells _ 10 0 0 (by decide) (by rw [cell]; rfl) (by rw [cell]; rfl)
      (by decide) (by decide)
  · intro a h1 h2
    have h1n : 64 ≤ a := h1
    have h2n : a < 1984 := h2
    unfold EEPROM.read
    rw [cell, if_pos (show a < 4096 by omega),
      if_neg (show ¬ (1984 ≤ a ∧ a < 4096) by omega), if_pos ⟨h1n, h2n⟩]
  · intro a h1 h2
    have h1n : 1984 ≤ a := h1
    have h2n : a < 4096 := h2
    unfold EEPROM.read
    rw [cell, if_pos h2, if_pos ⟨h1n, h2n⟩]

/-- A store with a valid header is returned as it is. -/
theorem eepromInitIfNeeded_valid (t : State) (ht : e16 t 0 = 0xBEEF ∧ e16 t 2 = 1) :
    eepromInitIfNeeded t = t := by
  unfold eepromInitIfNeeded
  simp [ht.1, ht.2]

theorem emptyState_fields :
    authCount emptyState = 0 ∧ logHead emptyState = 0 ∧ logTail emptyState = 0 ∧
    logCount emptyState = 0 :=
  let h := eepromInitIfNeeded_fresh blankState blankState_header
  ⟨h.2.2.1, h.2.2.2.1, h.2.2.2.2.1, h.2.2.2.2.2.1⟩

/-- Claim C8. `eepromInitIfNeeded` leaves a store with magic 0xBEEF and
version 1 exactly as it is; on any other store it produces magic 0xBEEF,
version 1, all four counters 0, the registry partition filled with 0xFF and the
log partition with 0x00. Running it a second time changes nothing. -/
theorem eepromInitIfNeeded_bootstrap (s : State) :
    (e16 s 0 = 0xBEEF ∧ e16 s 2 = 1 → eepromInitIfNeeded s = s) ∧
    (¬ (e16 s 0 = 0xBEEF ∧ e16 s 2 = 1) →
      e16 (eepromInitIfNeeded s) 0 = 0xBEEF ∧ e16 (eepromInitIfNeeded s) 2 = 1 ∧
      authCount (eepromInitIfNeeded s) = 0 ∧ logHead (eepromInitIfNeeded s) = 0 ∧
      logTail (eepromInitIfNeeded s) = 0 ∧ logCount (eepromInitIfNeeded s) = 0 ∧
      (∀ a, AUTH_START ≤ a → a < LOG_START → EEPROM.read (eepromInitIfNeeded s) a = 0xFF) ∧
      (∀ a, LOG_START ≤ a → a < EEPROM_SIZE → EEPROM.read (eepromInitIfNeeded s) a = 0x00)) ∧
    eepromInitIfNeeded (eepromInitIfNeeded s) = eepromInitIfNeeded s := by
  refine ⟨eepromInitIfNeeded_valid s, eepromInitIfNeeded_fresh s, ?_⟩
  by_cases hs : e16 s 0 = 0xBEEF ∧ e16 s 2 = 1
  · rw [eepromInitIfNeeded_valid s hs]
    exact eepromInitIfNeeded_valid s hs
  · have h := eepromInitIfNeeded_fresh s hs
    exact eepromInitIfNeeded_valid _ ⟨h.1, h.2.1⟩

/-- Instance of C8 on a factory-fresh device (no valid header). -/
theorem eepromInitIfNeeded_bootstrap_witness :
    ¬ (e16 blankState 0 = 0xBEEF ∧ e16 blankState 2 = 1) ∧
    e16 (eepromInitIfNeeded blankState) 0 = 0xBEEF ∧
    e16 (eepromInitIfNeeded blankState) 2 = 1 ∧
    authCount (eepromInitIfNeeded blankState) = 0 :=
  ⟨blankState_header,
    ((eepromInitIfNeeded_bootstrap blankState).2.1 blankState_header).1,
    ((eepromInitIfNeeded_bootstrap blankState).2.1 blankState_header).2.1,
    ((eepromInitIfNeeded_bootstrap blankState).2.1 blankState_header).2.2.1⟩

/-- Claim C9. The registry wipe (body of `handleWipeCards`), from any store,
sets registryCount to 0, makes `authFind` fail for every credential, and leaves
logHead, logTail, logCount and every cell of the log partition unchanged. -/
theorem handleWipeCards_wipe (s : State) :
    authCount (handleWipeCards s true) = 0 ∧
    (∀ (uid : Nat → Nat) (uidLen : Nat), authFind (handleWipeCards s true) uid uidLen = none) ∧
    logHead (handleWipeCards s true) = logHead s ∧
    logTail (handleWipeCards s true) = logTail s ∧
    logCount (handleWipeCards s true) = logCount s ∧
    (∀ a, LOG_START ≤ a → a < EEPROM_SIZE → (handleWipeCards s true).eeprom a = s.eeprom a) := by
  have cell := eeprom_handleWipeCards s
  have hcount : authCount (handleWipeCards s true) = 0 :=
    e16_of_cells _ 4 0 0 (by decide) (by rw [cell]; rfl) (by rw [cell]; rfl)
      (by decide) (by decide)
  refine ⟨hcount, ?_, ?_, ?_, ?_, ?_⟩
  · intro uid uidLen
    unfold authFind
    rw [hcount]
    rfl
  · exact e16_congr (by rw [cell]; rfl) (by rw [cell]; rfl)
  · exact e16_congr (by rw [cell]; rfl) (by rw [cell]; rfl)
  · exact e16_congr (by rw [cell]; rfl) (by rw [cell]; rfl)
  · intro a h1 h2
    have h1n : 1984 ≤ a := h1
    rw [cell, if_neg (show ¬ (64 ≤ a ∧ a < 1984) by omega),
      if_neg (show ¬ (a = 4 ∨ a = 5) by omega)]

/-- Claim C10. The log wipe (body of `handleWipeLogs`), from any store, sets
logCount, logHead and logTail to 0, zero-fills the log partition, makes the
enumeration of `logListHTML` empty for every `maxRows`, and leaves
registryCount and the registry partition unchanged. -/
theorem handleWipeLogs_wipe (s : State) :
    logCount (handleWipeLogs s true) = 0 ∧
    logHead (handleWipeLogs s true) = 0 ∧
    logTail (handleWipeLogs s true) = 0 ∧
    (∀ a, LOG_START ≤ a → a < EEPROM_SIZE → EEPROM.read (handleWipeLogs s true) a = 0x00) ∧
    (∀ maxRows : Nat, logListHTML (handleWipeLogs s true) maxRows = []) ∧
    authCount (handleWipeLogs s true) = authCount s ∧
    (∀ a, AUTH_START ≤ a → a < LOG_START → (handleWipeLogs s true).eeprom a = s.eeprom a) := by
  have cell := eeprom_handleWipeLogs s
  have hcount : logCount (handleWipeLogs s true) = 0 :=
    e16_of_cells _ 10 0 0 (by decide) (by rw [cell]; rfl) (by rw [cell]; rfl)
      (by decide) (by decide)
  refine ⟨hcount, ?_, ?_, ?_, ?_, ?_, ?_⟩
  · exact e16_of_cells _ 6 0 0 (by decide) (by rw [cell]; rfl) (by rw [cell]; rfl)
      (by decide) (by decide)
  · exact e16_of_cells _ 8 0 0 (by decide) (by rw [cell]; rfl) (by rw [cell]; rfl)
      (by decide) (by decide)
  · intro a h1 h2
    have h1n : 1984 ≤ a := h1
    have h2n : a < 4096 := h2
    unfold EEPROM.read
    rw [cell, if_pos h2, if_pos ⟨h1n, h2n⟩]
  · intro maxRows
    unfold logListHTML
    rw [hcount]
    rfl
  · exact e16_congr (by rw [cell]; rfl) (by rw [cell]; rfl)
  · intro a h1 h2
    have h1n : 64 ≤ a := h1
    have h2n : a < 1984 := h2
    rw [cell, if_neg (show ¬ (1984 ≤ a ∧ a < 4096) by omega),
      if_neg (show ¬ (6 ≤ a ∧ a < 12) by omega)]

end Bootstrap

/-! ## The registry of authorised cards -/

section Registry

theorem sameUID_iff (a : Nat → Nat) (alen : Nat) (b : Nat → Nat) (blen : Nat) :
    sameUID a alen b blen = true ↔ alen = blen ∧ ∀ i, i < alen → a i % 256 = b i % 256 := by
  unfold sameUID
  by_cases h : alen = blen
  · simp [h, List.all_eq_true]
  · simp [h]

theorem sameUID_refl (a : Nat → Nat) (alen : Nat) : sameUID a alen a alen = true :=
  (sameUID_iff a alen a alen).mpr ⟨rfl, fun _ _ => rfl⟩

/-- `sameUID` only looks at the length and the first `alen` bytes. -/
theorem sameUID_congr_left {a a' : Nat → Nat} {alen : Nat} (b : Nat → Nat) (blen : Nat)
    (h : ∀ i, i < alen → a i % 256 = a' i % 256) :
    sameUID a alen b blen = sameUID a' alen b blen := by
  rw [Bool.eq_iff_iff, sameUID_iff, sameUID_iff]
  constructor
  · rintro ⟨h1, h2⟩; exact ⟨h1, fun i hi => (h i hi).symm.trans (h2 i hi)⟩
  · rintro ⟨h1, h2⟩; exact ⟨h1, fun i hi => (h i hi).trans (h2 i hi)⟩

theorem sameUID_congr_right (a : Nat → Nat) (alen : Nat) {b b' : Nat → Nat} (blen : Nat)
    (h : ∀ i, i < blen → b i % 256 = b' i % 256) :
    sameUID a alen b blen = sameUID a alen b' blen := by
  rw [Bool.eq_iff_iff, sameUID_iff, sameUID_iff]
  constructor
  · rintro ⟨h1, h2⟩; exact ⟨h1, fun i hi => (h2 i hi).trans (h i (h1 ▸ hi))⟩
  · rintro ⟨h1, h2⟩; exact ⟨h1, fun i hi => (h2 i hi).trans (h i (h1 ▸ hi)).symm⟩

theorem authFind_loop_succ (s : State) (uid : Nat → Nat) (uidLen n i : Nat) :
    authFind.loop s uid uidLen (n + 1) i
      = if authFind.hit s uid uidLen i = true then some i
        else authFind.loop s uid uidLen n (i + 1) := by
  rw [authFind.loop]
  unfold authFind.hit
  split_ifs <;> simp_all

theorem authFind_loop_eq_none (s : State) (uid : Nat → Nat) (uidLen : Nat) :
    ∀ (n i : Nat), authFind.loop s uid uidLen n i = none ↔
      ∀ j, i ≤ j → j < i + n → authFind.hit s uid uidLen j = false := by
  intro n
  induction n with
  | zero =>
    intro i
    simp only [authFind.loop, true_iff]
    intro j h1 h2
    omega
  | succ n ih =>
    intro i
    rw [authFind_loop_succ]
    by_cases hh : authFind.hit s uid uidLen i = true
    · rw [if_pos hh]
      constructor
      · intro h; cases h
      · intro h
        have := h i (Nat.le_refl _) (by omega)
        rw [hh] at this
        cases this
    · rw [if_neg hh, ih]
      constructor
      · intro h j h1 h2
        by_cases e : j = i
        · subst e; simpa using hh
        · exact h j (by omega) (by omega)
      · intro h j h1 h2
        exact h j (by omega) (by omega)

theorem authFind_loop_eq_some (s : State) (uid : Nat → Nat) (uidLen : Nat) (j : Nat) :
    ∀ (n i : Nat), authFind.loop s uid uidLen n i = some j ↔
      (i ≤ j ∧ j < i + n ∧ authFind.hit s uid uidLen j = true ∧
        ∀ k, i ≤ k → k < j → authFind.hit s uid uidLen k = false) := by
  intro n
  induction n with
  | zero =>
    intro i
    simp only [authFind.loop]
    constructor
    · intro h; cases h
    · rintro ⟨h1, h2, _⟩
      omega
  | succ n ih =>
    intro i
    rw [authFind_loop_succ]
    by_cases hh : authFind.hit s uid uidLen i = true
    · rw [if_pos hh]
      constructor
      · intro h
        have e : i = j := by simpa using h
        subst e
        exact ⟨Nat.le_refl _, by omega, hh, fun k h1 h2 => by omega⟩
      · rintro ⟨h1, h2, h3, h4⟩
        by_cases e : i = j
        · rw [e]
        · have := h4 i (Nat.le_refl _) (by omega)
          rw [hh] at this
          cases this
    · rw [if_neg hh, ih]
      constructor
      · rintro ⟨h1, h2, h3, h4⟩
        refine ⟨by omega, by omega, h3, ?_⟩
        intro k hk1 hk2
        by_cases e : k = i
        · subst e; simpa using hh
        · exact h4 k (by omega) hk2
      · rintro ⟨h1, h2, h3, h4⟩
        have hne : i ≠ j := by
          intro e; subst e; exact hh h3
        exact ⟨by omega, by omega, h3, fun k hk1 hk2 => h4 k (by omega) hk2⟩

/-- The test of slot `i` reads only the first 8 cells of the slot. -/
theorem authFind_hit_congr {s t : State} (uid : Nat → Nat) (uidLen i : Nat)
    (h : ∀ b, 64 + i * 24 ≤ b → b < 64 + i * 24 + 8 → s.eeprom b = t.eeprom b) :
    authFind.hit s uid uidLen i = authFind.hit t uid uidLen i := by
  unfold authFind.hit
  have h0 : EEPROM.read s (AUTH_START + i * AUTH_REC_SIZE)
      = EEPROM.read t (AUTH_START + i * AUTH_REC_SIZE) :=
    read_congr (h _ (Nat.le_refl _) (by show 64 + i * 24 < 64 + i * 24 + 8; omega))
  have h1 : ∀ k, k < 7 → EEPROM.read s (AUTH_START + i * AUTH_REC_SIZE + 1 + k)
      = EEPROM.read t (AUTH_START + i * AUTH_REC_SIZE + 1 + k) := by
    intro k hk
    exact read_congr (h _ (by show 64 + i * 24 ≤ 64 + i * 24 + 1 + k; omega)
      (by show 64 + i * 24 + 1 + k < 64 + i * 24 + 8; omega))
  simp only [h0]
  split
  · rfl
  · apply sameUID_congr_right
    intro k _
    by_cases hk : k < 7
    · simp only [hk, if_true, h1 k hk]
    · simp only [hk, if_false]

/-- The test of a slot does not distinguish UIDs that `sameUID` identifies. -/
theorem authFind_hit_sameUID {a b : Nat → Nat} {alen blen : Nat}
    (h : sameUID a alen b blen = true) (s : State) (i : Nat) :
    authFind.hit s a alen i = authFind.hit s b blen i := by
  obtain ⟨h1, h2⟩ := (sameUID_iff _ _ _ _).mp h
  subst h1
  unfold authFind.hit
  simp only []
  split
  · rfl
  · exact sameUID_congr_left _ _ h2


theorem authAdd_invalid (s : State) (uid : Nat → Nat) (uidLen : Nat) (name : List Nat)
    (h : uidLen = 0 ∨ uidLen > 7) : authAdd s uid uidLen name = (false, s) := by
  unfold authAdd
  rw [if_pos h]

theorem authAdd_found (s : State) (uid : Nat → Nat) (uidLen : Nat) (name : List Nat)
    (h : ¬ (uidLen = 0 ∨ uidLen > 7)) (hf : (authFind s uid uidLen).isSome = true) :
    authAdd s uid uidLen name = (true, s) := by
  unfold authAdd
  rw [if_neg h, if_pos hf]

theorem authAdd_full (s : State) (uid : Nat → Nat) (uidLen : Nat) (name : List Nat)
    (h : ¬ (uidLen = 0 ∨ uidLen > 7)) (hf : authFind s uid uidLen = none)
    (hc : authCount s ≥ AUTH_MAX) :
    authAdd s uid uidLen name = (false, s) := by
  unfold authAdd
  rw [if_neg h, hf]
  simp only [Option.isSome_none, Bool.false_eq_true, if_false, hc, if_true]

theorem authAdd_insert_fst (s : State) (uid : Nat → Nat) (uidLen : Nat) (name : List Nat)
    (h : ¬ (uidLen = 0 ∨ uidLen > 7)) (hf : authFind s uid uidLen = none)
    (hc : authCount s < AUTH_MAX) :
    (authAdd s uid uidLen name).1 = true := by
  unfold authAdd
  rw [if_neg h, hf]
  simp only [Option.isSome_none, Bool.false_eq_true, if_false, Nat.not_le.mpr hc]

/-- Cells of the store after an `authAdd` that appends a record. -/
theorem eeprom_authAdd_insert (s : State) (uid : Nat → Nat) (uidLen : Nat) (name : List Nat)
    (h : ¬ (uidLen = 0 ∨ uidLen > 7)) (hf : authFind s uid uidLen = none)
    (hc : authCount s < AUTH_MAX) (b : Nat) :
    (authAdd s uid uidLen name).2.eeprom b
      = if b = 5 then 0
        else if b = 4 then authCount s + 1
        else if 64 + authCount s * 24 ≤ b ∧ b < 64 + authCount s * 24 + 24 then
          authRecordByte uid uidLen name (b - (64 + authCount s * 24))
        else s.eeprom b := by
  have hc80 : authCount s < 80 := hc
  unfold authAdd
  rw [if_neg h, hf]
  simp only [Option.isSome_none, Bool.false_eq_true, if_false, Nat.not_le.mpr hc]
  simp only [eeprom_eepromCommit, eeprom_w16, eeprom_write, eeprom_forRange_write]
  simp only [AUTH_START, AUTH_REC_SIZE, EEPROM_SIZE, Nat.reduceAdd]
  generalize authCount s = c at *
  by_cases h5 : b = 5
  · subst h5
    rw [if_pos ⟨rfl, by omega⟩, if_pos rfl]
    omega
  rw [if_neg (show ¬ (b = 5 ∧ 5 < 4096) by omega), if_neg h5]
  by_cases h4 : b = 4
  · subst h4
    rw [if_pos ⟨rfl, by omega⟩, if_pos rfl]
    omega
  rw [if_neg (show ¬ (b = 4 ∧ 4 < 4096) by omega), if_neg h4]
  by_cases hin : 64 + c * 24 ≤ b ∧ b < 64 + c * 24 + 24
  · rw [if_pos hin]
    unfold authRecordByte
    by_cases k0 : b = 64 + c * 24
    · subst k0
      simp (disch := omega) only [if_neg, if_pos]
      rw [if_pos ⟨trivial, by omega⟩]
    · by_cases k8 : b < 64 + c * 24 + 8
      · simp (disch := omega) only [if_neg, if_pos]
        rw [show b - (64 + c * 24) - 1 = b - (64 + c * 24 + 1) by omega]
      · simp (disch := omega) only [if_neg, if_pos]
        rw [show b - (64 + c * 24) - 8 = b - (64 + c * 24 + 8) by omega]
  · rw [if_neg hin]
    simp (disch := omega) only [if_neg]


theorem authCount_authAdd_insert (s : State) (uid : Nat → Nat) (uidLen : Nat) (name : List Nat)
    (h : ¬ (uidLen = 0 ∨ uidLen > 7)) (hf : authFind s uid uidLen = none)
    (hc : authCount s < AUTH_MAX) :
    authCount (authAdd s uid uidLen name).2 = authCount s + 1 := by
  have hc80 : authCount s < 80 := hc
  have cell := eeprom_authAdd_insert s uid uidLen name h hf hc
  have e := e16_of_cells (authAdd s uid uidLen name).2 4 (authCount s + 1) 0 (by decide)
    (by rw [cell, if_neg (by decide), if_pos rfl]) (by rw [cell, if_pos rfl])
    (by omega) (by decide)
  unfold authCount at *
  rw [e]

theorem authFind_hit_authAdd_old (s : State) (uid : Nat → Nat) (uidLen : Nat) (name : List Nat)
    (h : ¬ (uidLen = 0 ∨ uidLen > 7)) (hf : authFind s uid uidLen = none)
    (hc : authCount s < AUTH_MAX) (c : Nat → Nat) (clen i : Nat) (hi : i ≠ authCount s) :
    authFind.hit (authAdd s uid uidLen name).2 c clen i = authFind.hit s c clen i := by
  apply authFind_hit_congr
  intro b h1 h2
  rw [eeprom_authAdd_insert s uid uidLen name h hf hc, if_neg (by omega), if_neg (by omega),
    if_neg (by omega)]

theorem authFind_hit_authAdd_new (s : State) (uid : Nat → Nat) (uidLen : Nat) (name : List Nat)
    (h : ¬ (uidLen = 0 ∨ uidLen > 7)) (hf : authFind s uid uidLen = none)
    (hc : authCount s < AUTH_MAX) (c : Nat → Nat) (clen : Nat) :
    authFind.hit (authAdd s uid uidLen name).2 c clen (authCount s)
      = sameUID c clen uid uidLen := by
  have hc80 : authCount s < 80 := hc
  have cell := eeprom_authAdd_insert s uid uidLen name h hf hc
  have hlen : EEPROM.read (authAdd s uid uidLen name).2 (AUTH_START + authCount s * AUTH_REC_SIZE)
      = uidLen := by
    show EEPROM.read _ (64 + authCount s * 24) = uidLen
    unfold EEPROM.read
    rw [if_pos (show 64 + authCount s * 24 < 4096 by omega), cell, if_neg (by omega),
      if_neg (by omega), if_pos (by omega)]
    unfold authRecordByte
    rw [if_pos (by omega)]
    omega
  have hbyte : ∀ k, k < 7 →
      EEPROM.read (authAdd s uid uidLen name).2 (AUTH_START + authCount s * AUTH_REC_SIZE + 1 + k)
        = (if k < uidLen then uid k else 0) % 256 := by
    intro k hk
    show EEPROM.read _ (64 + authCount s * 24 + 1 + k) = _
    unfold EEPROM.read
    rw [if_pos (show 64 + authCount s * 24 + 1 + k < 4096 by omega), cell, if_neg (by omega),
      if_neg (by omega), if_pos (by omega)]
    unfold authRecordByte
    rw [if_neg (by omega), if_pos (by omega),
      show 64 + authCount s * 24 + 1 + k - (64 + authCount s * 24) - 1 = k by omega]
    omega
  unfold authFind.hit
  simp only [hlen]
  rw [if_neg (by omega)]
  apply sameUID_congr_right
  intro k hk
  have hk7 : k < 7 := by omega
  rw [if_pos hk7, hbyte k hk7, if_pos hk]
  omega

/-- Lookup after an `authAdd` that appends a record: earlier entries keep
their index, the new credential is found in the slot `registryCount` had. -/
theorem authFind_authAdd_insert (s : State) (uid : Nat → Nat) (uidLen : Nat) (name : List Nat)
    (h : ¬ (uidLen = 0 ∨ uidLen > 7)) (hf : authFind s uid uidLen = none)
    (hc : authCount s < AUTH_MAX) (c : Nat → Nat) (clen : Nat) :
    authFind (authAdd s uid uidLen name).2 c clen
      = match authFind s c clen with
        | some i => some i
        | none => if sameUID c clen uid uidLen = true then some (authCount s) else none := by
  have hold := authFind_hit_authAdd_old s uid uidLen name h hf hc c clen
  have hnew := authFind_hit_authAdd_new s uid uidLen name h hf hc c clen
  have hcount := authCount_authAdd_insert s uid uidLen name h hf hc
  cases hs : authFind s c clen with
  | some i =>
    simp only []
    unfold authFind at hs ⊢
    simp only [] at hs ⊢
    rw [authFind_loop_eq_some] at hs ⊢
    obtain ⟨h1, h2, h3, h4⟩ := hs
    refine ⟨h1, by omega, ?_, ?_⟩
    · rw [hold i (by omega)]; exact h3
    · intro k hk1 hk2
      rw [hold k (by omega)]; exact h4 k hk1 hk2
  | none =>
    simp only []
    unfold authFind at hs ⊢
    simp only [] at hs ⊢
    rw [authFind_loop_eq_none] at hs
    by_cases hsame : sameUID c clen uid uidLen = true
    · rw [if_pos hsame, authFind_loop_eq_some]
      refine ⟨Nat.zero_le _, by omega, ?_, ?_⟩
      · rw [hnew]; exact hsame
      · intro k hk1 hk2
        rw [hold k (by omega)]; exact hs k hk1 (by omega)
    · rw [if_neg hsame, authFind_loop_eq_none]
      intro j hj1 hj2
      by_cases e : j = authCount s
      · rw [e, hnew]; simpa using hsame
      · rw [hold j e]; exact hs j hj1 (by omega)


theorem sameUID_symm (a : Nat → Nat) (alen : Nat) (b : Nat → Nat) (blen : Nat) :
    sameUID a alen b blen = sameUID b blen a alen := by
  rw [Bool.eq_iff_iff, sameUID_iff, sameUID_iff]
  constructor
  · rintro ⟨h1, h2⟩; exact ⟨h1.symm, fun i hi => (h2 i (h1 ▸ hi)).symm⟩
  · rintro ⟨h1, h2⟩; exact ⟨h1.symm, fun i hi => (h2 i (h1 ▸ hi)).symm⟩

/-- Lookup does not distinguish UIDs that `sameUID` identifies. -/
theorem authFind_sameUID {a b : Nat → Nat} {alen blen : Nat}
    (h : sameUID a alen b blen = true) (s : State) :
    authFind s a alen = authFind s b blen := by
  unfold authFind
  simp only []
  generalize authCount s = n
  generalize (0 : Nat) = i
  induction n generalizing i with
  | zero => rfl
  | succ n ih => rw [authFind_loop_succ, authFind_loop_succ, authFind_hit_sameUID h, ih]

theorem authFind_of_count_zero (s : State) (h : authCount s = 0) (uid : Nat → Nat)
    (uidLen : Nat) : authFind s uid uidLen = none := by
  unfold authFind
  rw [h]
  rfl

theorem authFind_lt_authCount (s : State) (uid : Nat → Nat) (uidLen i : Nat)
    (h : authFind s uid uidLen = some i) : i < authCount s := by
  unfold authFind at h
  simp only [] at h
  rw [authFind_loop_eq_some] at h
  omega

/-- Lookup after any sequence of `authAdd` calls, from any store: a credential
found before keeps its index; otherwise it is found exactly when some call for
it returned success, at the registryCount of the first such call. -/
theorem authFind_runAdds (ops : List AddOp) :
    ∀ (s : State) (c : Nat → Nat) (clen : Nat),
      authFind (runAdds s ops) c clen
        = match authFind s c clen with
          | some i => some i
          | none =>
            ((addResults s ops).find?
              (fun r => r.ok && sameUID r.op.uid r.op.uidLen c clen)).map
              AddResult.countBefore := by
  induction ops with
  | nil =>
    intro s c clen
    simp only [runAdds, addResults, List.find?_nil, Option.map_none']
    cases authFind s c clen <;> rfl
  | cons op ops ih =>
    intro s c clen
    rw [runAdds, ih, addResults, List.find?_cons]
    by_cases hinv : op.uidLen = 0 ∨ op.uidLen > 7
    · rw [authAdd_invalid s op.uid op.uidLen op.name hinv]
      simp only [Bool.false_and]
    · cases hfo : authFind s op.uid op.uidLen with
      | some j =>
        rw [authAdd_found s op.uid op.uidLen op.name hinv (by rw [hfo]; rfl)]
        cases hfc : authFind s c clen with
        | some i => rfl
        | none =>
          have hns : sameUID op.uid op.uidLen c clen = false := by
            cases hsm : sameUID op.uid op.uidLen c clen with
            | false => rfl
            | true =>
              rw [authFind_sameUID hsm s, hfc] at hfo
              cases hfo
          simp only [hns, Bool.and_false]
      | none =>
        by_cases hc : authCount s < AUTH_MAX
        · rw [authFind_authAdd_insert s op.uid op.uidLen op.name hinv hfo hc,
            authAdd_insert_fst s op.uid op.uidLen op.name hinv hfo hc]
          cases hfc : authFind s c clen with
          | some i => rfl
          | none =>
            rw [sameUID_symm c clen]
            cases hsm : sameUID op.uid op.uidLen c clen with
            | false => simp only [Bool.and_false, Bool.false_eq_true, if_false]
            | true => simp only [Bool.and_true, if_true, Option.map_some']
        · rw [authAdd_full s op.uid op.uidLen op.name hinv hfo (Nat.not_lt.mp hc)]
          simp only [Bool.false_and]


/-- Claim C2. Starting from a freshly bootstrapped store and after any
sequence of `authAdd` calls, for every credential c = (len, first len bytes):
if no call for c returned success, `authFind` does not find c; if a call for c
returned success, `authFind` finds c with the index equal to the value
registryCount had at the first such call; and whenever `authFind` finds c at
an index, a successful call for c was made at that value of registryCount. A
call is for c when its length equals len and its first len bytes equal those
of c, as bytes. -/
theorem authFind_lookup_correct (raw : State) (hraw : ¬ (e16 raw 0 = 0xBEEF ∧ e16 raw 2 = 1))
    (ops : List AddOp) (uid : Nat → Nat) (uidLen : Nat) :
    ((∀ r ∈ addResults (eepromInitIfNeeded raw) ops,
        (r.op.uidLen = uidLen ∧ ∀ k, k < uidLen → r.op.uid k % 256 = uid k % 256) →
        r.ok = false) →
      authFind (runAdds (eepromInitIfNeeded raw) ops) uid uidLen = none) ∧
    (∀ (before : List AddResult) (r : AddResult) (later : List AddResult),
      addResults (eepromInitIfNeeded raw) ops = before ++ r :: later →
      (r.op.uidLen = uidLen ∧ ∀ k, k < uidLen → r.op.uid k % 256 = uid k % 256) →
      r.ok = true →
      (∀ q ∈ before,
        (q.op.uidLen = uidLen ∧ ∀ k, k < uidLen → q.op.uid k % 256 = uid k % 256) →
        q.ok = false) →
      authFind (runAdds (eepromInitIfNeeded raw) ops) uid uidLen = some r.countBefore) ∧
    ((∃ r ∈ addResults (eepromInitIfNeeded raw) ops,
        (r.op.uidLen = uidLen ∧ ∀ k, k < uidLen → r.op.uid k % 256 = uid k % 256) ∧
        r.ok = true) →
      (authFind (runAdds (eepromInitIfNeeded raw) ops) uid uidLen).isSome = true) ∧
    (∀ i, authFind (runAdds (eepromInitIfNeeded raw) ops) uid uidLen = some i →
      ∃ r ∈ addResults (eepromInitIfNeeded raw) ops,
        (r.op.uidLen = uidLen ∧ ∀ k, k < uidLen → r.op.uid k % 256 = uid k % 256) ∧
        r.ok = true ∧ r.countBefore = i) := by
  have hc : ∀ (a : Nat → Nat) (alen : Nat),
      (alen = uidLen ∧ ∀ k, k < uidLen → a k % 256 = uid k % 256)
        ↔ sameUID a alen uid uidLen = true := by
    intro a alen
    rw [sameUID_iff]
    constructor
    · rintro ⟨h1, h2⟩; subst h1; exact ⟨rfl, h2⟩
    · rintro ⟨h1, h2⟩; subst h1; exact ⟨rfl, h2⟩
  simp only [hc]
  have h0 : authFind (eepromInitIfNeeded raw) uid uidLen = none :=
    authFind_of_count_zero _ (eepromInitIfNeeded_fresh raw hraw).2.2.1 uid uidLen
  have hmain := authFind_runAdds ops (eepromInitIfNeeded raw) uid uidLen
  rw [h0] at hmain
  simp only [] at hmain
  refine ⟨?_, ?_, ?_, ?_⟩
  · intro hnever
    rw [hmain, Option.map_eq_none', List.find?_eq_none]
    intro r hr hp
    simp only [Bool.and_eq_true] at hp
    have := hnever r hr hp.2
    rw [hp.1] at this
    cases this
  · intro before r later hsplit hsame hok hfirst
    have hfind : (addResults (eepromInitIfNeeded raw) ops).find?
        (fun r => r.ok && sameUID r.op.uid r.op.uidLen uid uidLen) = some r := by
      rw [List.find?_eq_some]
      refine ⟨by simp only [hok, hsame, Bool.and_self], before, later, hsplit, ?_⟩
      intro q hq
      cases hsq : sameUID q.op.uid q.op.uidLen uid uidLen with
      | false => simp only [Bool.and_false, Bool.not_false]
      | true => simp only [hfirst q hq hsq, Bool.false_and, Bool.not_false]
    rw [hmain, hfind]
    rfl
  · rintro ⟨r, hr, hsame, hok⟩
    rw [hmain, Option.isSome_map', List.find?_isSome]
    exact ⟨r, hr, by simp only [hok, hsame, Bool.and_self]⟩
  · intro i hi
    rw [hmain] at hi
    cases hf : (addResults (eepromInitIfNeeded raw) ops).find?
        (fun r => r.ok && sameUID r.op.uid r.op.uidLen uid uidLen) with
    | none => rw [hf] at hi; cases hi
    | some r =>
      rw [hf] at hi
      have hi2 : r.countBefore = i := by simpa using hi
      have hp := List.find?_some hf
      simp only [Bool.and_eq_true] at hp
      exact ⟨r, List.mem_of_find?_eq_some hf, hp.2, hp.1, hi2⟩

theorem emptyState_authFind (uid : Nat → Nat) (uidLen : Nat) :
    authFind emptyState uid uidLen = none :=
  authFind_of_count_zero _ emptyState_fields.1 uid uidLen

theorem emptyState_room : authCount emptyState < AUTH_MAX := by
  rw [emptyState_fields.1]; decide

theorem addResults_single (s : State) (op : AddOp) :
    addResults s [op]
      = [] ++ { op := op, ok := (authAdd s op.uid op.uidLen op.name).1,
                countBefore := authCount s } :: [] := rfl

theorem addResults_pair (s : State) (a b : AddOp) :
    addResults s [a, b]
      = [{ op := a, ok := (authAdd s a.uid a.uidLen a.name).1, countBefore := authCount s }]
        ++ { op := b
             ok := (authAdd (authAdd s a.uid a.uidLen a.name).2 b.uid b.uidLen b.name).1
             countBefore := authCount (authAdd s a.uid a.uidLen a.name).2 } :: [] := rfl

/-- Instance of C2 on a factory-fresh device: after registering the cards
04:a1:b2:c3 and 04:00:00:00 in this order, the first is found at index 0, the
second at index 1, and the 7-byte credential 04:a1:b2:c3:d4:e5:f6, which was
never added, is not found. -/
theorem authFind_lookup_correct_witness :
    ¬ (e16 blankState 0 = 0xBEEF ∧ e16 blankState 2 = 1) ∧
    authFind (runAdds (eepromInitIfNeeded blankState) [aliceCard, strangerCard]) aliceUID 4
      = some 0 ∧
    authFind (runAdds (eepromInitIfNeeded blankState) [aliceCard, strangerCard]) strangerUID 4
      = some 1 ∧
    authFind (runAdds (eepromInitIfNeeded blankState) [aliceCard, strangerCard]) tenByteUID 7
      = none := by
  have hv : ¬ ((4 : Nat) = 0 ∨ 4 > 7) := by decide
  have hokA : (authAdd emptyState aliceCard.uid aliceCard.uidLen aliceCard.name).1 = true :=
    authAdd_insert_fst emptyState aliceUID 4 aliceName hv
      (emptyState_authFind aliceUID 4) emptyState_room
  have hcount1 : authCount (authAdd emptyState aliceCard.uid aliceCard.uidLen aliceCard.name).2
      = 1 := by
    have := authCount_authAdd_insert emptyState aliceUID 4 aliceName hv
      (emptyState_authFind aliceUID 4) emptyState_room
    rw [emptyState_fields.1] at this
    exact this
  have hmissS : authFind (authAdd emptyState aliceCard.uid aliceCard.uidLen aliceCard.name).2
      strangerUID 4 = none := by
    have := authFind_authAdd_insert emptyState aliceUID 4 aliceName hv
      (emptyState_authFind aliceUID 4) emptyState_room strangerUID 4
    rw [emptyState_authFind strangerUID 4] at this
    simp only [] at this
    rw [if_neg (by decide)] at this
    exact this
  have hokS : (authAdd (authAdd emptyState aliceCard.uid aliceCard.uidLen aliceCard.name).2
      strangerCard.uid strangerCard.uidLen strangerCard.name).1 = true :=
    authAdd_insert_fst _ strangerUID 4 [] hv hmissS (by
      show authCount (authAdd emptyState aliceCard.uid aliceCard.uidLen aliceCard.name).2 < 80
      rw [hcount1]; decide)
  have hsplit0 : addResults emptyState [aliceCard, strangerCard]
      = [] ++ { op := aliceCard
                ok := (authAdd emptyState aliceCard.uid aliceCard.uidLen aliceCard.name).1
                countBefore := authCount emptyState }
          :: [{ op := strangerCard
                ok := (authAdd (authAdd emptyState aliceCard.uid aliceCard.uidLen
                  aliceCard.name).2 strangerCard.uid strangerCard.uidLen strangerCard.name).1
                countBefore := authCount (authAdd emptyState aliceCard.uid aliceCard.uidLen
                  aliceCard.name).2 }] := rfl
  have hcredA : aliceCard.uidLen = 4 ∧ ∀ k, k < 4 → aliceCard.uid k % 256 = aliceUID k % 256 :=
    ⟨rfl, fun _ _ => rfl⟩
  have hcredS : strangerCard.uidLen = 4 ∧
      ∀ k, k < 4 → strangerCard.uid k % 256 = strangerUID k % 256 :=
    ⟨rfl, fun _ _ => rfl⟩
  have hdiffAS : ¬ (aliceCard.uidLen = 4 ∧
      ∀ k, k < 4 → aliceCard.uid k % 256 = strangerUID k % 256) :=
    fun h => absurd (h.2 1 (by decide)) (by decide)
  have hdiffA : ¬ (aliceCard.uidLen = 7 ∧
      ∀ k, k < 7 → aliceCard.uid k % 256 = tenByteUID k % 256) :=
    fun h => absurd h.1 (by decide)
  have hdiffS : ¬ (strangerCard.uidLen = 7 ∧
      ∀ k, k < 7 → strangerCard.uid k % 256 = tenByteUID k % 256) :=
    fun h => absurd h.1 (by decide)
  have hA : authFind (runAdds (eepromInitIfNeeded blankState) [aliceCard, strangerCard])
      aliceUID 4 = some (authCount emptyState) := by
    with_reducible exact
      ((authFind_lookup_correct blankState blankState_header [aliceCard, strangerCard]
        aliceUID 4).2.1 []
        { op := aliceCard
          ok := (authAdd emptyState aliceCard.uid aliceCard.uidLen aliceCard.name).1
          countBefore := authCount emptyState }
        [{ op := strangerCard
           ok := (authAdd (authAdd emptyState aliceCard.uid aliceCard.uidLen
             aliceCard.name).2 strangerCard.uid strangerCard.uidLen strangerCard.name).1
           countBefore := authCount (authAdd emptyState aliceCard.uid aliceCard.uidLen
             aliceCard.name).2 }]
        hsplit0 hcredA hokA (fun q hq => absurd hq (List.not_mem_nil q)))
  have hS : authFind (runAdds (eepromInitIfNeeded blankState) [aliceCard, strangerCard])
      strangerUID 4
      = some (authCount (authAdd emptyState aliceCard.uid aliceCard.uidLen
          aliceCard.name).2) := by
    with_reducible exact
      ((authFind_lookup_correct blankState blankState_header [aliceCard, strangerCard]
        strangerUID 4).2.1
        [{ op := aliceCard
           ok := (authAdd emptyState aliceCard.uid aliceCard.uidLen aliceCard.name).1
           countBefore := authCount emptyState }]
        { op := strangerCard
          ok := (authAdd (authAdd emptyState aliceCard.uid aliceCard.uidLen
            aliceCard.name).2 strangerCard.uid strangerCard.uidLen strangerCard.name).1
          countBefore := authCount (authAdd emptyState aliceCard.uid aliceCard.uidLen
            aliceCard.name).2 }
        [] (addResults_pair emptyState aliceCard strangerCard) hcredS hokS
        (fun q hq hcred => by
          rw [List.mem_singleton] at hq
          subst hq
          exact absurd hcred hdiffAS))
  have hT : authFind (runAdds (eepromInitIfNeeded blankState) [aliceCard, strangerCard])
      tenByteUID 7 = none := by
    with_reducible exact
      (authFind_lookup_correct blankState blankState_header [aliceCard, strangerCard]
        tenByteUID 7).1 (fun r hr hcred => by
          rw [addResults_pair, List.mem_append, List.mem_singleton, List.mem_singleton] at hr
          rcases hr with hr | hr
          · subst hr
            exact absurd hcred hdiffA
          · subst hr
            exact absurd hcred hdiffS)
  rw [emptyState_fields.1] at hA
  rw [hcount1] at hS
  with_reducible exact ⟨blankState_header, hA, hS, hT⟩

/-- Claim C3. For a credential of length 1..7 that is not registered, on a
store with registryCount < 80: `authAdd` twice with any two labels returns
success both times, registryCount ends exactly 1 higher than at the start,
`authFind` succeeds after either call, and the second call leaves the whole
state as it is. -/
theorem authAdd_idempotent (s : State) (uid : Nat → Nat) (uidLen : Nat) (l l' : List Nat)
    (hlen : 1 ≤ uidLen ∧ uidLen ≤ 7) (hnew : authFind s uid uidLen = none)
    (hroom : authCount s < AUTH_MAX) :
    (authAdd s uid uidLen l).1 = true ∧
    (authAdd (authAdd s uid uidLen l).2 uid uidLen l').1 = true ∧
    authCount (authAdd (authAdd s uid uidLen l).2 uid uidLen l').2 = authCount s + 1 ∧
    authFind (authAdd s uid uidLen l).2 uid uidLen = some (authCount s) ∧
    authFind (authAdd (authAdd s uid uidLen l).2 uid uidLen l').2 uid uidLen
      = some (authCount s) ∧
    (authAdd (authAdd s uid uidLen l).2 uid uidLen l').2 = (authAdd s uid uidLen l).2 := by
  have hinv : ¬ (uidLen = 0 ∨ uidLen > 7) := by omega
  have hfound : authFind (authAdd s uid uidLen l).2 uid uidLen = some (authCount s) := by
    rw [authFind_authAdd_insert s uid uidLen l hinv hnew hroom, hnew]
    simp only [sameUID_refl, if_true]
  have hsecond : authAdd (authAdd s uid uidLen l).2 uid uidLen l'
      = (true, (authAdd s uid uidLen l).2) :=
    authAdd_found _ uid uidLen l' hinv (by rw [hfound]; rfl)
  rw [hsecond]
  exact ⟨authAdd_insert_fst s uid uidLen l hinv hnew hroom, rfl,
    authCount_authAdd_insert s uid uidLen l hinv hnew hroom, hfound, hfound, rfl⟩

/-- Instance of C3 on the freshly bootstrapped store with the card
04:a1:b2:c3. -/
theorem authAdd_idempotent_witness :
    authCount (authAdd (authAdd emptyState aliceUID 4 aliceName).2 aliceUID 4 []).2
      = authCount emptyState + 1 :=
  (authAdd_idempotent emptyState aliceUID 4 aliceName [] (by decide)
    (emptyState_authFind aliceUID 4) emptyState_room).2.2.1


/-- Adding pairwise different valid credentials, none of them registered yet,
while there is room: every call succeeds and registryCount grows by one per
call. -/
theorem runAdds_distinct (ops : List AddOp) :
    ∀ (s : State),
      (∀ op ∈ ops, 1 ≤ op.uidLen ∧ op.uidLen ≤ 7) →
      ops.Pairwise (fun a b => sameUID a.uid a.uidLen b.uid b.uidLen = false) →
      (∀ op ∈ ops, authFind s op.uid op.uidLen = none) →
      authCount s + ops.length ≤ AUTH_MAX →
      authCount (runAdds s ops) = authCount s + ops.length ∧
      ∀ r ∈ addResults s ops, r.ok = true := by
  induction ops with
  | nil =>
    intro s _ _ _ _
    exact ⟨rfl, fun r hr => absurd hr (List.not_mem_nil r)⟩
  | cons op ops ih =>
    intro s hvalid hdist hnone hroom
    have hlen := hvalid op (List.mem_cons_self _ _)
    have hinv : ¬ (op.uidLen = 0 ∨ op.uidLen > 7) := by omega
    have hfo := hnone op (List.mem_cons_self _ _)
    have hc : authCount s < AUTH_MAX := by
      simp only [List.length_cons] at hroom
      omega
    have hcount := authCount_authAdd_insert s op.uid op.uidLen op.name hinv hfo hc
    rw [List.pairwise_cons] at hdist
    have hrest := ih (authAdd s op.uid op.uidLen op.name).2
      (fun q hq => hvalid q (List.mem_cons_of_mem _ hq)) hdist.2
      (by
        intro q hq
        rw [authFind_authAdd_insert s op.uid op.uidLen op.name hinv hfo hc,
          hnone q (List.mem_cons_of_mem _ hq)]
        have hd := hdist.1 q hq
        rw [sameUID_symm] at hd
        simp only [hd, Bool.false_eq_true, if_false])
      (by
        rw [hcount]
        simp only [List.length_cons] at hroom
        omega)
    constructor
    · rw [runAdds, hrest.1, hcount, List.length_cons]
      omega
    · intro r hr
      rw [addResults, List.mem_cons] at hr
      rcases hr with rfl | hr
      · exact authAdd_insert_fst s op.uid op.uidLen op.name hinv hfo hc
      · exact hrest.2 r hr

/-- Claim C4. After AUTH_MAX (80) `authAdd` calls with pairwise different
valid credentials on a freshly bootstrapped store every call has succeeded and
registryCount is 80; the next `authAdd` with a credential that is not in the
registry returns failure and leaves the whole state, registryCount included,
as it is. -/
theorem authAdd_capacity (raw : State) (hraw : ¬ (e16 raw 0 = 0xBEEF ∧ e16 raw 2 = 1))
    (ops : List AddOp) (hlen : ops.length = AUTH_MAX)
    (hvalid : ∀ op ∈ ops, 1 ≤ op.uidLen ∧ op.uidLen ≤ 7)
    (hdist : ops.Pairwise (fun a b => sameUID a.uid a.uidLen b.uid b.uidLen = false)) :
    (∀ r ∈ addResults (eepromInitIfNeeded raw) ops, r.ok = true) ∧
    authCount (runAdds (eepromInitIfNeeded raw) ops) = 80 ∧
    (∀ (uid : Nat → Nat) (uidLen : Nat) (name : List Nat),
      authFind (runAdds (eepromInitIfNeeded raw) ops) uid uidLen = none →
      authAdd (runAdds (eepromInitIfNeeded raw) ops) uid uidLen name
        = (false, runAdds (eepromInitIfNeeded raw) ops)) := by
  have h0 : authCount (eepromInitIfNeeded raw) = 0 := (eepromInitIfNeeded_fresh raw hraw).2.2.1
  have hrun := runAdds_distinct ops (eepromInitIfNeeded raw) hvalid hdist
    (fun op _ => authFind_of_count_zero _ h0 op.uid op.uidLen)
    (by rw [h0, hlen]; decide)
  have hcount : authCount (runAdds (eepromInitIfNeeded raw) ops) = 80 := by
    rw [hrun.1, h0, hlen]
    rfl
  refine ⟨hrun.2, hcount, ?_⟩
  intro uid uidLen name hnf
  by_cases hinv : uidLen = 0 ∨ uidLen > 7
  · exact authAdd_invalid _ uid uidLen name hinv
  · exact authAdd_full _ uid uidLen name hinv hnf (by rw [hcount])

theorem eightyCards_length : eightyCards.length = AUTH_MAX := by
  simp [eightyCards]

theorem eightyCards_valid : ∀ op ∈ eightyCards, 1 ≤ op.uidLen ∧ op.uidLen ≤ 7 := by
  intro op hop
  simp only [eightyCards, List.mem_map] at hop
  obtain ⟨i, _, rfl⟩ := hop
  exact ⟨Nat.le_refl _, Nat.le_of_ble_eq_true rfl⟩

theorem eightyCards_distinct :
    eightyCards.Pairwise (fun a b => sameUID a.uid a.uidLen b.uid b.uidLen = false) := by
  unfold eightyCards
  rw [List.pairwise_map]
  refine List.Pairwise.imp_of_mem ?_ (List.pairwise_lt_range 80)
  intro i j hi hj hij
  rw [List.mem_range] at hi hj
  cases hs : sameUID (fun _ => i) 1 (fun _ => j) 1 with
  | false => rfl
  | true =>
    have := ((sameUID_iff _ _ _ _).mp hs).2 0 (by decide)
    simp only [] at this
    omega

/-- Instance of C4 on a factory-fresh device with the eighty one-byte cards
0..79. -/
theorem authAdd_capacity_witness :
    authCount (runAdds (eepromInitIfNeeded blankState) eightyCards) = 80 :=
  (authAdd_capacity blankState blankState_header eightyCards eightyCards_length
    eightyCards_valid eightyCards_distinct).2.1

end Registry

/-! ## The ring log -/

section RingLog

/-- Cells outside the header fields 6..11 after one `logWriteOne`. -/
theorem eeprom_logWriteOne (s : State) (uid : Nat → Nat) (uidLen : Nat) (allowed : Bool)
    (rtc : Nat) (b : Nat) (hb : b < 6 ∨ 12 ≤ b) :
    (logWriteOne s uid uidLen allowed rtc).eeprom b
      = if 1984 + logHead s * 16 ≤ b ∧ b < 1984 + logHead s * 16 + 16 ∧ b < 4096 then
          logRecordByte uid uidLen allowed (nowUnix s rtc) (b - (1984 + logHead s * 16))
        else s.eeprom b := by
  unfold logWriteOne
  simp only [eeprom_eepromCommit, eeprom_w16, eeprom_write, eeprom_forRange_write]
  simp only [LOG_START, AUTH_START, AUTH_MAX, AUTH_REC_SIZE, EEPROM_SIZE, LOG_REC_SIZE,
    Nat.reduceAdd, Nat.reduceMul, Nat.reduceSub, Nat.reduceMod, Nat.reduceDiv]
  simp only [nowUnix, ds3231_ok_forRange_write, ds3231_ok_write]
  generalize logHead s = h
  rw [if_neg (show ¬ (b = 11 ∧ 11 < 4096) by omega), if_neg (show ¬ (b = 10 ∧ 10 < 4096) by omega),
    if_neg (show ¬ (b = 9 ∧ 9 < 4096) by omega), if_neg (show ¬ (b = 8 ∧ 8 < 4096) by omega),
    if_neg (show ¬ (b = 7 ∧ 7 < 4096) by omega), if_neg (show ¬ (b = 6 ∧ 6 < 4096) by omega)]
  by_cases hin : 1984 + h * 16 ≤ b ∧ b < 1984 + h * 16 + 16 ∧ b < 4096
  · rw [if_pos hin]
    obtain ⟨k, hk, rfl⟩ : ∃ k, k < 16 ∧ b = 1984 + h * 16 + k := ⟨b - (1984 + h * 16), by omega, by omega⟩
    have e : 1984 + h * 16 + k - (1984 + h * 16) = k := by omega
    rw [e]
    have hlt : 1984 + h * 16 + k < 4096 := hin.2.2
    unfold logRecordByte
    interval_cases k
    all_goals simp (disch := omega) only [if_neg, if_pos]
    all_goals simp only [Nat.add_sub_add_left, Nat.add_zero, true_and, if_pos hlt, if_true]
    all_goals first | rfl | (cases allowed <;> rfl) | rw [if_pos (by omega)]
  · rw [if_neg hin]
    simp (disch := omega) only [if_neg]

theorem logHead_logWriteOne (s : State) (uid : Nat → Nat) (uidLen : Nat) (allowed : Bool)
    (rtc : Nat) :
    logHead (logWriteOne s uid uidLen allowed rtc) = (logHead s + 1) % LOG_CAPACITY := by
  unfold logWriteOne
  simp only [logHead, e16_eepromCommit]
  rw [e16_w16_other _ _ _ _ (by omega), e16_w16_other _ _ _ _ (by omega),
    e16_w16_same _ _ _ (by decide)]
  have : (e16 s 6 + 1) % LOG_CAPACITY < 132 := Nat.mod_lt _ (by decide)
  omega

theorem logTail_logWriteOne (s : State) (uid : Nat → Nat) (uidLen : Nat) (allowed : Bool)
    (rtc : Nat) :
    logTail (logWriteOne s uid uidLen allowed rtc)
      = if logCount s ≥ LOG_THRESHOLD then (logTail s + 1) % LOG_CAPACITY else logTail s := by
  unfold logWriteOne
  simp only [e16_eepromCommit, logTail]
  rw [e16_w16_other _ _ _ _ (by omega), e16_w16_same _ _ _ (by decide)]
  have h1 : (e16 s 8 + 1) % LOG_CAPACITY < 132 := Nat.mod_lt _ (by decide)
  have h2 := e16_lt s 8
  split <;> simp only [] <;> omega

theorem logCount_logWriteOne (s : State) (uid : Nat → Nat) (uidLen : Nat) (allowed : Bool)
    (rtc : Nat) :
    logCount (logWriteOne s uid uidLen allowed rtc)
      = if logCount s ≥ LOG_THRESHOLD then
          (if logCount s - 1 < LOG_CAPACITY then logCount s else logCount s - 1)
        else logCount s + 1 := by
  unfold logWriteOne
  simp only [e16_eepromCommit, logCount]
  rw [e16_w16_same _ _ _ (by decide)]
  have h2 := e16_lt s 10
  generalize e16 s 10 = c at *
  simp only [LOG_THRESHOLD, LOG_CAPACITY, EEPROM_SIZE, LOG_START, AUTH_START, AUTH_MAX, AUTH_REC_SIZE, LOG_REC_SIZE, Nat.reduceAdd,
    Nat.reduceMul, Nat.reduceSub, Nat.reduceMod, Nat.reduceDiv]
  split_ifs <;> simp only [] <;> omega

/-- Claim C6. With threshold = floor(0.9 x LOG_CAPACITY) = 118: on a log state
with logCount <= LOG_CAPACITY, `logWriteOne` below the threshold keeps logTail
and adds 1 to logCount; at or above the threshold it advances logTail by one
slot (mod LOG_CAPACITY) and decrements then increments logCount; in both cases
logHead advances by one slot (mod LOG_CAPACITY) and the new logCount does not
exceed LOG_CAPACITY. -/
theorem logWriteOne_threshold (s : State) (uid : Nat → Nat) (uidLen : Nat) (allowed : Bool)
    (rtc : Nat) (hwf : logCount s ≤ LOG_CAPACITY) :
    LOG_THRESHOLD = LOG_CAPACITY * 9 / 10 ∧
    (logCount s < LOG_THRESHOLD →
      logTail (logWriteOne s uid uidLen allowed rtc) = logTail s ∧
      logCount (logWriteOne s uid uidLen allowed rtc) = logCount s + 1) ∧
    (LOG_THRESHOLD ≤ logCount s →
      logTail (logWriteOne s uid uidLen allowed rtc) = (logTail s + 1) % LOG_CAPACITY ∧
      logCount (logWriteOne s uid uidLen allowed rtc) = logCount s - 1 + 1 ∧
      0 < logCount s) ∧
    logHead (logWriteOne s uid uidLen allowed rtc) = (logHead s + 1) % LOG_CAPACITY ∧
    logCount (logWriteOne s uid uidLen allowed rtc) ≤ LOG_CAPACITY := by
  have hcap : logCount s ≤ 132 := hwf
  refine ⟨by decide, ?_, ?_, logHead_logWriteOne s uid uidLen allowed rtc, ?_⟩
  · intro h
    have h118 : logCount s < 118 := h
    have hn : ¬ logCount s ≥ LOG_THRESHOLD := Nat.not_le.mpr h
    rw [logTail_logWriteOne, logCount_logWriteOne, if_neg hn, if_neg hn]
    exact ⟨rfl, rfl⟩
  · intro h
    have h118 : 118 ≤ logCount s := h
    rw [logTail_logWriteOne, logCount_logWriteOne, if_pos h, if_pos h,
      if_pos (show logCount s - 1 < LOG_CAPACITY from (by omega : logCount s - 1 < 132))]
    exact ⟨rfl, by omega, by omega⟩
  · rw [logCount_logWriteOne]
    show _ ≤ 132
    have e1 : LOG_THRESHOLD = 118 := rfl
    have e2 : LOG_CAPACITY = 132 := rfl
    rw [e1, e2]
    split_ifs <;> omega

theorem or_shift8 (a x : Nat) (ha : a < 256) : a ||| (x <<< 8) = a + 256 * x := by
  rw [Nat.or_comm, Nat.shiftLeft_eq, Nat.mul_comm,
    ← Nat.mul_add_lt_is_or (show a < 2 ^ 8 from ha)]
  omega

theorem or_shift16 (a x : Nat) (ha : a < 65536) : a ||| (x <<< 16) = a + 65536 * x := by
  rw [Nat.or_comm, Nat.shiftLeft_eq, Nat.mul_comm,
    ← Nat.mul_add_lt_is_or (show a < 2 ^ 16 from ha)]
  omega

theorem or_shift24 (a x : Nat) (ha : a < 16777216) : a ||| (x <<< 24) = a + 16777216 * x := by
  rw [Nat.or_comm, Nat.shiftLeft_eq, Nat.mul_comm,
    ← Nat.mul_add_lt_is_or (show a < 2 ^ 24 from ha)]
  omega

theorem shr_and_byte (ts i : Nat) : ((ts >>> (8 * i)) &&& 0xFF) % 256 = ts / 2 ^ (8 * i) % 256 := by
  rw [show (0xFF : Nat) = 2 ^ 8 - 1 from rfl, Nat.and_pow_two_sub_one_eq_mod,
    Nat.shiftRight_eq_div_pow]
  norm_num

/-- Reassembling the four timestamp bytes of a record gives the timestamp. -/
theorem ts_roundtrip (ts : Nat) (h : ts < 2 ^ 32) :
    ((ts / 2 ^ (8 * 0) % 256) ||| ((ts / 2 ^ (8 * 1) % 256) <<< 8) |||
      ((ts / 2 ^ (8 * 2) % 256) <<< 16) ||| ((ts / 2 ^ (8 * 3) % 256) <<< 24)) % 2 ^ 32 = ts := by
  norm_num at h ⊢
  rw [or_shift8 _ _ (by omega), or_shift16 _ _ (by omega), or_shift24 _ _ (by omega)]
  omega

theorem nowUnix_lt (s : State) (rtc : Nat) : nowUnix s rtc < 2 ^ 32 := by
  unfold nowUnix
  split
  · exact Nat.mod_lt _ (by decide)
  · decide

/-- A slot whose cells hold the record bytes decodes to the row of the call. -/
theorem row_of_cells (s t : State) (base : Nat) (e : LogEntry) (hb : base + 15 < 4096)
    (hcells : ∀ k, k < 16 →
      s.eeprom (base + k) = logRecordByte e.uid e.uidLen e.allowed (nowUnix t e.rtc) k) :
    logListHTML.row s base = logRowOf t e := by
  have hread : ∀ k, k < 16 → EEPROM.read s (base + k)
      = logRecordByte e.uid e.uidLen e.allowed (nowUnix t e.rtc) k % 256 := by
    intro k hk
    unfold EEPROM.read
    rw [if_pos (show base + k < 4096 by omega), hcells k hk]
  have h0 := hread 0 (by decide)
  have h8 := hread 8 (by decide)
  have h9 := hread 9 (by decide)
  have h10 := hread 10 (by decide)
  have h11 := hread 11 (by decide)
  have h12 := hread 12 (by decide)
  have hu : ∀ k, k < 7 → EEPROM.read s (base + 1 + k)
      = (if k < e.uidLen then e.uid k else 0) % 256 := by
    intro k hk
    have := hread (1 + k) (by omega)
    rw [← Nat.add_assoc] at this
    rw [this]
    unfold logRecordByte
    rw [if_neg (by omega), if_pos (by omega), show 1 + k - 1 = k by omega]
    omega
  unfold logRecordByte at h0 h8 h9 h10 h11 h12
  simp only [Nat.reduceEqDiff, Nat.reduceLT, Nat.reduceSub, if_true, if_false, Nat.lt_irrefl,
    Nat.reduceMod, Nat.mod_mod, shr_and_byte] at h0 h8 h9 h10 h11 h12
  unfold logListHTML.row logRowOf
  simp only [h0, h8, h9, h10, h11, h12]
  have hts := ts_roundtrip (nowUnix t e.rtc) (nowUnix_lt t e.rtc)
  congr 1
  · apply List.map_congr_left
    intro k hk
    exact hu k (List.mem_range.mp hk)
  · cases e.allowed <;> rfl

theorem runLogs_append (s : State) (es : List LogEntry) (e : LogEntry) :
    runLogs s (es ++ [e]) = logWriteOne (runLogs s es) e.uid e.uidLen e.allowed e.rtc := by
  unfold runLogs
  rw [List.foldl_append]
  rfl

theorem ds3231_ok_logWriteOne (s : State) (uid : Nat → Nat) (uidLen : Nat) (allowed : Bool)
    (rtc : Nat) : (logWriteOne s uid uidLen allowed rtc).ds3231_ok = s.ds3231_ok := by
  unfold logWriteOne
  simp only [eepromCommit, emit, w16, ds3231_ok_write, ds3231_ok_forRange_write]

theorem nowUnix_congr {s t : State} (h : s.ds3231_ok = t.ds3231_ok) (r : Nat) :
    nowUnix s r = nowUnix t r := by
  unfold nowUnix; rw [h]

/-- State of the ring after the calls `es` on a log that was empty: the header
fields, and the cells of the slots of the retained calls. -/
theorem ring_after_runLogs (s : State) (h0 : logHead s = 0 ∧ logTail s = 0 ∧ logCount s = 0)
    (es : List LogEntry) :
    (runLogs s es).ds3231_ok = s.ds3231_ok ∧
    logHead (runLogs s es) = es.length % 132 ∧
    logCount (runLogs s es) = min es.length 118 ∧
    logTail (runLogs s es) = (es.length - min es.length 118) % 132 ∧
    ∀ (i : Nat) (e : LogEntry), es[i]? = some e → es.length - min es.length 118 ≤ i →
      ∀ k, k < 16 →
        (runLogs s es).eeprom (1984 + (i % 132) * 16 + k)
          = logRecordByte e.uid e.uidLen e.allowed (nowUnix s e.rtc) k := by
  induction es using List.reverseRecOn with
  | nil =>
    refine ⟨rfl, h0.1, h0.2.2, h0.2.1, ?_⟩
    intro i e hi
    simp at hi
  | append_singleton es e ih =>
    obtain ⟨ihd, ihh, ihc, iht, ihcells⟩ := ih
    rw [runLogs_append]
    have hlen : (es ++ [e]).length = es.length + 1 := by simp
    rw [hlen]
    refine ⟨?_, ?_, ?_, ?_, ?_⟩
    · rw [ds3231_ok_logWriteOne, ihd]
    · rw [logHead_logWriteOne, ihh]
      show (es.length % 132 + 1) % 132 = _
      omega
    · rw [logCount_logWriteOne, ihc]
      show (if min es.length 118 ≥ 118 then
        (if min es.length 118 - 1 < 132 then min es.length 118 else min es.length 118 - 1)
        else min es.length 118 + 1) = _
      split_ifs <;> omega
    · rw [logTail_logWriteOne, ihc, iht]
      show (if min es.length 118 ≥ 118 then ((es.length - min es.length 118) % 132 + 1) % 132
        else (es.length - min es.length 118) % 132) = _
      split_ifs <;> omega
    · intro i e' hi hlo k hk
      have hilt : i < es.length + 1 := by
        have := (List.getElem?_eq_some.mp hi).1
        rw [hlen] at this
        exact this
      rw [eeprom_logWriteOne _ _ _ _ _ _ (Or.inr (by omega)), ihh]
      by_cases hnew : i = es.length
      · subst hnew
        have he : e' = e := by
          rw [List.getElem?_append_right (Nat.le_refl _)] at hi
          simpa using hi.symm
        subst he
        rw [if_pos (by omega), nowUnix_congr ihd]
        congr 1
        omega
      · have hi' : es[i]? = some e' := by
          rw [List.getElem?_append_left (by omega)] at hi
          exact hi
        rw [if_neg (by omega)]
        exact ihcells i e' hi' (by omega) k hk

/-- The loop of `logListHTML` yields the rows of the slots `tail + j`, for the
first `min cnt maxRows` indexes `j`. -/
theorem logListHTML_loop_eq (s : State) (tail cnt maxRows : Nat) :
    ∀ (n i : Nat), logListHTML.loop s tail cnt maxRows n i i
      = (List.range' i (min n (min cnt maxRows - i))).map
          (fun j => logListHTML.row s (LOG_START + ((tail + j) % LOG_CAPACITY) * LOG_REC_SIZE)) := by
  intro n
  induction n with
  | zero =>
    intro i
    rw [Nat.zero_min]
    rfl
  | succ n ih =>
    intro i
    rw [logListHTML.loop]
    by_cases h : i < cnt ∧ i < maxRows
    · rw [if_pos h, ih]
      have e : min (n + 1) (min cnt maxRows - i) = min n (min cnt maxRows - (i + 1)) + 1 := by
        omega
      rw [e, List.range'_succ, List.map_cons]
    · rw [if_neg h]
      have e : min (n + 1) (min cnt maxRows - i) = 0 := by omega
      rw [e]
      rfl

theorem logListHTML_eq (s : State) (maxRows : Nat) :
    logListHTML s maxRows
      = (List.range' 0 (min (logCount s) maxRows)).map
          (fun j => logListHTML.row s
            (LOG_START + ((logTail s + j) % LOG_CAPACITY) * LOG_REC_SIZE)) := by
  unfold logListHTML
  simp only []
  rw [logListHTML_loop_eq]
  congr 2
  omega

/-- After the calls `es` on a log that was empty, `logListHTML` shows the last
`min es.length 118` calls, oldest first, cut after `maxRows` rows. -/
theorem logListHTML_runLogs (s : State) (h0 : logHead s = 0 ∧ logTail s = 0 ∧ logCount s = 0)
    (es : List LogEntry) (maxRows : Nat) :
    logListHTML (runLogs s es) maxRows
      = (((es.drop (es.length - min es.length 118)).take maxRows).map (logRowOf s)) := by
  obtain ⟨_, _, hc, ht, hcells⟩ := ring_after_runLogs s h0 es
  rw [logListHTML_eq, hc, ht]
  apply List.ext_getElem?
  intro j
  rw [List.getElem?_map, List.getElem?_map, List.getElem?_take, List.getElem?_drop]
  by_cases hj : j < min (min es.length 118) maxRows
  · rw [List.getElem?_range' 0 1 hj, if_pos (by omega)]
    have hlt : es.length - min es.length 118 + j < es.length := by omega
    rw [List.getElem?_eq_getElem hlt]
    simp only [Option.map_some', Option.some.injEq]
    have hidx : ((es.length - min es.length 118) % 132 + (0 + 1 * j)) % LOG_CAPACITY
        = (es.length - min es.length 118 + j) % 132 := by
      show ((es.length - min es.length 118) % 132 + (0 + 1 * j)) % 132 = _
      omega
    rw [hidx]
    apply row_of_cells _ s _ _ (by show 1984 + _ * 16 + 15 < 4096; omega)
    intro k hk
    exact hcells _ _ (List.getElem?_eq_getElem hlt) (by omega) k hk
  · rw [List.getElem?_eq_none (by rw [List.length_range']; omega)]
    by_cases hm : j < maxRows
    · rw [if_pos hm, List.getElem?_eq_none (by omega)]
      rfl
    · rw [if_neg hm]
      rfl

theorem emptyState_log :
    logHead emptyState = 0 ∧ logTail emptyState = 0 ∧ logCount emptyState = 0 :=
  emptyState_fields.2

/-- Instance of C6 on both sides of the threshold. On the freshly bootstrapped
store (logCount 0) a write evicts nothing: logTail stays 0 and logCount becomes
1. After 118 writes logCount is at the threshold, and the next write evicts
the oldest record: logTail moves from 0 to 1, logCount stays 118, logHead
moves from 118 to 119. -/
theorem logWriteOne_threshold_witness :
    (logCount emptyState ≤ LOG_CAPACITY ∧ logCount emptyState < LOG_THRESHOLD ∧
      logTail (logWriteOne emptyState aliceUID 4 false 0) = 0 ∧
      logCount (logWriteOne emptyState aliceUID 4 false 0) = 1) ∧
    (logCount (runLogs emptyState (List.replicate 118 sampleEntry)) ≤ LOG_CAPACITY ∧
      LOG_THRESHOLD ≤ logCount (runLogs emptyState (List.replicate 118 sampleEntry)) ∧
      logTail (runLogs emptyState (List.replicate 118 sampleEntry)) = 0 ∧
      logTail (logWriteOne (runLogs emptyState (List.replicate 118 sampleEntry))
        aliceUID 4 false 0) = 1 ∧
      logCount (logWriteOne (runLogs emptyState (List.replicate 118 sampleEntry))
        aliceUID 4 false 0) = 118 ∧
      logHead (logWriteOne (runLogs emptyState (List.replicate 118 sampleEntry))
        aliceUID 4 false 0) = 119) := by
  have hc0 : logCount emptyState = 0 := emptyState_log.2.2
  have ht0 : logTail emptyState = 0 := emptyState_log.2.1
  have hw0 : logCount emptyState ≤ LOG_CAPACITY := by rw [hc0]; decide
  have hlt0 : logCount emptyState < LOG_THRESHOLD := by rw [hc0]; decide
  have h0 := (logWriteOne_threshold emptyState aliceUID 4 false 0 hw0).2.1 hlt0
  rw [ht0, hc0] at h0
  obtain ⟨_, hh, hc, ht, _⟩ := ring_after_runLogs emptyState emptyState_log
    (List.replicate 118 sampleEntry)
  rw [List.length_replicate] at hh hc ht
  have hc118 : logCount (runLogs emptyState (List.replicate 118 sampleEntry)) = 118 := hc
  have ht118 : logTail (runLogs emptyState (List.replicate 118 sampleEntry)) = 0 := ht
  have hh118 : logHead (runLogs emptyState (List.replicate 118 sampleEntry)) = 118 := hh
  have hw : logCount (runLogs emptyState (List.replicate 118 sampleEntry)) ≤ LOG_CAPACITY := by
    rw [hc118]; decide
  have hge : LOG_THRESHOLD ≤ logCount (runLogs emptyState (List.replicate 118 sampleEntry)) := by
    rw [hc118]; decide
  have h := logWriteOne_threshold (runLogs emptyState (List.replicate 118 sampleEntry))
    aliceUID 4 false 0 hw
  have he := h.2.2.1 hge
  have hhd := h.2.2.2.1
  rw [ht118, hc118, show (0 + 1) % LOG_CAPACITY = 1 by decide] at he
  rw [hh118, show (118 + 1) % LOG_CAPACITY = 119 by decide] at hhd
  with_reducible exact ⟨⟨hw0, hlt0, h0.1, h0.2⟩, hw, hge, ht118, he.1, he.2.1, hhd⟩

/-- Counterexample to C5 as stated: 133 > LOG_CAPACITY (132) calls of
`logWriteOne` on the freshly bootstrapped store leave logCount at 118, not at
LOG_CAPACITY. -/
theorem logCount_after_133_writes :
    (List.replicate 133 sampleEntry).length > LOG_CAPACITY ∧
    logCount (runLogs emptyState (List.replicate 133 sampleEntry)) = 118 ∧
    logCount (runLogs emptyState (List.replicate 133 sampleEntry)) ≠ LOG_CAPACITY := by
  have h := (ring_after_runLogs emptyState emptyState_log (List.replicate 133 sampleEntry)).2.2.1
  rw [List.length_replicate] at h
  refine ⟨by rw [List.length_replicate]; decide, h, ?_⟩
  rw [h]
  decide

/-- Claim C5, amended. Appending N > LOG_CAPACITY records with `logWriteOne`
to an empty log leaves logCount at LOG_THRESHOLD (118), and the walk of
`logListHTML` over LOG_CAPACITY rows yields exactly the most recent
LOG_THRESHOLD appended records in chronological order, oldest first. -/
theorem logWriteOne_eviction (s : State)
    (hempty : logHead s = 0 ∧ logTail s = 0 ∧ logCount s = 0)
    (es : List LogEntry) (hN : es.length > LOG_CAPACITY) :
    logCount (runLogs s es) = LOG_THRESHOLD ∧
    logListHTML (runLogs s es) LOG_CAPACITY
      = (es.drop (es.length - LOG_THRESHOLD)).map (logRowOf s) := by
  have hN132 : es.length > 132 := hN
  have hmin : min es.length 118 = 118 := by omega
  constructor
  · rw [(ring_after_runLogs s hempty es).2.2.1, hmin]
    rfl
  · rw [logListHTML_runLogs s hempty es LOG_CAPACITY, hmin]
    show List.map (logRowOf s) (List.take 132 (List.drop (es.length - 118) es))
      = List.map (logRowOf s) (List.drop (es.length - 118) es)
    rw [List.take_of_length_le (by rw [List.length_drop]; omega)]

/-- Instance of the amended C5 on the freshly bootstrapped store with 133
calls. -/
theorem logWriteOne_eviction_witness :
    logCount (runLogs emptyState (List.replicate 133 sampleEntry)) = LOG_THRESHOLD :=
  (logWriteOne_eviction emptyState emptyState_log (List.replicate 133 sampleEntry)
    (by rw [List.length_replicate]; decide)).1

end RingLog

/-! ## The scan pipeline -/

section Scan

theorem capture_loop (uidByte : Nat → Nat) :
    ∀ (n lo : Nat) (s : State),
      (forRange lo n
          (fun i s => { s with lastUID := Function.update s.lastUID i (uidByte i % 256) }) s).eeprom
        = s.eeprom ∧
      (forRange lo n
          (fun i s => { s with lastUID := Function.update s.lastUID i (uidByte i % 256) }) s).trace
        = s.trace ∧
      (forRange lo n
          (fun i s => { s with lastUID := Function.update s.lastUID i (uidByte i % 256) })
          s).ds3231_ok = s.ds3231_ok ∧
      (forRange lo n
          (fun i s => { s with lastUID := Function.update s.lastUID i (uidByte i % 256) })
          s).lastUIDLen = s.lastUIDLen ∧
      ∀ k,
        (forRange lo n
          (fun i s => { s with lastUID := Function.update s.lastUID i (uidByte i % 256) })
          s).lastUID k = if lo ≤ k ∧ k < lo + n then uidByte k % 256 else s.lastUID k := by
  intro n
  induction n with
  | zero =>
    intro lo s
    refine ⟨rfl, rfl, rfl, rfl, ?_⟩
    intro k
    rw [if_neg (by omega)]
    rfl
  | succ n ih =>
    intro lo s
    rw [forRange_succ]
    obtain ⟨h1, h2, h3, h4, h5⟩ := ih (lo + 1)
      { s with lastUID := Function.update s.lastUID lo (uidByte lo % 256) }
    refine ⟨h1, h2, h3, h4, ?_⟩
    intro k
    rw [h5 k]
    by_cases e : k = lo
    · subst e
      rw [if_neg (by omega), if_pos (by omega)]
      exact Function.update_same _ _ _
    · by_cases hin : lo + 1 ≤ k ∧ k < lo + 1 + n
      · rw [if_pos hin, if_pos (by omega)]
      · rw [if_neg hin, if_neg (by omega)]
        exact Function.update_noteq e _ _

theorem capture_eeprom (s : State) (size : Nat) (uidByte : Nat → Nat) :
    (processRFID.capture s size uidByte).eeprom = s.eeprom :=
  (capture_loop uidByte _ 0 _).1

theorem capture_trace (s : State) (size : Nat) (uidByte : Nat → Nat) :
    (processRFID.capture s size uidByte).trace = s.trace :=
  (capture_loop uidByte _ 0 _).2.1

theorem capture_ds3231_ok (s : State) (size : Nat) (uidByte : Nat → Nat) :
    (processRFID.capture s size uidByte).ds3231_ok = s.ds3231_ok :=
  (capture_loop uidByte _ 0 _).2.2.1

theorem capture_lastUIDLen (s : State) (size : Nat) (uidByte : Nat → Nat) :
    (processRFID.capture s size uidByte).lastUIDLen = size % 256 :=
  (capture_loop uidByte _ 0 _).2.2.2.1

theorem capture_lastUID (s : State) (size : Nat) (uidByte : Nat → Nat) (k : Nat)
    (hk : k < size % 256) (hk7 : k < 7) :
    (processRFID.capture s size uidByte).lastUID k = uidByte k % 256 := by
  have h := (capture_loop uidByte (min (size % 256) 7) 0 { s with lastUIDLen := size % 256 }).2.2.2.2 k
  rw [if_pos (by omega)] at h
  exact h

/-- Lookup reads the state only through the EEPROM cells. -/
theorem authFind_congr_eeprom {s t : State} (h : s.eeprom = t.eeprom) (uid : Nat → Nat)
    (uidLen : Nat) : authFind s uid uidLen = authFind t uid uidLen := by
  unfold authFind authCount
  rw [e16_congr (congrFun h 4) (congrFun h 5)]
  simp only []
  generalize e16 t 4 = n
  generalize (0 : Nat) = i
  induction n generalizing i with
  | zero => rfl
  | succ n ih =>
    rw [authFind_loop_succ, authFind_loop_succ, ih,
      authFind_hit_congr uid uidLen i (fun b _ _ => congrFun h b)]

/-- The decision of `processRFID` for a UID of at most 7 bytes is the lookup
of the scanned UID in the store as it was before the scan. -/
theorem capture_authFind (s : State) (size : Nat) (uidByte : Nat → Nat) (hsize : size ≤ 7) :
    authFind (processRFID.capture s size uidByte) (processRFID.capture s size uidByte).lastUID
        (processRFID.capture s size uidByte).lastUIDLen
      = authFind s uidByte size := by
  have hmod : size % 256 = size := Nat.mod_eq_of_lt (by omega)
  rw [capture_lastUIDLen, hmod, authFind_congr_eeprom (capture_eeprom s size uidByte)]
  apply authFind_sameUID
  rw [sameUID_iff]
  refine ⟨rfl, ?_⟩
  intro i hi
  rw [capture_lastUID s size uidByte i (by omega) (by omega)]
  omega

/-- The record bytes depend on the UID only through its first
`min(uidLen, 7)` bytes. -/
theorem logRecordByte_congr {uid uid' : Nat → Nat} (uidLen : Nat) (allowed : Bool) (ts k : Nat)
    (h : ∀ i, i < uidLen → i < 7 → uid i % 256 = uid' i % 256) :
    logRecordByte uid uidLen allowed ts k = logRecordByte uid' uidLen allowed ts k := by
  unfold logRecordByte
  by_cases h0 : k = 0
  · rw [if_pos h0, if_pos h0]
  · rw [if_neg h0, if_neg h0]
    by_cases h8 : k < 8
    · rw [if_pos h8, if_pos h8]
      by_cases hl : k - 1 < uidLen
      · rw [if_pos hl, if_pos hl]
        exact h (k - 1) hl (by omega)
      · rw [if_neg hl, if_neg hl]
    · rw [if_neg h8, if_neg h8]


theorem trace_write (s : State) (a v : Nat) :
    (EEPROM.write s a v).trace = s.trace ++ [Effect.eepromWrite a (v % 256)] := rfl

theorem trace_emit (s : State) (e : Effect) : (emit s e).trace = s.trace ++ [e] := rfl

theorem trace_forRange_write (c : Nat) (g : Nat → Nat) :
    ∀ (n lo : Nat) (s : State),
      (forRange lo n (fun i s => EEPROM.write s (c + i) (g i)) s).trace
        = s.trace ++ (List.range' lo n).map (fun i => Effect.eepromWrite (c + i) (g i % 256)) := by
  intro n
  induction n with
  | zero => intro lo s; simp [forRange_zero]
  | succ n ih =>
    intro lo s
    rw [forRange_succ, ih, trace_write, List.range'_succ, List.map_cons, List.append_assoc]
    rfl

/-- Effects of one `logWriteOne`: the sixteen bytes of the record at slot
logHead, then six header bytes, then the commit. -/
theorem trace_logWriteOne (s : State) (uid : Nat → Nat) (uidLen : Nat) (allowed : Bool)
    (rtc : Nat) :
    ∃ v6 v7 v8 v9 v10 v11 : Nat,
      (logWriteOne s uid uidLen allowed rtc).trace
        = s.trace
          ++ (List.range 16).map (fun k =>
              Effect.eepromWrite (LOG_START + logHead s * LOG_REC_SIZE + k)
                (logRecordByte uid uidLen allowed (nowUnix s rtc) k))
          ++ [Effect.eepromWrite 6 v6, Effect.eepromWrite 7 v7, Effect.eepromWrite 8 v8,
              Effect.eepromWrite 9 v9, Effect.eepromWrite 10 v10, Effect.eepromWrite 11 v11]
          ++ [Effect.eepromCommit] := by
  unfold logWriteOne
  simp only [eepromCommit, w16, trace_emit, trace_write, trace_forRange_write]
  simp only [nowUnix, ds3231_ok_forRange_write, ds3231_ok_write]
  have r7 : List.range' 0 7 = [0, 1, 2, 3, 4, 5, 6] := rfl
  have r4 : List.range' 0 4 = [0, 1, 2, 3] := rfl
  have r16 : List.range 16 = [0, 1, 2, 3, 4, 5, 6, 7, 8, 9, 10, 11, 12, 13, 14, 15] := rfl
  rw [r7, r4, r16]
  simp only [List.map_cons, List.map_nil, List.append_assoc, List.cons_append, List.nil_append,
    logRecordByte, Nat.reduceEqDiff, Nat.reduceLT, Nat.reduceSub, Nat.reduceAdd, Nat.reduceMul,
    if_true, if_false, Nat.lt_irrefl, Nat.add_zero, Nat.reduceMod, Nat.add_assoc]
  cases allowed <;> exact ⟨_, _, _, _, _, _, rfl⟩


theorem capture_logHead (s : State) (size : Nat) (uidByte : Nat → Nat) :
    logHead (processRFID.capture s size uidByte) = logHead s :=
  e16_congr (congrFun (capture_eeprom s size uidByte) 6) (congrFun (capture_eeprom s size uidByte) 7)

theorem capture_logTail (s : State) (size : Nat) (uidByte : Nat → Nat) :
    logTail (processRFID.capture s size uidByte) = logTail s :=
  e16_congr (congrFun (capture_eeprom s size uidByte) 8) (congrFun (capture_eeprom s size uidByte) 9)

theorem capture_logCount (s : State) (size : Nat) (uidByte : Nat → Nat) :
    logCount (processRFID.capture s size uidByte) = logCount s :=
  e16_congr (congrFun (capture_eeprom s size uidByte) 10)
    (congrFun (capture_eeprom s size uidByte) 11)

theorem capture_logRecordByte (s : State) (size : Nat) (uidByte : Nat → Nat) (allowed : Bool)
    (ts k : Nat) :
    logRecordByte (processRFID.capture s size uidByte).lastUID (size % 256) allowed ts k
      = logRecordByte uidByte (size % 256) allowed ts k := by
  apply logRecordByte_congr
  intro i hi hi7
  rw [capture_lastUID s size uidByte i hi hi7]
  omega

/-- The EEPROM after a scan is the EEPROM after the `logWriteOne` of the
pipeline; the feedback that follows does not write. -/
theorem eeprom_processRFID (s : State) (size : Nat) (uidByte : Nat → Nat) (rtc : Nat) :
    (processRFID s (some (size, uidByte)) rtc).eeprom
      = (logWriteOne (processRFID.capture s size uidByte)
          (processRFID.capture s size uidByte).lastUID (size % 256)
          (authFind (processRFID.capture s size uidByte)
            (processRFID.capture s size uidByte).lastUID (size % 256)).isSome rtc).eeprom := by
  unfold processRFID
  simp only [capture_lastUIDLen]
  cases (authFind (processRFID.capture s size uidByte)
    (processRFID.capture s size uidByte).lastUID (size % 256)).isSome
  · simp only [Bool.false_eq_true, if_false, beepNO, eeprom_emit]
  · simp only [if_true, beepOK, unlockDoor, relaySet, eeprom_emit]

/-- Effects of a scan: those of `logWriteOne`, then the feedback. -/
theorem trace_processRFID (s : State) (size : Nat) (uidByte : Nat → Nat) (rtc : Nat) :
    (processRFID s (some (size, uidByte)) rtc).trace
      = (logWriteOne (processRFID.capture s size uidByte)
          (processRFID.capture s size uidByte).lastUID (size % 256)
          (authFind (processRFID.capture s size uidByte)
            (processRFID.capture s size uidByte).lastUID (size % 256)).isSome rtc).trace
        ++ [Effect.digitalWrite Pin.PIN_LED false]
        ++ (if (authFind (processRFID.capture s size uidByte)
              (processRFID.capture s size uidByte).lastUID (size % 256)).isSome = true then
            [Effect.tone Pin.PIN_BUZZ TONE_OK_FREQ, Effect.delay TONE_MS_SHORT,
             Effect.noTone Pin.PIN_BUZZ, Effect.delay TONE_GAP_MS,
             Effect.tone Pin.PIN_BUZZ TONE_OK_FREQ, Effect.delay TONE_MS_SHORT,
             Effect.noTone Pin.PIN_BUZZ,
             Effect.digitalWrite Pin.PIN_RELAY true, Effect.delay DOOR_UNLOCK_MS,
             Effect.digitalWrite Pin.PIN_RELAY false]
          else
            [Effect.tone Pin.PIN_BUZZ TONE_NO_FREQ, Effect.delay TONE_MS_LONG,
             Effect.noTone Pin.PIN_BUZZ, Effect.delay TONE_GAP_MS,
             Effect.tone Pin.PIN_BUZZ TONE_NO_FREQ, Effect.delay TONE_MS_LONG,
             Effect.noTone Pin.PIN_BUZZ])
        ++ [Effect.digitalWrite Pin.PIN_LED true, Effect.piccHaltA, Effect.pcdStopCrypto1] := by
  unfold processRFID
  simp only [capture_lastUIDLen]
  cases (authFind (processRFID.capture s size uidByte)
    (processRFID.capture s size uidByte).lastUID (size % 256)).isSome
  · simp only [Bool.false_eq_true, if_false, beepNO, trace_emit, List.append_assoc,
      List.cons_append, List.nil_append]
  · simp only [if_true, beepOK, unlockDoor, relaySet, trace_emit, List.append_assoc,
      List.cons_append, List.nil_append]


theorem logHead_processRFID (s : State) (size : Nat) (uidByte : Nat → Nat) (rtc : Nat) :
    logHead (processRFID s (some (size, uidByte)) rtc) = (logHead s + 1) % LOG_CAPACITY := by
  have h := eeprom_processRFID s size uidByte rtc
  rw [show logHead (processRFID s (some (size, uidByte)) rtc) = logHead _ from
    e16_congr (congrFun h 6) (congrFun h 7), logHead_logWriteOne, capture_logHead]

theorem logTail_processRFID (s : State) (size : Nat) (uidByte : Nat → Nat) (rtc : Nat) :
    logTail (processRFID s (some (size, uidByte)) rtc)
      = if logCount s ≥ LOG_THRESHOLD then (logTail s + 1) % LOG_CAPACITY else logTail s := by
  have h := eeprom_processRFID s size uidByte rtc
  rw [show logTail (processRFID s (some (size, uidByte)) rtc) = logTail _ from
    e16_congr (congrFun h 8) (congrFun h 9), logTail_logWriteOne, capture_logTail,
    capture_logCount]

theorem logCount_processRFID (s : State) (size : Nat) (uidByte : Nat → Nat) (rtc : Nat) :
    logCount (processRFID s (some (size, uidByte)) rtc)
      = if logCount s ≥ LOG_THRESHOLD then
          (if logCount s - 1 < LOG_CAPACITY then logCount s else logCount s - 1)
        else logCount s + 1 := by
  have h := eeprom_processRFID s size uidByte rtc
  rw [show logCount (processRFID s (some (size, uidByte)) rtc) = logCount _ from
    e16_congr (congrFun h 10) (congrFun h 11), logCount_logWriteOne, capture_logCount]

/-- The decision of a scan looks the captured UID up in the registry as it was
before the scan. -/
theorem capture_authFind_pre (s : State) (size : Nat) (uidByte : Nat → Nat) :
    authFind (processRFID.capture s size uidByte) (processRFID.capture s size uidByte).lastUID
        (size % 256)
      = authFind s (processRFID.capture s size uidByte).lastUID (size % 256) :=
  authFind_congr_eeprom (capture_eeprom s size uidByte) _ _

/-- For a UID of at most 7 bytes the captured UID and the scanned UID are the
same credential. -/
theorem capture_authFind_le7 (s : State) (size : Nat) (uidByte : Nat → Nat) (hsize : size ≤ 7) :
    authFind s (processRFID.capture s size uidByte).lastUID (size % 256)
      = authFind s uidByte size := by
  have h := capture_authFind s size uidByte hsize
  rw [capture_lastUIDLen, capture_authFind_pre] at h
  exact h

/-- Cells outside the header fields 6..11 after a scan. -/
theorem eeprom_processRFID_cells (s : State) (size : Nat) (uidByte : Nat → Nat) (rtc : Nat)
    (b : Nat) (hb : b < 6 ∨ 12 ≤ b) :
    (processRFID s (some (size, uidByte)) rtc).eeprom b
      = if 1984 + logHead s * 16 ≤ b ∧ b < 1984 + logHead s * 16 + 16 ∧ b < 4096 then
          logRecordByte uidByte (size % 256)
            (authFind s (processRFID.capture s size uidByte).lastUID (size % 256)).isSome
            (nowUnix s rtc) (b - (1984 + logHead s * 16))
        else s.eeprom b := by
  rw [eeprom_processRFID, eeprom_logWriteOne _ _ _ _ _ _ hb, capture_logHead,
    capture_authFind_pre, capture_logRecordByte,
    nowUnix_congr (capture_ds3231_ok s size uidByte), capture_eeprom]

/-- Cells outside the header fields 6..11 after the scan of a UID of at most
7 bytes. -/
theorem eeprom_processRFID_cells_le7 (s : State) (size : Nat) (uidByte : Nat → Nat) (rtc : Nat)
    (hsize : size ≤ 7) (b : Nat) (hb : b < 6 ∨ 12 ≤ b) :
    (processRFID s (some (size, uidByte)) rtc).eeprom b
      = if 1984 + logHead s * 16 ≤ b ∧ b < 1984 + logHead s * 16 + 16 ∧ b < 4096 then
          logRecordByte uidByte size (authFind s uidByte size).isSome (nowUnix s rtc)
            (b - (1984 + logHead s * 16))
        else s.eeprom b := by
  have hmod : size % 256 = size := Nat.mod_eq_of_lt (by omega)
  rw [eeprom_processRFID_cells s size uidByte rtc b hb, capture_authFind_le7 s size uidByte hsize,
    hmod]

theorem ds3231_ok_processRFID (s : State) (card : Option (Nat × (Nat → Nat))) (rtc : Nat) :
    (processRFID s card rtc).ds3231_ok = s.ds3231_ok := by
  cases card with
  | none => rfl
  | some c =>
    obtain ⟨size, uidByte⟩ := c
    unfold processRFID
    simp only []
    split
    · simp only [unlockDoor, relaySet, beepOK, emit, ds3231_ok_logWriteOne, capture_ds3231_ok]
    · simp only [beepNO, emit, ds3231_ok_logWriteOne, capture_ds3231_ok]

theorem ds3231_ok_forRange_fill (v n lo : Nat) (s : State) :
    (forRange lo n (fun i s => EEPROM.write s i v) s).ds3231_ok = s.ds3231_ok :=
  ds3231_ok_forRange_write (fun i => i) (fun _ => v) n lo s

theorem ds3231_ok_w16 (s : State) (a v : Nat) : (w16 s a v).ds3231_ok = s.ds3231_ok := by
  unfold w16
  simp only [ds3231_ok_write]

theorem ds3231_ok_eepromInitIfNeeded (s : State) :
    (eepromInitIfNeeded s).ds3231_ok = s.ds3231_ok := by
  unfold eepromInitIfNeeded
  simp only []
  split
  · simp only [eepromCommit, emit, ds3231_ok_forRange_fill, ds3231_ok_w16]
  · trivial

theorem ds3231_ok_authAdd (s : State) (uid : Nat → Nat) (uidLen : Nat) (name : List Nat) :
    (authAdd s uid uidLen name).2.ds3231_ok = s.ds3231_ok := by
  unfold authAdd
  split
  · rfl
  · split
    · rfl
    · simp only []
      split
      · rfl
      · simp only [eepromCommit, emit, w16, ds3231_ok_write, ds3231_ok_forRange_write]

/-- Lookup depends only on registryCount and, when registryCount is at most
AUTH_MAX, on the registry partition. -/
theorem authFind_congr_registry {s t : State} (hcount : authCount s ≤ AUTH_MAX)
    (h : ∀ b, (b = 4 ∨ b = 5 ∨ (64 ≤ b ∧ b < 1984)) → s.eeprom b = t.eeprom b)
    (uid : Nat → Nat) (uidLen : Nat) : authFind s uid uidLen = authFind t uid uidLen := by
  have hc : authCount t = authCount s :=
    (e16_congr (h 4 (Or.inl rfl)) (h 5 (Or.inr (Or.inl rfl)))).symm
  have hc80 : authCount s ≤ 80 := hcount
  unfold authFind
  simp only []
  rw [hc]
  have key : ∀ n i, i + n ≤ 80 →
      authFind.loop s uid uidLen n i = authFind.loop t uid uidLen n i := by
    intro n
    induction n with
    | zero => intro i _; rfl
    | succ n ih =>
      intro i hi
      rw [authFind_loop_succ, authFind_loop_succ, ih (i + 1) (by omega),
        authFind_hit_congr uid uidLen i (fun b h1 h2 => h b (Or.inr (Or.inr ⟨by omega, by omega⟩)))]
  exact key _ 0 (by omega)

end Scan

section ScanClaims

/-- Claim C1. For every store and every scanned UID (size, bytes),
`processRFID` issues, in this order: the sixteen byte writes of exactly one log
record at slot logHead, carrying the UID length, the first min(size, 7) UID
bytes zero-padded, the timestamp and the allowed flag; six writes to the header
bytes 6..11; the commit; and only then the feedback, which holds no EEPROM
write or commit. The flag is 1 exactly when `authFind` succeeds for the
captured UID on the store as it was before the scan, the relay-on signal is in
the feedback exactly when the flag is 1, and for a UID of at most 7 bytes the
captured UID is the scanned one. When logHead is a valid slot the record reads
back from the store as the row of this scan. -/
theorem processRFID_logs_then_signals (s : State) (size : Nat) (uidByte : Nat → Nat)
    (rtc : Nat) :
    ∃ (allowed : Bool) (hw fb : List Effect),
      (processRFID s (some (size, uidByte)) rtc).trace
        = s.trace
          ++ (List.range 16).map (fun k =>
              Effect.eepromWrite (LOG_START + logHead s * LOG_REC_SIZE + k)
                (logRecordByte uidByte (size % 256) allowed (nowUnix s rtc) k))
          ++ hw ++ [Effect.eepromCommit] ++ fb ∧
      (∀ e ∈ hw, ∃ a v, e = Effect.eepromWrite a v ∧ 6 ≤ a ∧ a < 12) ∧
      (∀ e ∈ fb, Effect.isStorage e = false) ∧
      allowed = (authFind s (processRFID.capture s size uidByte).lastUID (size % 256)).isSome ∧
      (size ≤ 7 → allowed = (authFind s uidByte size).isSome) ∧
      (Effect.digitalWrite Pin.PIN_RELAY true ∈ fb ↔ allowed = true) ∧
      logRecordByte uidByte (size % 256) allowed (nowUnix s rtc) 12
        = (if allowed = true then 1 else 0) ∧
      (logHead s < LOG_CAPACITY →
        logListHTML.row (processRFID s (some (size, uidByte)) rtc)
            (LOG_START + logHead s * LOG_REC_SIZE)
          = logRowOf s { uid := uidByte, uidLen := size % 256, allowed := allowed,
                         rtc := rtc }) := by
  have hA := capture_authFind_pre s size uidByte
  have hnow : ∀ r, nowUnix (processRFID.capture s size uidByte) r = nowUnix s r :=
    fun r => nowUnix_congr (capture_ds3231_ok s size uidByte) r
  obtain ⟨v6, v7, v8, v9, v10, v11, htr⟩ :=
    trace_logWriteOne (processRFID.capture s size uidByte)
      (processRFID.capture s size uidByte).lastUID (size % 256)
      (authFind s (processRFID.capture s size uidByte).lastUID (size % 256)).isSome rtc
  simp only [capture_logRecordByte, capture_trace, capture_logHead, hnow] at htr
  have hT := trace_processRFID s size uidByte rtc
  rw [hA, htr] at hT
  have hcells := eeprom_processRFID_cells s size uidByte rtc
  have h7 : size ≤ 7 →
      (authFind s (processRFID.capture s size uidByte).lastUID (size % 256)).isSome
        = (authFind s uidByte size).isSome :=
    fun hsize => congrArg Option.isSome (capture_authFind_le7 s size uidByte hsize)
  clear hA htr
  generalize (authFind s (processRFID.capture s size uidByte).lastUID (size % 256)).isSome
    = allowed at *
  refine ⟨allowed,
    [Effect.eepromWrite 6 v6, Effect.eepromWrite 7 v7, Effect.eepromWrite 8 v8,
      Effect.eepromWrite 9 v9, Effect.eepromWrite 10 v10, Effect.eepromWrite 11 v11],
    [Effect.digitalWrite Pin.PIN_LED false]
      ++ (if allowed = true then
            [Effect.tone Pin.PIN_BUZZ TONE_OK_FREQ, Effect.delay TONE_MS_SHORT,
             Effect.noTone Pin.PIN_BUZZ, Effect.delay TONE_GAP_MS,
             Effect.tone Pin.PIN_BUZZ TONE_OK_FREQ, Effect.delay TONE_MS_SHORT,
             Effect.noTone Pin.PIN_BUZZ,
             Effect.digitalWrite Pin.PIN_RELAY true, Effect.delay DOOR_UNLOCK_MS,
             Effect.digitalWrite Pin.PIN_RELAY false]
          else
            [Effect.tone Pin.PIN_BUZZ TONE_NO_FREQ, Effect.delay TONE_MS_LONG,
             Effect.noTone Pin.PIN_BUZZ, Effect.delay TONE_GAP_MS,
             Effect.tone Pin.PIN_BUZZ TONE_NO_FREQ, Effect.delay TONE_MS_LONG,
             Effect.noTone Pin.PIN_BUZZ])
      ++ [Effect.digitalWrite Pin.PIN_LED true, Effect.piccHaltA, Effect.pcdStopCrypto1],
    ?_, ?_, ?_, rfl, h7, ?_, ?_, ?_⟩
  · rw [hT]
    simp only [List.append_assoc]
  · intro e he
    simp only [List.mem_cons, List.mem_singleton, List.not_mem_nil, or_false] at he
    rcases he with rfl | rfl | rfl | rfl | rfl | rfl
    · exact ⟨6, v6, rfl, by decide, by decide⟩
    · exact ⟨7, v7, rfl, by decide, by decide⟩
    · exact ⟨8, v8, rfl, by decide, by decide⟩
    · exact ⟨9, v9, rfl, by decide, by decide⟩
    · exact ⟨10, v10, rfl, by decide, by decide⟩
    · exact ⟨11, v11, rfl, by decide, by decide⟩
  · cases allowed
    · simp only [Bool.false_eq_true, if_false]
      decide
    · simp only [if_true]
      decide
  · cases allowed
    · simp only [Bool.false_eq_true, if_false, iff_false]
      decide
    · simp only [if_true, iff_true]
      decide
  · unfold logRecordByte
    simp only [Nat.reduceEqDiff, Nat.reduceLT, if_true, if_false, Nat.lt_irrefl]
  · intro hhead
    have hh : logHead s < 132 := hhead
    apply row_of_cells _ s _ _ (by show 1984 + logHead s * 16 + 15 < 4096; omega)
    intro k hk
    have eb : LOG_START + logHead s * LOG_REC_SIZE + k = 1984 + logHead s * 16 + k := rfl
    rw [eb, hcells _ (Or.inr (by omega)), if_pos (by omega),
      show 1984 + logHead s * 16 + k - (1984 + logHead s * 16) = k by omega]

end ScanClaims

section Scenario

/-- Claim C7. End to end, from any memory content without a valid header, for
a valid credential a (length 1..7) with any label and a credential b of at most
7 bytes that differs from a: after the bootstrap `authAdd(a)` succeeds and
registryCount is 1; the scan of a leaves logCount = 1 with one row, allowed;
the scan of b leaves logCount = 2; and the first 10 rows of the log are exactly
the row of a with allowed = 1 followed by the row of b with allowed = 0. -/
theorem scan_scenario (raw : State) (hraw : ¬ (e16 raw 0 = 0xBEEF ∧ e16 raw 2 = 1))
    (a : Nat → Nat) (la : Nat) (label : List Nat) (b : Nat → Nat) (lb : Nat) (rtc1 rtc2 : Nat)
    (hla : 1 ≤ la ∧ la ≤ 7) (hlb : lb ≤ 7) (hdiff : sameUID a la b lb = false) :
    (authAdd (eepromInitIfNeeded raw) a la label).1 = true ∧
    authCount (authAdd (eepromInitIfNeeded raw) a la label).2 = 1 ∧
    logCount (processRFID (authAdd (eepromInitIfNeeded raw) a la label).2 (some (la, a)) rtc1)
      = 1 ∧
    logListHTML
        (processRFID (authAdd (eepromInitIfNeeded raw) a la label).2 (some (la, a)) rtc1) 10
      = [logRowOf raw { uid := a, uidLen := la, allowed := true, rtc := rtc1 }] ∧
    logCount (processRFID
        (processRFID (authAdd (eepromInitIfNeeded raw) a la label).2 (some (la, a)) rtc1)
        (some (lb, b)) rtc2) = 2 ∧
    logListHTML (processRFID
        (processRFID (authAdd (eepromInitIfNeeded raw) a la label).2 (some (la, a)) rtc1)
        (some (lb, b)) rtc2) 10
      = [logRowOf raw { uid := a, uidLen := la, allowed := true, rtc := rtc1 },
         logRowOf raw { uid := b, uidLen := lb, allowed := false, rtc := rtc2 }] := by
  -- the bootstrapped store
  obtain ⟨_, _, h0c, h0h, h0t, h0n, _, _⟩ := eepromInitIfNeeded_fresh raw hraw
  have h0d := ds3231_ok_eepromInitIfNeeded raw
  generalize eepromInitIfNeeded raw = s0 at *
  have hinv : ¬ (la = 0 ∨ la > 7) := by omega
  have hnf : authFind s0 a la = none := authFind_of_count_zero s0 h0c a la
  have hroom : authCount s0 < AUTH_MAX := by rw [h0c]; decide
  -- after the add
  have h1ok := authAdd_insert_fst s0 a la label hinv hnf hroom
  have h1c : authCount (authAdd s0 a la label).2 = 1 := by
    rw [authCount_authAdd_insert s0 a la label hinv hnf hroom, h0c]
  have h1cell := eeprom_authAdd_insert s0 a la label hinv hnf hroom
  have h1a : authFind (authAdd s0 a la label).2 a la = some 0 := by
    rw [authFind_authAdd_insert s0 a la label hinv hnf hroom, hnf]
    simp only [sameUID_refl, if_true, h0c]
  have h1b : authFind (authAdd s0 a la label).2 b lb = none := by
    rw [authFind_authAdd_insert s0 a la label hinv hnf hroom,
      authFind_of_count_zero s0 h0c b lb, sameUID_symm, hdiff]
    rfl
  have h1frame : ∀ x, 6 ≤ x → x < 12 → (authAdd s0 a la label).2.eeprom x = s0.eeprom x := by
    intro x hx1 hx2
    rw [h1cell, if_neg (by omega), if_neg (by omega), if_neg (by omega)]
  have h1h : logHead (authAdd s0 a la label).2 = 0 := by
    rw [← h0h]; exact e16_congr (h1frame 6 (by decide) (by decide)) (h1frame 7 (by decide) (by decide))
  have h1t : logTail (authAdd s0 a la label).2 = 0 := by
    rw [← h0t]; exact e16_congr (h1frame 8 (by decide) (by decide)) (h1frame 9 (by decide) (by decide))
  have h1n : logCount (authAdd s0 a la label).2 = 0 := by
    rw [← h0n]; exact e16_congr (h1frame 10 (by decide) (by decide)) (h1frame 11 (by decide) (by decide))
  have h1d : (authAdd s0 a la label).2.ds3231_ok = raw.ds3231_ok := by
    rw [ds3231_ok_authAdd, h0d]
  clear h1cell h1frame
  generalize (authAdd s0 a la label).2 = s1 at *
  -- after the scan of a
  have h2h : logHead (processRFID s1 (some (la, a)) rtc1) = 1 := by
    rw [logHead_processRFID, h1h]; rfl
  have h2t : logTail (processRFID s1 (some (la, a)) rtc1) = 0 := by
    rw [logTail_processRFID, h1n, h1t]; rfl
  have h2n : logCount (processRFID s1 (some (la, a)) rtc1) = 1 := by
    rw [logCount_processRFID, h1n]; rfl
  have h2cell := eeprom_processRFID_cells_le7 s1 la a rtc1 hla.2
  rw [h1h, h1a] at h2cell
  have h2slot : ∀ k, k < 16 → (processRFID s1 (some (la, a)) rtc1).eeprom (1984 + k)
      = logRecordByte a la true (nowUnix raw rtc1) k := by
    intro k hk
    rw [h2cell _ (Or.inr (by omega)), if_pos (by omega), nowUnix_congr h1d,
      show 1984 + k - (1984 + 0 * 16) = k by omega]
    rfl
  have h2b : authFind (processRFID s1 (some (la, a)) rtc1) b lb = none := by
    rw [← authFind_congr_registry (by rw [h1c]; decide) _ b lb, h1b]
    intro x hx
    rw [h2cell x (by omega), if_neg (by omega)]
  have h2d : (processRFID s1 (some (la, a)) rtc1).ds3231_ok = raw.ds3231_ok := by
    rw [ds3231_ok_processRFID, h1d]
  have hrow1 : logListHTML.row (processRFID s1 (some (la, a)) rtc1) 1984
      = logRowOf raw { uid := a, uidLen := la, allowed := true, rtc := rtc1 } :=
    row_of_cells _ raw 1984 _ (by decide) h2slot
  have hlist1 : logListHTML (processRFID s1 (some (la, a)) rtc1) 10
      = [logRowOf raw { uid := a, uidLen := la, allowed := true, rtc := rtc1 }] := by
    rw [logListHTML_eq, h2n, h2t, ← hrow1]
    rfl
  refine ⟨h1ok, h1c, h2n, hlist1, ?_⟩
  clear h2cell hlist1 hrow1
  generalize processRFID s1 (some (la, a)) rtc1 = s2 at *
  -- after the scan of b
  have h3t : logTail (processRFID s2 (some (lb, b)) rtc2) = 0 := by
    rw [logTail_processRFID, h2n, h2t]; rfl
  have h3n : logCount (processRFID s2 (some (lb, b)) rtc2) = 2 := by
    rw [logCount_processRFID, h2n]; rfl
  have h3cell := eeprom_processRFID_cells_le7 s2 lb b rtc2 hlb
  rw [h2h, h2b] at h3cell
  have hrow1 : logListHTML.row (processRFID s2 (some (lb, b)) rtc2) 1984
      = logRowOf raw { uid := a, uidLen := la, allowed := true, rtc := rtc1 } := by
    apply row_of_cells _ raw 1984 _ (by decide)
    intro k hk
    rw [h3cell _ (Or.inr (by omega)), if_neg (by omega)]
    exact h2slot k hk
  have hrow2 : logListHTML.row (processRFID s2 (some (lb, b)) rtc2) 2000
      = logRowOf raw { uid := b, uidLen := lb, allowed := false, rtc := rtc2 } := by
    apply row_of_cells _ raw 2000 _ (by decide)
    intro k hk
    rw [h3cell _ (Or.inr (by omega)), if_pos (by omega), nowUnix_congr h2d,
      show 2000 + k - (1984 + 1 * 16) = k by omega]
    rfl
  refine ⟨h3n, ?_⟩
  rw [logListHTML_eq, h3n, h3t, ← hrow1, ← hrow2]
  rfl

end Scenario

section ScanWitnesses

/-- Instance of C1: the scan of the card 04:a1:b2:c3 on the freshly
bootstrapped store writes its record with flag 0, commits, and the feedback
that follows does not switch the relay on. -/
theorem processRFID_logs_then_signals_witness :
    ∃ hw fb : List Effect,
      (processRFID emptyState (some (4, aliceUID)) 0).trace
        = emptyState.trace
          ++ (List.range 16).map (fun k =>
              Effect.eepromWrite (LOG_START + logHead emptyState * LOG_REC_SIZE + k)
                (logRecordByte aliceUID (4 % 256) false (nowUnix emptyState 0) k))
          ++ hw ++ [Effect.eepromCommit] ++ fb ∧
      (∀ e ∈ fb, Effect.isStorage e = false) ∧
      ¬ (Effect.digitalWrite Pin.PIN_RELAY true ∈ fb) := by
  obtain ⟨allowed, hw, fb, h1, _, h3, _, h5, h6, _, _⟩ :=
    processRFID_logs_then_signals emptyState 4 aliceUID 0
  have hal : allowed = false := by
    rw [h5 (by decide), emptyState_authFind aliceUID 4]
    rfl
  subst hal
  exact ⟨hw, fb, h1, h3, by rw [h6]; decide⟩

/-- Instance of C7 on a factory-fresh device with the cards 04:a1:b2:c3
("Alice") and 04:00:00:00, RTC not set. -/
theorem scan_scenario_witness :
    ¬ (e16 blankState 0 = 0xBEEF ∧ e16 blankState 2 = 1) ∧
    sameUID aliceUID 4 strangerUID 4 = false ∧
    logListHTML (processRFID
        (processRFID (authAdd (eepromInitIfNeeded blankState) aliceUID 4 aliceName).2
          (some (4, aliceUID)) 0)
        (some (4, strangerUID)) 0) 10
      = [{ uidLen := 4, uid := [0x04, 0xA1, 0xB2, 0xC3, 0, 0, 0], ts := 0, allowed := 1 },
         { uidLen := 4, uid := [0x04, 0x00, 0x00, 0x00, 0, 0, 0], ts := 0, allowed := 0 }] := by
  refine ⟨blankState_header, by decide, ?_⟩
  rw [(scan_scenario blankState blankState_header aliceUID 4 aliceName strangerUID 4 0 0
    (by decide) (by decide) (by decide)).2.2.2.2.2]
  decide

end ScanWitnesses

section RegistryContracts

/-- Claim C11. `authAdd` returns failure exactly when the credential length is
0 or greater than 7, or the credential is not registered and registryCount is
at least AUTH_MAX (80); an invalid length is rejected whatever room the
registry has; and a call that returns failure leaves the whole state as it
was. -/
theorem authAdd_failure_iff (s : State) (uid : Nat → Nat) (uidLen : Nat) (name : List Nat) :
    ((authAdd s uid uidLen name).1 = false ↔
      ((uidLen = 0 ∨ uidLen > 7) ∨
        (authFind s uid uidLen = none ∧ authCount s ≥ AUTH_MAX))) ∧
    ((uidLen = 0 ∨ uidLen > 7) → (authAdd s uid uidLen name).1 = false) ∧
    ((authAdd s uid uidLen name).1 = false → (authAdd s uid uidLen name).2 = s) := by
  by_cases hinv : uidLen = 0 ∨ uidLen > 7
  · rw [authAdd_invalid s uid uidLen name hinv]
    exact ⟨⟨fun _ => Or.inl hinv, fun _ => rfl⟩, fun _ => rfl, fun _ => rfl⟩
  · cases hf : authFind s uid uidLen with
    | some i =>
      rw [authAdd_found s uid uidLen name hinv (by rw [hf]; rfl)]
      refine ⟨⟨fun h => (by cases h), ?_⟩, fun h => absurd h hinv, fun h => by cases h⟩
      rintro (h | ⟨h, _⟩)
      · exact absurd h hinv
      · cases h
    | none =>
      by_cases hc : authCount s < AUTH_MAX
      · have h1 := authAdd_insert_fst s uid uidLen name hinv hf hc
        rw [h1]
        refine ⟨⟨fun h => (by cases h), ?_⟩, fun h => absurd h hinv, fun h => by cases h⟩
        rintro (h | ⟨_, h⟩)
        · exact absurd h hinv
        · exact absurd hc (Nat.not_lt.mpr h)
      · rw [authAdd_full s uid uidLen name hinv hf (Nat.not_lt.mp hc)]
        exact ⟨⟨fun _ => Or.inr ⟨rfl, Nat.not_lt.mp hc⟩, fun _ => rfl⟩,
          fun h => absurd h hinv, fun _ => rfl⟩

end RegistryContracts

section Layout

/-- Claim C12, the value the claim gives: the program's LOG_CAPACITY is 132,
not 200; two hundred 16-byte records after the registry partition would end at
byte 5184, beyond the 4096 bytes of the EEPROM region. -/
theorem logCapacity_not_200 :
    LOG_CAPACITY = 132 ∧ LOG_CAPACITY ≠ 200 ∧
    ¬ (LOG_START + 200 * LOG_REC_SIZE ≤ EEPROM_SIZE) := by
  decide

/-- Claim C12, amended. The store the program bootstraps has registry capacity
AUTH_MAX = 80 and log capacity LOG_CAPACITY = 132, the number of bytes that
remain after the header area (64 bytes) and the registry partition (80 records
of 24 bytes) divided by the log record size 16; the 132 log slots end exactly
at the end of the 4096-byte region, and after a bootstrap that found no valid
header each of the 80 registry slots holds the empty sentinel and each byte of
each of the 132 log slots is zero. -/
theorem bootstrap_capacities (raw : State) :
    AUTH_MAX = 80 ∧ LOG_REC_SIZE = 16 ∧ LOG_CAPACITY = 132 ∧
    LOG_CAPACITY = (EEPROM_SIZE - AUTH_START - AUTH_MAX * AUTH_REC_SIZE) / LOG_REC_SIZE ∧
    LOG_START + LOG_CAPACITY * LOG_REC_SIZE = EEPROM_SIZE ∧
    (¬ (e16 raw 0 = 0xBEEF ∧ e16 raw 2 = 1) →
      (∀ i, i < AUTH_MAX →
        EEPROM.read (eepromInitIfNeeded raw) (AUTH_START + i * AUTH_REC_SIZE) = 0xFF) ∧
      (∀ j k, j < LOG_CAPACITY → k < LOG_REC_SIZE →
        EEPROM.read (eepromInitIfNeeded raw) (LOG_START + j * LOG_REC_SIZE + k) = 0)) := by
  refine ⟨rfl, rfl, by decide, by decide, by decide, fun hraw => ?_⟩
  have h := eepromInitIfNeeded_fresh raw hraw
  refine ⟨fun i hi => ?_, fun j k hj hk => ?_⟩
  · have hi80 : i < 80 := hi
    exact h.2.2.2.2.2.2.1 _ (by show 64 ≤ 64 + i * 24; omega)
      (by show 64 + i * 24 < 1984; omega)
  · have hj132 : j < 132 := hj
    have hk16 : k < 16 := hk
    exact h.2.2.2.2.2.2.2 _ (by show 1984 ≤ 1984 + j * 16 + k; omega)
      (by show 1984 + j * 16 + k < 4096; omega)

end Layout

section RegistryRecords

/-- Claim C15. A successful `authAdd` of a new credential on a store with
registryCount = n < 80 changes only the 24 bytes of slot n (addresses
64 + 24n .. 64 + 24n + 23) and the registryCount field (bytes 4-5): every
other byte is unchanged, no existing record is moved or overwritten, every
credential that was found is still found at the same index, and magic,
version, the log header and the log partition are untouched. -/
theorem authAdd_append_only (s : State) (uid : Nat → Nat) (uidLen : Nat) (name : List Nat)
    (hlen : 1 ≤ uidLen ∧ uidLen ≤ 7) (hnew : authFind s uid uidLen = none)
    (hroom : authCount s < AUTH_MAX) :
    (authAdd s uid uidLen name).1 = true ∧
    (∀ b, b ≠ 4 → b ≠ 5 →
      ¬ (AUTH_START + authCount s * AUTH_REC_SIZE ≤ b ∧
          b ≤ AUTH_START + authCount s * AUTH_REC_SIZE + 23) →
      (authAdd s uid uidLen name).2.eeprom b = s.eeprom b) ∧
    (∀ i k, i < authCount s → k < AUTH_REC_SIZE →
      (authAdd s uid uidLen name).2.eeprom (AUTH_START + i * AUTH_REC_SIZE + k)
        = s.eeprom (AUTH_START + i * AUTH_REC_SIZE + k)) ∧
    (∀ (c : Nat → Nat) (clen i : Nat), authFind s c clen = some i →
      authFind (authAdd s uid uidLen name).2 c clen = some i) ∧
    e16 (authAdd s uid uidLen name).2 0 = e16 s 0 ∧
    e16 (authAdd s uid uidLen name).2 2 = e16 s 2 ∧
    logHead (authAdd s uid uidLen name).2 = logHead s ∧
    logTail (authAdd s uid uidLen name).2 = logTail s ∧
    logCount (authAdd s uid uidLen name).2 = logCount s ∧
    (∀ b, LOG_START ≤ b → (authAdd s uid uidLen name).2.eeprom b = s.eeprom b) := by
  have hv : ¬ (uidLen = 0 ∨ uidLen > 7) := by omega
  have hc80 : authCount s < 80 := hroom
  have cell := eeprom_authAdd_insert s uid uidLen name hv hnew hroom
  have frame : ∀ b, b ≠ 4 → b ≠ 5 →
      ¬ (64 + authCount s * 24 ≤ b ∧ b < 64 + authCount s * 24 + 24) →
      (authAdd s uid uidLen name).2.eeprom b = s.eeprom b := by
    intro b h4 h5 hb
    rw [cell, if_neg h5, if_neg h4, if_neg hb]
  refine ⟨authAdd_insert_fst s uid uidLen name hv hnew hroom, ?_, ?_, ?_, ?_, ?_, ?_, ?_, ?_, ?_⟩
  · intro b h4 h5 hb
    have hb2 : ¬ (64 + authCount s * 24 ≤ b ∧ b ≤ 64 + authCount s * 24 + 23) := hb
    exact frame b h4 h5 (by omega)
  · intro i k hi hk
    have hk24 : k < 24 := hk
    show (authAdd s uid uidLen name).2.eeprom (64 + i * 24 + k) = s.eeprom (64 + i * 24 + k)
    exact frame _ (by omega) (by omega) (by omega)
  · intro c clen i hf
    rw [authFind_authAdd_insert s uid uidLen name hv hnew hroom c clen, hf]
  · exact e16_congr (frame 0 (by omega) (by omega) (by omega))
      (frame 1 (by omega) (by omega) (by omega))
  · exact e16_congr (frame 2 (by omega) (by omega) (by omega))
      (frame 3 (by omega) (by omega) (by omega))
  · exact e16_congr (frame 6 (by omega) (by omega) (by omega))
      (frame 7 (by omega) (by omega) (by omega))
  · exact e16_congr (frame 8 (by omega) (by omega) (by omega))
      (frame 9 (by omega) (by omega) (by omega))
  · exact e16_congr (frame 10 (by omega) (by omega) (by omega))
      (frame 11 (by omega) (by omega) (by omega))
  · intro b hb
    have hb2 : 1984 ≤ b := hb
    exact frame b (by omega) (by omega) (by omega)

/-- Instance of C15: registering Alice's card on the bootstrapped store of a
factory-fresh device. -/
theorem authAdd_append_only_witness :
    (1 ≤ 4 ∧ 4 ≤ 7) ∧ authFind emptyState aliceUID 4 = none ∧ authCount emptyState < AUTH_MAX ∧
    (authAdd emptyState aliceUID 4 aliceName).1 = true ∧
    logCount (authAdd emptyState aliceUID 4 aliceName).2 = logCount emptyState := by
  have h1 : (1 ≤ 4 ∧ 4 ≤ 7) := by decide
  have h2 := emptyState_authFind aliceUID 4
  have h3 := emptyState_room
  have h := authAdd_append_only emptyState aliceUID 4 aliceName h1 h2 h3
  with_reducible exact ⟨h1, h2, h3, h.1, h.2.2.2.2.2.2.2.2.1⟩

/-- Claim C16. After a successful `authAdd` of a new credential (id, len) with
label l (bytes without NUL) into slot n = old registryCount, slot n holds
idLen = len, the 7 id bytes are id[0..len) followed by zeros, the 16 label
bytes are the first min(|l|, 15) bytes of l followed by zeros, the byte at
offset 15 of the label is NUL, and registryCount is n + 1. -/
theorem authAdd_record (s : State) (uid : Nat → Nat) (uidLen : Nat) (name : List Nat)
    (hlen : 1 ≤ uidLen ∧ uidLen ≤ 7) (hnew : authFind s uid uidLen = none)
    (hroom : authCount s < AUTH_MAX) (hname : ∀ x ∈ name, 0 < x ∧ x < 256) :
    (authAdd s uid uidLen name).1 = true ∧
    EEPROM.read (authAdd s uid uidLen name).2 (AUTH_START + authCount s * AUTH_REC_SIZE)
      = uidLen ∧
    (∀ k, k < 7 →
      EEPROM.read (authAdd s uid uidLen name).2 (AUTH_START + authCount s * AUTH_REC_SIZE + 1 + k)
        = if k < uidLen then uid k % 256 else 0) ∧
    (∀ i, i < 16 →
      EEPROM.read (authAdd s uid uidLen name).2 (AUTH_START + authCount s * AUTH_REC_SIZE + 8 + i)
        = if i < min name.length 15 then name.getD i 0 else 0) ∧
    EEPROM.read (authAdd s uid uidLen name).2 (AUTH_START + authCount s * AUTH_REC_SIZE + 8 + 15)
      = 0 ∧
    authCount (authAdd s uid uidLen name).2 = authCount s + 1 := by
  have hv : ¬ (uidLen = 0 ∨ uidLen > 7) := by omega
  have hc80 : authCount s < 80 := hroom
  have cell := eeprom_authAdd_insert s uid uidLen name hv hnew hroom
  have rd : ∀ k, k < 24 →
      EEPROM.read (authAdd s uid uidLen name).2 (64 + authCount s * 24 + k)
        = authRecordByte uid uidLen name k % 256 := by
    intro k hk
    unfold EEPROM.read
    rw [if_pos (show 64 + authCount s * 24 + k < 4096 by omega), cell, if_neg (by omega),
      if_neg (by omega), if_pos (by omega),
      show 64 + authCount s * 24 + k - (64 + authCount s * 24) = k by omega]
  have lbl : ∀ i, i < 16 →
      EEPROM.read (authAdd s uid uidLen name).2 (64 + authCount s * 24 + 8 + i)
        = if i < min name.length 15 then name.getD i 0 else 0 := by
    intro i hi
    rw [show 64 + authCount s * 24 + 8 + i = 64 + authCount s * 24 + (8 + i) by omega,
      rd (8 + i) (by omega)]
    unfold authRecordByte
    rw [if_neg (by omega), if_neg (by omega), show 8 + i - 8 = i by omega, Nat.mod_mod]
    by_cases h : i < min name.length 15
    · rw [if_pos h]
      have h1 : i < name.length := by omega
      have h2 : i < (name.take 15).length := by rw [List.length_take]; omega
      rw [List.getD_eq_getElem _ _ h2, List.getD_eq_getElem _ _ h1, List.getElem_take]
      exact Nat.mod_eq_of_lt (hname _ (List.getElem_mem h1)).2
    · rw [if_neg h]
      have h2 : (name.take 15).length ≤ i := by rw [List.length_take]; omega
      rw [List.getD_eq_default _ _ h2]
  refine ⟨authAdd_insert_fst s uid uidLen name hv hnew hroom, ?_, ?_, lbl, ?_,
    authCount_authAdd_insert s uid uidLen name hv hnew hroom⟩
  · have h := rd 0 (by omega)
    rw [Nat.add_zero] at h
    show EEPROM.read _ (64 + authCount s * 24) = uidLen
    rw [h]
    unfold authRecordByte
    rw [if_pos rfl]
    omega
  · intro k hk
    show EEPROM.read _ (64 + authCount s * 24 + 1 + k) = _
    rw [show 64 + authCount s * 24 + 1 + k = 64 + authCount s * 24 + (1 + k) by omega,
      rd (1 + k) (by omega)]
    unfold authRecordByte
    rw [if_neg (by omega), if_pos (by omega), show 1 + k - 1 = k by omega, Nat.mod_mod]
    split_ifs <;> rfl
  · have h := lbl 15 (by omega)
    rw [if_neg (by omega)] at h
    exact h

/-- Instance of C16: registering Alice's card with the label "Alice" on the
bootstrapped store of a factory-fresh device. -/
theorem authAdd_record_witness :
    (1 ≤ 4 ∧ 4 ≤ 7) ∧ authFind emptyState aliceUID 4 = none ∧ authCount emptyState < AUTH_MAX ∧
    (∀ x ∈ aliceName, 0 < x ∧ x < 256) ∧
    authCount (authAdd emptyState aliceUID 4 aliceName).2 = authCount emptyState + 1 := by
  have h1 : (1 ≤ 4 ∧ 4 ≤ 7) := by decide
  have h2 := emptyState_authFind aliceUID 4
  have h3 := emptyState_room
  have h4 : ∀ x ∈ aliceName, 0 < x ∧ x < 256 := by decide
  have h := authAdd_record emptyState aliceUID 4 aliceName h1 h2 h3 h4
  with_reducible exact ⟨h1, h2, h3, h4, h.2.2.2.2.2⟩

end RegistryRecords

section Reachable

theorem runOps_append (s : State) (ops : List Op) (op : Op) :
    runOps s (ops ++ [op]) = step (runOps s ops) op := by
  unfold runOps
  rw [List.foldl_append]
  rfl

theorem headerOK_congr {s t : State} (h : ∀ b, b < 4 → t.eeprom b = s.eeprom b)
    (hs : HeaderOK s) : HeaderOK t := by
  unfold HeaderOK at *
  rw [e16_congr (h 0 (by omega)) (h 1 (by omega)), e16_congr (h 2 (by omega)) (h 3 (by omega))]
  exact hs

theorem ringOK_congr {s t : State} (h : ∀ b, 6 ≤ b → b < 12 → t.eeprom b = s.eeprom b)
    (hs : RingOK s) : RingOK t := by
  unfold RingOK logHead logTail logCount at *
  rw [e16_congr (h 6 (by omega) (by omega)) (h 7 (by omega) (by omega)),
    e16_congr (h 8 (by omega) (by omega)) (h 9 (by omega) (by omega)),
    e16_congr (h 10 (by omega) (by omega)) (h 11 (by omega) (by omega))]
  exact hs

theorem slotLen_congr {s t : State} (i : Nat) (h : t.eeprom (64 + i * 24) = s.eeprom (64 + i * 24)) :
    slotLen t i = slotLen s i :=
  read_congr h

theorem slotByte_congr {s t : State} (i k : Nat)
    (h : t.eeprom (64 + i * 24 + 1 + k) = s.eeprom (64 + i * 24 + 1 + k)) :
    slotByte t i k = slotByte s i k :=
  read_congr h

theorem registryOK_congr {s t : State}
    (h : ∀ b, (b = 4 ∨ b = 5 ∨ (64 ≤ b ∧ b < 1984)) → t.eeprom b = s.eeprom b)
    (hs : RegistryOK s) : RegistryOK t := by
  obtain ⟨h1, h2, h3, h4⟩ := hs
  have h1n : authCount s ≤ 80 := h1
  have hc : authCount t = authCount s :=
    e16_congr (h 4 (Or.inl rfl)) (h 5 (Or.inr (Or.inl rfl)))
  have hl : ∀ i, i < 80 → slotLen t i = slotLen s i := fun i hi =>
    slotLen_congr i (h _ (Or.inr (Or.inr ⟨by omega, by omega⟩)))
  have hb : ∀ i k, i < 80 → k < 7 → slotByte t i k = slotByte s i k := fun i k hi hk =>
    slotByte_congr i k (h _ (Or.inr (Or.inr ⟨by omega, by omega⟩)))
  unfold RegistryOK
  rw [hc]
  refine ⟨h1, ?_, ?_, ?_⟩
  · intro i hi
    rw [hl i (by omega)]
    exact h2 i hi
  · intro i hi1 hi2
    rw [hl i hi2]
    exact h3 i hi1 hi2
  · intro i j hij hj
    rw [hl i (by omega), hl j (by omega)]
    rintro ⟨e1, e2⟩
    apply h4 i j hij hj
    refine ⟨e1, fun k hk => ?_⟩
    have := (h2 i (by omega)).2
    rw [← hb i k (by omega) (by omega), ← hb j k (by omega) (by omega)]
    exact e2 k hk

theorem wellFormed_congr {s t : State} (h : t.eeprom = s.eeprom) (hs : WellFormed s) :
    WellFormed t :=
  ⟨headerOK_congr (fun b _ => congrFun h b) hs.1,
   ringOK_congr (fun b _ _ => congrFun h b) hs.2.1,
   registryOK_congr (fun b _ => congrFun h b) hs.2.2⟩

end Reachable

section ReachableSteps

theorem ringOK_step (h t c h' t' c' : Nat) (_ : h < 132) (ht : t < 132) (hc : c ≤ 118)
    (hr : h = (t + c) % 132) (eh : h' = (h + 1) % 132)
    (et : t' = if c ≥ 118 then (t + 1) % 132 else t)
    (ec : c' = if c ≥ 118 then (if c - 1 < 132 then c else c - 1) else c + 1) :
    h' < 132 ∧ t' < 132 ∧ c' ≤ 118 ∧ h' = (t' + c') % 132 := by
  subst eh et ec
  by_cases hge : c ≥ 118
  · rw [if_pos hge, if_pos hge, if_pos (by omega)]
    omega
  · rw [if_neg hge, if_neg hge]
    omega

theorem wellFormed_logWriteOne (s : State) (uid : Nat → Nat) (uidLen : Nat) (allowed : Bool)
    (rtc : Nat) (hs : WellFormed s) : WellFormed (logWriteOne s uid uidLen allowed rtc) := by
  have cell := eeprom_logWriteOne s uid uidLen allowed rtc
  refine ⟨headerOK_congr (fun b hb => ?_) hs.1, ?_, registryOK_congr (fun b hb => ?_) hs.2.2⟩
  · rw [cell b (Or.inl (by omega)), if_neg (by omega)]
  · obtain ⟨r1, r2, r3, r4⟩ := hs.2.1
    exact ringOK_step _ _ _ _ _ _ r1 r2 r3 r4 (logHead_logWriteOne s uid uidLen allowed rtc)
      (logTail_logWriteOne s uid uidLen allowed rtc) (logCount_logWriteOne s uid uidLen allowed rtc)
  · rw [cell b (by omega), if_neg (by omega)]

theorem wellFormed_processRFID (s : State) (card : Option (Nat × (Nat → Nat))) (rtc : Nat)
    (hs : WellFormed s) : WellFormed (processRFID s card rtc) := by
  cases card with
  | none => exact hs
  | some c =>
    obtain ⟨size, uidByte⟩ := c
    have cell := eeprom_processRFID_cells s size uidByte rtc
    refine ⟨headerOK_congr (fun b hb => ?_) hs.1, ?_, registryOK_congr (fun b hb => ?_) hs.2.2⟩
    · rw [cell b (Or.inl (by omega)), if_neg (by omega)]
    · obtain ⟨r1, r2, r3, r4⟩ := hs.2.1
      exact ringOK_step _ _ _ _ _ _ r1 r2 r3 r4 (logHead_processRFID s size uidByte rtc)
        (logTail_processRFID s size uidByte rtc) (logCount_processRFID s size uidByte rtc)
    · rw [cell b (by omega), if_neg (by omega)]

theorem wellFormed_handleWipeLogs (s : State) (authenticated : Bool) (hs : WellFormed s) :
    WellFormed (handleWipeLogs s authenticated) := by
  cases authenticated with
  | false => exact wellFormed_congr rfl hs
  | true =>
    have cell := eeprom_handleWipeLogs s
    refine ⟨headerOK_congr (fun b hb => ?_) hs.1, ?_, registryOK_congr (fun b hb => ?_) hs.2.2⟩
    · rw [cell, if_neg (by omega), if_neg (by omega)]
    · have e6 : logHead (handleWipeLogs s true) = 0 :=
        e16_of_cells _ 6 0 0 (by decide) (by rw [cell]; rfl) (by rw [cell]; rfl)
          (by decide) (by decide)
      have e8 : logTail (handleWipeLogs s true) = 0 :=
        e16_of_cells _ 8 0 0 (by decide) (by rw [cell]; rfl) (by rw [cell]; rfl)
          (by decide) (by decide)
      have e10 : logCount (handleWipeLogs s true) = 0 :=
        e16_of_cells _ 10 0 0 (by decide) (by rw [cell]; rfl) (by rw [cell]; rfl)
          (by decide) (by decide)
      unfold RingOK
      rw [e6, e8, e10]
      decide
    · rw [cell, if_neg (by omega), if_neg (by omega)]

theorem wellFormed_handleWipeCards (s : State) (authenticated : Bool) (hs : WellFormed s) :
    WellFormed (handleWipeCards s authenticated) := by
  cases authenticated with
  | false => exact wellFormed_congr rfl hs
  | true =>
    have cell := eeprom_handleWipeCards s
    refine ⟨headerOK_congr (fun b hb => ?_) hs.1, ringOK_congr (fun b h1 h2 => ?_) hs.2.1, ?_⟩
    · rw [cell, if_neg (by omega), if_neg (by omega)]
    · rw [cell, if_neg (by omega), if_neg (by omega)]
    · have e4 : authCount (handleWipeCards s true) = 0 :=
        e16_of_cells _ 4 0 0 (by decide) (by rw [cell]; rfl) (by rw [cell]; rfl)
          (by decide) (by decide)
      unfold RegistryOK
      rw [e4]
      refine ⟨Nat.zero_le _, fun i hi => absurd hi (Nat.not_lt_zero _), fun i _ hi => ?_,
        fun i j _ hj => absurd hj (Nat.not_lt_zero _)⟩
      have hi80 : i < 80 := hi
      show EEPROM.read _ (64 + i * 24) = 0xFF
      unfold EEPROM.read
      rw [if_pos (show 64 + i * 24 < 4096 by omega), cell, if_pos (by omega)]

end ReachableSteps

section ReachableAdd

/-- Byte `k` of the record that an appending `authAdd` wrote, read back. -/
theorem read_authAdd_insert (s : State) (uid : Nat → Nat) (uidLen : Nat) (name : List Nat)
    (h : ¬ (uidLen = 0 ∨ uidLen > 7)) (hf : authFind s uid uidLen = none)
    (hc : authCount s < AUTH_MAX) (k : Nat) (hk : k < 24) :
    EEPROM.read (authAdd s uid uidLen name).2 (64 + authCount s * 24 + k)
      = authRecordByte uid uidLen name k % 256 := by
  have hc80 : authCount s < 80 := hc
  unfold EEPROM.read
  rw [if_pos (show 64 + authCount s * 24 + k < 4096 by omega),
    eeprom_authAdd_insert s uid uidLen name h hf hc, if_neg (by omega),
    if_neg (by omega), if_pos (by omega),
    show 64 + authCount s * 24 + k - (64 + authCount s * 24) = k by omega]

theorem slotLen_authAdd_insert (s : State) (uid : Nat → Nat) (uidLen : Nat) (name : List Nat)
    (h : ¬ (uidLen = 0 ∨ uidLen > 7)) (hf : authFind s uid uidLen = none)
    (hc : authCount s < AUTH_MAX) :
    slotLen (authAdd s uid uidLen name).2 (authCount s) = uidLen := by
  have e := read_authAdd_insert s uid uidLen name h hf hc 0 (by omega)
  rw [Nat.add_zero] at e
  show EEPROM.read _ (64 + authCount s * 24) = uidLen
  rw [e]
  unfold authRecordByte
  rw [if_pos rfl]
  omega

theorem slotByte_authAdd_insert (s : State) (uid : Nat → Nat) (uidLen : Nat) (name : List Nat)
    (h : ¬ (uidLen = 0 ∨ uidLen > 7)) (hf : authFind s uid uidLen = none)
    (hc : authCount s < AUTH_MAX) (k : Nat) (hk : k < uidLen) :
    slotByte (authAdd s uid uidLen name).2 (authCount s) k = uid k % 256 := by
  have e := read_authAdd_insert s uid uidLen name h hf hc (1 + k) (by omega)
  show EEPROM.read _ (64 + authCount s * 24 + 1 + k) = _
  rw [show 64 + authCount s * 24 + 1 + k = 64 + authCount s * 24 + (1 + k) by omega, e]
  unfold authRecordByte
  rw [if_neg (by omega), if_pos (by omega), show 1 + k - 1 = k by omega, if_pos hk, Nat.mod_mod]

/-- The test of `authFind` on slot `i`, in terms of the slot's fields. -/
theorem authFind_hit_iff (s : State) (uid : Nat → Nat) (uidLen i : Nat) :
    authFind.hit s uid uidLen i = true ↔
      slotLen s i ≠ 0xFF ∧ slotLen s i ≠ 0 ∧ uidLen = slotLen s i ∧
      ∀ k, k < uidLen → uid k % 256 = (if k < 7 then slotByte s i k else 0) % 256 := by
  unfold authFind.hit slotLen slotByte
  simp only []
  by_cases hl : EEPROM.read s (AUTH_START + i * AUTH_REC_SIZE) = 0xFF ∨
      EEPROM.read s (AUTH_START + i * AUTH_REC_SIZE) = 0
  · rw [if_pos hl]
    constructor
    · intro h; cases h
    · rintro ⟨h1, h2, _⟩
      rcases hl with hl | hl
      · exact absurd hl h1
      · exact absurd hl h2
  · rw [if_neg hl, sameUID_iff]
    constructor
    · rintro ⟨h1, h2⟩
      exact ⟨fun e => hl (Or.inl e), fun e => hl (Or.inr e), h1, h2⟩
    · rintro ⟨_, _, h1, h2⟩
      exact ⟨h1, h2⟩

theorem wellFormed_authAdd (s : State) (uid : Nat → Nat) (uidLen : Nat) (name : List Nat)
    (hs : WellFormed s) : WellFormed (authAdd s uid uidLen name).2 := by
  by_cases hv : uidLen = 0 ∨ uidLen > 7
  · rw [authAdd_invalid s uid uidLen name hv]; exact hs
  cases hf : authFind s uid uidLen with
  | some i => rw [authAdd_found s uid uidLen name hv (by rw [hf]; rfl)]; exact hs
  | none =>
    by_cases hc : authCount s < AUTH_MAX
    swap
    · rw [authAdd_full s uid uidLen name hv hf (Nat.not_lt.mp hc)]; exact hs
    have hc80 : authCount s < 80 := hc
    have cell := eeprom_authAdd_insert s uid uidLen name hv hf hc
    have hcount := authCount_authAdd_insert s uid uidLen name hv hf hc
    have frame : ∀ b, b ≠ 4 → b ≠ 5 →
        ¬ (64 + authCount s * 24 ≤ b ∧ b < 64 + authCount s * 24 + 24) →
        (authAdd s uid uidLen name).2.eeprom b = s.eeprom b := by
      intro b h4 h5 hb
      rw [cell, if_neg h5, if_neg h4, if_neg hb]
    have hl : ∀ i, i ≠ authCount s → slotLen (authAdd s uid uidLen name).2 i = slotLen s i :=
      fun i hi => slotLen_congr i (frame _ (by omega) (by omega) (by omega))
    have hb : ∀ i k, i ≠ authCount s → k < 7 →
        slotByte (authAdd s uid uidLen name).2 i k = slotByte s i k :=
      fun i k hi hk => slotByte_congr i k (frame _ (by omega) (by omega) (by omega))
    have hln := slotLen_authAdd_insert s uid uidLen name hv hf hc
    have hbn := slotByte_authAdd_insert s uid uidLen name hv hf hc
    obtain ⟨hH, hR, g1, g2, g3, g4⟩ := hs
    refine ⟨headerOK_congr (fun b hb => frame b (by omega) (by omega) (by omega)) hH,
      ringOK_congr (fun b h1 h2 => frame b (by omega) (by omega) (by omega)) hR, ?_⟩
    unfold RegistryOK
    rw [hcount]
    refine ⟨by show authCount s + 1 ≤ 80; omega, ?_, ?_, ?_⟩
    · intro i hi
      by_cases e : i = authCount s
      · rw [e, hln]; omega
      · rw [hl i e]; exact g2 i (by omega)
    · intro i hi1 hi2
      rw [hl i (by omega)]
      exact g3 i (by omega) hi2
    · intro i j hij hj
      by_cases e : j = authCount s
      · subst e
        rw [hl i (by omega), hln]
        rintro ⟨e1, e2⟩
        have hmiss : authFind.hit s uid uidLen i = false := by
          unfold authFind at hf
          exact (authFind_loop_eq_none s uid uidLen _ _).mp hf i (Nat.zero_le _) (by omega)
        have hhit : authFind.hit s uid uidLen i = true := by
          rw [authFind_hit_iff]
          have hi := g2 i hij
          refine ⟨by omega, by omega, e1.symm, fun k hk => ?_⟩
          rw [if_pos (by omega)]
          have := e2 k (by omega)
          rw [hb i k (by omega) (by omega), hbn k hk] at this
          rw [this, Nat.mod_mod]
        rw [hhit] at hmiss
        cases hmiss
      · rw [hl i (by omega), hl j e]
        rintro ⟨e1, e2⟩
        apply g4 i j hij (by omega)
        refine ⟨e1, fun k hk => ?_⟩
        have := (g2 i (by omega)).2
        rw [← hb i k (by omega) (by omega), ← hb j k e (by omega)]
        exact e2 k hk

theorem wellFormed_step (s : State) (op : Op) (hs : WellFormed s) : WellFormed (step s op) := by
  cases op with
  | logWrite uid uidLen allowed rtc => exact wellFormed_logWriteOne s uid uidLen allowed rtc hs
  | wipeLogs authenticated => exact wellFormed_handleWipeLogs s authenticated hs
  | add uid uidLen name => exact wellFormed_authAdd s uid uidLen name hs
  | wipeCards authenticated => exact wellFormed_handleWipeCards s authenticated hs
  | scan card rtc => exact wellFormed_processRFID s card rtc hs
  | restart =>
    show WellFormed (eepromInitIfNeeded s)
    rw [eepromInitIfNeeded_valid s hs.1]
    exact hs

theorem wellFormed_eepromInitIfNeeded (raw : State)
    (hraw : ¬ (e16 raw 0 = 0xBEEF ∧ e16 raw 2 = 1)) : WellFormed (eepromInitIfNeeded raw) := by
  obtain ⟨h0, h2, h4, h6, h8, h10, hreg, _⟩ := eepromInitIfNeeded_fresh raw hraw
  refine ⟨⟨h0, h2⟩, ?_, ?_⟩
  · unfold RingOK
    rw [h6, h8, h10]
    decide
  · unfold RegistryOK
    rw [h4]
    refine ⟨Nat.zero_le _, fun i hi => absurd hi (Nat.not_lt_zero _), fun i _ hi => ?_,
      fun i j _ hj => absurd hj (Nat.not_lt_zero _)⟩
    have hi80 : i < 80 := hi
    exact hreg _ (by show 64 ≤ 64 + i * 24; omega) (by show 64 + i * 24 < 1984; omega)

/-- Every state reached from a well-formed store is well-formed. -/
theorem wellFormed_runOps (s : State) (hs : WellFormed s) (ops : List Op) :
    WellFormed (runOps s ops) := by
  induction ops using List.reverseRecOn with
  | nil => exact hs
  | append_singleton ops op ih =>
    rw [runOps_append]
    exact wellFormed_step _ op ih

end ReachableAdd

section Invariants

/-- Claim C13. Ring invariant: in every state reachable from a bootstrapped
store by any sequence of `logWriteOne`, log wipe, `authAdd`, registry wipe
(and scans and restarts), logHead < LOG_CAPACITY, logTail < LOG_CAPACITY,
0 <= logCount <= LOG_CAPACITY and logHead = (logTail + logCount) mod
LOG_CAPACITY; the logCount slots walked from logTail forward are pairwise
different and none of them is logHead. -/
theorem ring_invariant (raw : State) (hraw : ¬ (e16 raw 0 = 0xBEEF ∧ e16 raw 2 = 1))
    (ops : List Op) :
    logHead (runOps (eepromInitIfNeeded raw) ops) < LOG_CAPACITY ∧
    logTail (runOps (eepromInitIfNeeded raw) ops) < LOG_CAPACITY ∧
    0 ≤ logCount (runOps (eepromInitIfNeeded raw) ops) ∧
    logCount (runOps (eepromInitIfNeeded raw) ops) ≤ LOG_CAPACITY ∧
    logHead (runOps (eepromInitIfNeeded raw) ops)
      = (logTail (runOps (eepromInitIfNeeded raw) ops)
          + logCount (runOps (eepromInitIfNeeded raw) ops)) % LOG_CAPACITY ∧
    (∀ i, i < logCount (runOps (eepromInitIfNeeded raw) ops) →
      (logTail (runOps (eepromInitIfNeeded raw) ops) + i) % LOG_CAPACITY
        ≠ logHead (runOps (eepromInitIfNeeded raw) ops)) ∧
    (∀ i j, i < j → j < logCount (runOps (eepromInitIfNeeded raw) ops) →
      (logTail (runOps (eepromInitIfNeeded raw) ops) + i) % LOG_CAPACITY
        ≠ (logTail (runOps (eepromInitIfNeeded raw) ops) + j) % LOG_CAPACITY) := by
  have h := (wellFormed_runOps _ (wellFormed_eepromInitIfNeeded raw hraw) ops).2.1
  generalize runOps (eepromInitIfNeeded raw) ops = s at h
  obtain ⟨h1, h2, h3, h4⟩ := h
  have h1n : logHead s < 132 := h1
  have h2n : logTail s < 132 := h2
  have h3n : logCount s ≤ 118 := h3
  have h4n : logHead s = (logTail s + logCount s) % 132 := h4
  refine ⟨h1, h2, Nat.zero_le _, ?_, h4, ?_, ?_⟩
  · show logCount s ≤ 132
    omega
  · intro i hi
    show (logTail s + i) % 132 ≠ logHead s
    omega
  · intro i j hij hj
    show (logTail s + i) % 132 ≠ (logTail s + j) % 132
    omega

/-- Instance of C13 on a session of a factory-fresh device. -/
theorem ring_invariant_witness :
    ¬ (e16 blankState 0 = 0xBEEF ∧ e16 blankState 2 = 1) ∧
    logHead (runOps emptyState sampleOps)
      = (logTail (runOps emptyState sampleOps)
          + logCount (runOps emptyState sampleOps)) % LOG_CAPACITY := by
  have h := ring_invariant blankState blankState_header sampleOps
  with_reducible exact ⟨blankState_header, h.2.2.2.2.1⟩

/-- Claim C14. Registry invariant: in every state reachable from a
bootstrapped store by any sequence of `authAdd`, registry wipe, `logWriteOne`,
log wipe (and scans and restarts), registryCount <= 80; every slot below
registryCount is occupied, with an idLen byte in 1..7; every slot from
registryCount up to 79 holds the empty sentinel idLen = 0xFF; and no two
different slots below registryCount have equal (idLen, idBytes), not even
equal idLen and first idLen id bytes. -/
theorem registry_invariant (raw : State) (hraw : ¬ (e16 raw 0 = 0xBEEF ∧ e16 raw 2 = 1))
    (ops : List Op) :
    authCount (runOps (eepromInitIfNeeded raw) ops) ≤ AUTH_MAX ∧
    (∀ i, i < authCount (runOps (eepromInitIfNeeded raw) ops) →
      1 ≤ slotLen (runOps (eepromInitIfNeeded raw) ops) i ∧
      slotLen (runOps (eepromInitIfNeeded raw) ops) i ≤ 7) ∧
    (∀ i, authCount (runOps (eepromInitIfNeeded raw) ops) ≤ i → i < AUTH_MAX →
      slotLen (runOps (eepromInitIfNeeded raw) ops) i = 0xFF) ∧
    (∀ i j, i < authCount (runOps (eepromInitIfNeeded raw) ops) →
      j < authCount (runOps (eepromInitIfNeeded raw) ops) → i ≠ j →
      ¬ (slotLen (runOps (eepromInitIfNeeded raw) ops) i
            = slotLen (runOps (eepromInitIfNeeded raw) ops) j ∧
          ∀ k, k < 7 → slotByte (runOps (eepromInitIfNeeded raw) ops) i k
            = slotByte (runOps (eepromInitIfNeeded raw) ops) j k)) ∧
    (∀ i j, i < authCount (runOps (eepromInitIfNeeded raw) ops) →
      j < authCount (runOps (eepromInitIfNeeded raw) ops) → i ≠ j →
      ¬ (slotLen (runOps (eepromInitIfNeeded raw) ops) i
            = slotLen (runOps (eepromInitIfNeeded raw) ops) j ∧
          ∀ k, k < slotLen (runOps (eepromInitIfNeeded raw) ops) i →
            slotByte (runOps (eepromInitIfNeeded raw) ops) i k
              = slotByte (runOps (eepromInitIfNeeded raw) ops) j k)) := by
  have h := (wellFormed_runOps _ (wellFormed_eepromInitIfNeeded raw hraw) ops).2.2
  generalize runOps (eepromInitIfNeeded raw) ops = s at h
  obtain ⟨h1, h2, h3, h4⟩ := h
  have strong : ∀ i j, i < authCount s → j < authCount s → i ≠ j →
      ¬ (slotLen s i = slotLen s j ∧ ∀ k, k < slotLen s i → slotByte s i k = slotByte s j k) := by
    intro i j hi hj hij
    rcases Nat.lt_or_gt_of_ne hij with hlt | hgt
    · exact h4 i j hlt hj
    · rintro ⟨e1, e2⟩
      exact h4 j i hgt hi ⟨e1.symm, fun k hk => (e2 k (by rw [e1]; exact hk)).symm⟩
  refine ⟨h1, h2, h3, ?_, strong⟩
  intro i j hi hj hij
  rintro ⟨e1, e2⟩
  have := (h2 i hi).2
  exact strong i j hi hj hij ⟨e1, fun k hk => e2 k (by omega)⟩

/-- Instance of C14 on a session of a factory-fresh device. -/
theorem registry_invariant_witness :
    ¬ (e16 blankState 0 = 0xBEEF ∧ e16 blankState 2 = 1) ∧
    authCount (runOps emptyState sampleOps) ≤ AUTH_MAX := by
  have h := registry_invariant blankState blankState_header sampleOps
  with_reducible exact ⟨blankState_header, h.1⟩

/-- Claim C18. Retention of the ring log: after the N calls `es` of
`logWriteOne` on an empty log, logCount is min(N, LOG_THRESHOLD) with
LOG_THRESHOLD = (LOG_CAPACITY * 90) / 100; logCount is at most the threshold in
every state reachable from a bootstrapped store; for maxRows >= logCount
`logListHTML` yields exactly the min(N, LOG_THRESHOLD) most recent calls as
rows (id length, id bytes zero-padded, timestamp, flag), oldest first; for a
smaller maxRows it yields the oldest maxRows of them. -/
theorem logWriteOne_retention (s : State)
    (hempty : logHead s = 0 ∧ logTail s = 0 ∧ logCount s = 0)
    (es : List LogEntry) (maxRows : Nat) :
    LOG_THRESHOLD = (LOG_CAPACITY * 90) / 100 ∧
    logCount (runLogs s es) = min es.length LOG_THRESHOLD ∧
    (∀ raw ops, ¬ (e16 raw 0 = 0xBEEF ∧ e16 raw 2 = 1) →
      logCount (runOps (eepromInitIfNeeded raw) ops) ≤ LOG_THRESHOLD) ∧
    (es.drop (es.length - min es.length LOG_THRESHOLD)).length = min es.length LOG_THRESHOLD ∧
    (logCount (runLogs s es) ≤ maxRows →
      logListHTML (runLogs s es) maxRows
        = (es.drop (es.length - min es.length LOG_THRESHOLD)).map (logRowOf s)) ∧
    (maxRows < logCount (runLogs s es) →
      logListHTML (runLogs s es) maxRows
        = ((es.drop (es.length - min es.length LOG_THRESHOLD)).take maxRows).map
            (logRowOf s)) := by
  have hc := (ring_after_runLogs s hempty es).2.2.1
  have hl := logListHTML_runLogs s hempty es maxRows
  refine ⟨by decide, hc, ?_, ?_, ?_, ?_⟩
  · intro raw ops hraw
    exact (wellFormed_runOps _ (wellFormed_eepromInitIfNeeded raw hraw) ops).2.1.2.2.1
  · rw [List.length_drop]
    show es.length - (es.length - min es.length 118) = min es.length 118
    omega
  · intro hm
    rw [hc] at hm
    rw [hl]
    show List.map (logRowOf s) (List.take maxRows (List.drop (es.length - min es.length 118) es))
      = List.map (logRowOf s) (List.drop (es.length - min es.length 118) es)
    rw [List.take_of_length_le (by rw [List.length_drop]; omega)]
  · intro _
    exact hl

/-- Instance of C18: 133 calls on the freshly bootstrapped store leave 118
records. -/
theorem logWriteOne_retention_witness :
    (logHead emptyState = 0 ∧ logTail emptyState = 0 ∧ logCount emptyState = 0) ∧
    logCount (runLogs emptyState (List.replicate 133 sampleEntry))
      = min (List.replicate 133 sampleEntry).length LOG_THRESHOLD := by
  have h := logWriteOne_retention emptyState emptyState_log (List.replicate 133 sampleEntry) 200
  with_reducible exact ⟨emptyState_log, h.2.1⟩

end Invariants

section InvalidLength

/-- With every occupied slot holding a length in 1..7, a lookup with length 0
or above 7 misses. -/
theorem authFind_bad_length (s : State)
    (hs : ∀ i, i < authCount s → 1 ≤ slotLen s i ∧ slotLen s i ≤ 7) (uid : Nat → Nat)
    (uidLen : Nat) (hbad : uidLen = 0 ∨ uidLen > 7) : authFind s uid uidLen = none := by
  unfold authFind
  simp only []
  rw [authFind_loop_eq_none]
  intro j _ hj
  cases hh : authFind.hit s uid uidLen j with
  | false => rfl
  | true =>
    rw [authFind_hit_iff] at hh
    have := hs j (by omega)
    omega

/-- Effects of a scan whose lookup misses: the record with flag 0, the header,
the commit, and a feedback that does not switch the relay on. -/
theorem trace_processRFID_denied (s : State) (size : Nat) (uidByte : Nat → Nat) (rtc : Nat)
    (hmiss : authFind s (processRFID.capture s size uidByte).lastUID (size % 256) = none) :
    ∃ hw fb : List Effect,
      (processRFID s (some (size, uidByte)) rtc).trace
        = s.trace
          ++ (List.range 16).map (fun k =>
              Effect.eepromWrite (LOG_START + logHead s * LOG_REC_SIZE + k)
                (logRecordByte uidByte (size % 256) false (nowUnix s rtc) k))
          ++ hw ++ [Effect.eepromCommit] ++ fb ∧
      (∀ e ∈ hw, ∃ a v, e = Effect.eepromWrite a v ∧ 6 ≤ a ∧ a < 12) ∧
      (∀ e ∈ fb, Effect.isStorage e = false) ∧
      ¬ (Effect.digitalWrite Pin.PIN_RELAY true ∈ fb) := by
  have hA := capture_authFind_pre s size uidByte
  have hnow : ∀ r, nowUnix (processRFID.capture s size uidByte) r = nowUnix s r :=
    fun r => nowUnix_congr (capture_ds3231_ok s size uidByte) r
  obtain ⟨v6, v7, v8, v9, v10, v11, htr⟩ :=
    trace_logWriteOne (processRFID.capture s size uidByte)
      (processRFID.capture s size uidByte).lastUID (size % 256) false rtc
  simp only [capture_logRecordByte, capture_trace, capture_logHead, hnow] at htr
  have hT := trace_processRFID s size uidByte rtc
  rw [hA, hmiss] at hT
  simp only [Option.isSome_none, Bool.false_eq_true, if_false] at hT
  rw [htr] at hT
  refine ⟨[Effect.eepromWrite 6 v6, Effect.eepromWrite 7 v7, Effect.eepromWrite 8 v8,
      Effect.eepromWrite 9 v9, Effect.eepromWrite 10 v10, Effect.eepromWrite 11 v11],
    [Effect.digitalWrite Pin.PIN_LED false]
      ++ [Effect.tone Pin.PIN_BUZZ TONE_NO_FREQ, Effect.delay TONE_MS_LONG,
          Effect.noTone Pin.PIN_BUZZ, Effect.delay TONE_GAP_MS,
          Effect.tone Pin.PIN_BUZZ TONE_NO_FREQ, Effect.delay TONE_MS_LONG,
          Effect.noTone Pin.PIN_BUZZ]
      ++ [Effect.digitalWrite Pin.PIN_LED true, Effect.piccHaltA, Effect.pcdStopCrypto1],
    ?_, ?_, by decide, by decide⟩
  · rw [hT]
    simp only [List.append_assoc]
  · intro e he
    simp only [List.mem_cons, List.mem_singleton, List.not_mem_nil, or_false] at he
    rcases he with rfl | rfl | rfl | rfl | rfl | rfl
    · exact ⟨6, v6, rfl, by decide, by decide⟩
    · exact ⟨7, v7, rfl, by decide, by decide⟩
    · exact ⟨8, v8, rfl, by decide, by decide⟩
    · exact ⟨9, v9, rfl, by decide, by decide⟩
    · exact ⟨10, v10, rfl, by decide, by decide⟩
    · exact ⟨11, v11, rfl, by decide, by decide⟩

/-- Claim C20. A credential whose reported length is 0 or greater than 7 is
never granted access: in every state reachable from a bootstrapped store
`authFind(uid, len)` misses for every uid when len = 0 or len > 7, whatever the
bytes of uid are; so a scan that reports such a length writes its record with
flag 0 (in the write sequence and in the store) and its feedback does not
switch the relay on. -/
theorem invalid_length_denied (raw : State) (hraw : ¬ (e16 raw 0 = 0xBEEF ∧ e16 raw 2 = 1))
    (ops : List Op) :
    (∀ (uid : Nat → Nat) (uidLen : Nat), (uidLen = 0 ∨ uidLen > 7) →
      authFind (runOps (eepromInitIfNeeded raw) ops) uid uidLen = none) ∧
    (∀ (size : Nat) (uidByte : Nat → Nat) (rtc : Nat), (size % 256 = 0 ∨ size % 256 > 7) →
      (∃ hw fb : List Effect,
        (processRFID (runOps (eepromInitIfNeeded raw) ops) (some (size, uidByte)) rtc).trace
          = (runOps (eepromInitIfNeeded raw) ops).trace
            ++ (List.range 16).map (fun k =>
                Effect.eepromWrite
                  (LOG_START + logHead (runOps (eepromInitIfNeeded raw) ops) * LOG_REC_SIZE + k)
                  (logRecordByte uidByte (size % 256) false
                    (nowUnix (runOps (eepromInitIfNeeded raw) ops) rtc) k))
            ++ hw ++ [Effect.eepromCommit] ++ fb ∧
        (∀ e ∈ hw, ∃ a v, e = Effect.eepromWrite a v ∧ 6 ≤ a ∧ a < 12) ∧
        (∀ e ∈ fb, Effect.isStorage e = false) ∧
        ¬ (Effect.digitalWrite Pin.PIN_RELAY true ∈ fb)) ∧
      logRecordByte uidByte (size % 256) false
          (nowUnix (runOps (eepromInitIfNeeded raw) ops) rtc) 12 = 0 ∧
      EEPROM.read (processRFID (runOps (eepromInitIfNeeded raw) ops) (some (size, uidByte)) rtc)
          (LOG_START + logHead (runOps (eepromInitIfNeeded raw) ops) * LOG_REC_SIZE + 12)
        = 0) := by
  have h := wellFormed_runOps _ (wellFormed_eepromInitIfNeeded raw hraw) ops
  generalize runOps (eepromInitIfNeeded raw) ops = s at h
  have hmissAll := authFind_bad_length s h.2.2.2.1
  have hhead : logHead s < 132 := h.2.1.1
  refine ⟨hmissAll, ?_⟩
  intro size uidByte rtc hbad
  have hmiss := hmissAll (processRFID.capture s size uidByte).lastUID (size % 256) hbad
  have hflag : ∀ ts, logRecordByte uidByte (size % 256) false ts 12 = 0 := by
    intro ts
    unfold logRecordByte
    simp only [Nat.reduceEqDiff, Nat.reduceLT, if_true, if_false, Nat.lt_irrefl,
      Bool.false_eq_true]
  refine ⟨trace_processRFID_denied s size uidByte rtc hmiss, hflag _, ?_⟩
  show EEPROM.read _ (1984 + logHead s * 16 + 12) = 0
  unfold EEPROM.read
  rw [if_pos (show 1984 + logHead s * 16 + 12 < 4096 by omega),
    eeprom_processRFID_cells s size uidByte rtc _ (Or.inr (by omega)), if_pos (by omega),
    hmiss,
    show 1984 + logHead s * 16 + 12 - (1984 + logHead s * 16) = 12 by omega]
  simp only [Option.isSome_none, hflag]

/-- Instance of C20: with the 7-byte credential 04:a1:b2:c3:d4:e5:f6 registered
on a factory-fresh device, the 10-byte UID that starts with the same seven
bytes is not found. -/
theorem invalid_length_denied_witness :
    ¬ (e16 blankState 0 = 0xBEEF ∧ e16 blankState 2 = 1) ∧
    authFind (runOps emptyState sevenByteOps) tenByteUID 7 = some 0 ∧
    authFind (runOps emptyState sevenByteOps) tenByteUID 10 = none := by
  have h := (invalid_length_denied blankState blankState_header sevenByteOps).1 tenByteUID 10
    (by decide)
  have hv : ¬ (7 = 0 ∨ 7 > 7) := by decide
  have e : runOps emptyState sevenByteOps = (authAdd emptyState tenByteUID 7 aliceName).2 := by
    simp only [runOps, sevenByteOps, List.foldl, step]
  have h7 : authFind (runOps emptyState sevenByteOps) tenByteUID 7 = some 0 := by
    rw [e, authFind_authAdd_insert emptyState tenByteUID 7 aliceName hv
      (emptyState_authFind tenByteUID 7) emptyState_room tenByteUID 7,
      emptyState_authFind tenByteUID 7]
    simp only [sameUID_refl, if_true, emptyState_fields.1]
  with_reducible exact ⟨blankState_header, h7, h⟩

end InvalidLength

section ScanFrame

theorem overfullState_cell (a : Nat) :
    overfullState.eeprom a
      = if a = 0 then 0xEF else if a = 1 then 0xBE else if a = 2 then 1
        else if a = 4 then 81 else if 64 ≤ a ∧ a < 1984 then 0xFF else 0 := rfl

theorem overfullState_authFind : authFind overfullState aliceUID 4 = none := by
  have hc : authCount overfullState = 81 :=
    e16_of_cells _ 4 81 0 (by decide) rfl rfl (by decide) (by decide)
  unfold authFind
  simp only []
  rw [hc, authFind_loop_eq_none]
  intro j _ hj
  cases hh : authFind.hit overfullState aliceUID 4 j with
  | false => rfl
  | true =>
    rw [authFind_hit_iff] at hh
    obtain ⟨h1, h2, _, _⟩ := hh
    exfalso
    have hl : slotLen overfullState j = if j < 80 then 0xFF else 0 := by
      show EEPROM.read _ (64 + j * 24) = _
      unfold EEPROM.read
      rw [if_pos (show 64 + j * 24 < 4096 by omega), overfullState_cell]
      simp (disch := omega) only [if_neg]
      by_cases h80 : j < 80
      · rw [if_pos h80, if_pos (by omega)]
      · rw [if_neg h80, if_neg (by omega)]
    rw [hl] at h1 h2
    by_cases h80 : j < 80
    · rw [if_pos h80] at h1; exact h1 rfl
    · rw [if_neg h80] at h2; exact h2 rfl

/-- Claim C19, a store on which the claim fails: a valid header with logHead
= 0 < LOG_CAPACITY and registryCount = 81. The card 04:a1:b2:c3 is not found;
one scan of it writes its log record into log slot 0, the bytes that
`authFind` reads as registry slot 80, and the card is found at index 80
afterwards. -/
theorem overfullState_scan_changes_authFind :
    logHead overfullState < LOG_CAPACITY ∧
    authFind overfullState aliceUID 4 = none ∧
    authFind (processRFID overfullState (some (4, aliceUID)) 0) aliceUID 4 = some 80 ∧
    authFind (logWriteOne overfullState aliceUID 4 false 0) aliceUID 4 = some 80 := by
  have hhead : logHead overfullState = 0 :=
    e16_of_cells _ 6 0 0 (by decide) rfl rfl (by decide) (by decide)
  have hc : authCount overfullState = 81 :=
    e16_of_cells _ 4 81 0 (by decide) rfl rfl (by decide) (by decide)
  have hmiss := overfullState_authFind
  have key : ∀ t : State,
      (∀ b, (b < 6 ∨ 12 ≤ b) → t.eeprom b
        = if 1984 + logHead overfullState * 16 ≤ b ∧ b < 1984 + logHead overfullState * 16 + 16
              ∧ b < 4096 then
            logRecordByte aliceUID 4 false (nowUnix overfullState 0)
              (b - (1984 + logHead overfullState * 16))
          else overfullState.eeprom b) →
      authFind t aliceUID 4 = some 80 := by
    intro t cell
    rw [hhead] at cell
    have hct : authCount t = 81 := by
      rw [← hc]
      exact e16_congr (by rw [cell 4 (by omega), if_neg (by omega)])
        (by rw [cell 5 (by omega), if_neg (by omega)])
    have hl : ∀ j, j < 80 → slotLen t j = 0xFF := by
      intro j hj
      show EEPROM.read _ (64 + j * 24) = _
      unfold EEPROM.read
      rw [if_pos (show 64 + j * 24 < 4096 by omega), cell _ (by omega), if_neg (by omega),
        overfullState_cell]
      simp (disch := omega) only [if_neg]
      rw [if_pos (by omega)]
    have hrd : ∀ k, k < 16 → EEPROM.read t (1984 + k)
        = logRecordByte aliceUID 4 false (nowUnix overfullState 0) k % 256 := by
      intro k hk
      unfold EEPROM.read
      rw [if_pos (show 1984 + k < 4096 by omega), cell _ (by omega), if_pos (by omega),
        show 1984 + k - (1984 + 0 * 16) = k by omega]
    unfold authFind
    simp only []
    rw [hct, authFind_loop_eq_some]
    refine ⟨by omega, by omega, ?_, ?_⟩
    · rw [authFind_hit_iff]
      have h0 : slotLen t 80 = 4 := by
        show EEPROM.read t (64 + 80 * 24) = 4
        have := hrd 0 (by omega)
        rw [show 64 + 80 * 24 = 1984 + 0 by rfl, this]
        rfl
      rw [h0]
      refine ⟨by decide, by decide, rfl, ?_⟩
      intro k hk
      rw [if_pos (by omega)]
      show _ = EEPROM.read t (64 + 80 * 24 + 1 + k) % 256
      rw [show 64 + 80 * 24 + 1 + k = 1984 + (1 + k) by omega, hrd (1 + k) (by omega)]
      unfold logRecordByte
      rw [if_neg (by omega), if_pos (by omega), show 1 + k - 1 = k by omega, if_pos hk,
        Nat.mod_mod, Nat.mod_mod]
    · intro k _ hk
      cases hh : authFind.hit t aliceUID 4 k with
      | false => rfl
      | true =>
        rw [authFind_hit_iff] at hh
        exact absurd (hl k hk) hh.1
  refine ⟨by rw [hhead]; decide, hmiss, ?_, ?_⟩
  · apply key
    intro b hb
    have := eeprom_processRFID_cells_le7 overfullState 4 aliceUID 0 (by decide) b hb
    rw [hmiss] at this
    exact this
  · apply key
    intro b hb
    exact eeprom_logWriteOne overfullState aliceUID 4 false 0 b hb

end ScanFrame

section ScanFrameAmended

theorem runScans_append (s : State) (cards : List (Option (Nat × (Nat → Nat)) × Nat))
    (c : Option (Nat × (Nat → Nat)) × Nat) :
    runScans s (cards ++ [c]) = processRFID (runScans s cards) c.1 c.2 := by
  unfold runScans
  rw [List.foldl_append]
  rfl

/-- A pass of `processRFID` changes no cell outside the header bytes 6..11
and the log partition. -/
theorem eeprom_processRFID_frame (s : State) (card : Option (Nat × (Nat → Nat))) (rtc : Nat)
    (b : Nat) (hb : b < 6 ∨ (12 ≤ b ∧ b < 1984)) :
    (processRFID s card rtc).eeprom b = s.eeprom b := by
  cases card with
  | none => rfl
  | some c =>
    obtain ⟨size, uidByte⟩ := c
    rw [eeprom_processRFID_cells s size uidByte rtc b (by omega), if_neg (by omega)]

theorem eeprom_runScans_frame (s : State) (cards : List (Option (Nat × (Nat → Nat)) × Nat))
    (b : Nat) (hb : b < 6 ∨ (12 ≤ b ∧ b < 1984)) :
    (runScans s cards).eeprom b = s.eeprom b := by
  induction cards using List.reverseRecOn with
  | nil => rfl
  | append_singleton cards c ih =>
    rw [runScans_append, eeprom_processRFID_frame _ _ _ b hb, ih]

/-- Claim C19, amended. For every store with logHead < LOG_CAPACITY and
registryCount <= AUTH_MAX, `logWriteOne` and `processRFID` change only the 16
bytes of log slot logHead, which lie in the log partition, and the header
bytes 6..11; magic, version, registryCount and the registry partition are
unchanged; `authFind` gives the same result on every store that agrees on
registryCount and on the registry partition; so for every credential
`authFind` returns the same result and index before and after any sequence
of scans. -/
theorem scans_keep_authFind (s : State) (hhead : logHead s < LOG_CAPACITY)
    (hcount : authCount s ≤ AUTH_MAX) :
    (∀ (uid : Nat → Nat) (uidLen : Nat) (allowed : Bool) (rtc b : Nat),
      ¬ (6 ≤ b ∧ b < 12) →
      ¬ (LOG_START + logHead s * LOG_REC_SIZE ≤ b ∧
          b < LOG_START + logHead s * LOG_REC_SIZE + LOG_REC_SIZE) →
      (logWriteOne s uid uidLen allowed rtc).eeprom b = s.eeprom b) ∧
    (∀ (card : Option (Nat × (Nat → Nat))) (rtc b : Nat),
      ¬ (6 ≤ b ∧ b < 12) →
      ¬ (LOG_START + logHead s * LOG_REC_SIZE ≤ b ∧
          b < LOG_START + logHead s * LOG_REC_SIZE + LOG_REC_SIZE) →
      (processRFID s card rtc).eeprom b = s.eeprom b) ∧
    (LOG_START ≤ LOG_START + logHead s * LOG_REC_SIZE ∧
      LOG_START + logHead s * LOG_REC_SIZE + LOG_REC_SIZE ≤ EEPROM_SIZE) ∧
    (∀ (card : Option (Nat × (Nat → Nat))) (rtc : Nat),
      e16 (processRFID s card rtc) 0 = e16 s 0 ∧ e16 (processRFID s card rtc) 2 = e16 s 2 ∧
      authCount (processRFID s card rtc) = authCount s ∧
      ∀ b, AUTH_START ≤ b → b < LOG_START → (processRFID s card rtc).eeprom b = s.eeprom b) ∧
    (∀ t : State, t.eeprom 4 = s.eeprom 4 → t.eeprom 5 = s.eeprom 5 →
      (∀ b, AUTH_START ≤ b → b < LOG_START → t.eeprom b = s.eeprom b) →
      ∀ (uid : Nat → Nat) (uidLen : Nat), authFind t uid uidLen = authFind s uid uidLen) ∧
    (∀ (cards : List (Option (Nat × (Nat → Nat)) × Nat)) (uid : Nat → Nat) (uidLen : Nat),
      authFind (runScans s cards) uid uidLen = authFind s uid uidLen) := by
  have hh : logHead s < 132 := hhead
  refine ⟨?_, ?_, ?_, ?_, ?_, ?_⟩
  · intro uid uidLen allowed rtc b h1 h2
    have h2n : ¬ (1984 + logHead s * 16 ≤ b ∧ b < 1984 + logHead s * 16 + 16) := h2
    rw [eeprom_logWriteOne s uid uidLen allowed rtc b (by omega), if_neg (by omega)]
  · intro card rtc b h1 h2
    have h2n : ¬ (1984 + logHead s * 16 ≤ b ∧ b < 1984 + logHead s * 16 + 16) := h2
    cases card with
    | none => rfl
    | some c =>
      obtain ⟨size, uidByte⟩ := c
      rw [eeprom_processRFID_cells s size uidByte rtc b (by omega), if_neg (by omega)]
  · constructor
    · exact Nat.le_add_right _ _
    · show 1984 + logHead s * 16 + 16 ≤ 4096
      omega
  · intro card rtc
    have fr := eeprom_processRFID_frame s card rtc
    refine ⟨e16_congr (fr 0 (by omega)) (fr 1 (by omega)),
      e16_congr (fr 2 (by omega)) (fr 3 (by omega)),
      e16_congr (fr 4 (by omega)) (fr 5 (by omega)), ?_⟩
    intro b h1 h2
    have h1n : 64 ≤ b := h1
    have h2n : b < 1984 := h2
    exact fr b (by omega)
  · intro t h4 h5 hreg uid uidLen
    symm
    apply authFind_congr_registry hcount
    rintro b (rfl | rfl | ⟨h1, h2⟩)
    · exact h4.symm
    · exact h5.symm
    · exact (hreg b h1 h2).symm
  · intro cards uid uidLen
    symm
    apply authFind_congr_registry hcount
    intro b hb
    exact (eeprom_runScans_frame s cards b (by omega)).symm

/-- Instance of the amended C19: on the bootstrapped store of a factory-fresh
device, two scans leave the lookup of Alice's card as it was. -/
theorem scans_keep_authFind_witness :
    logHead emptyState < LOG_CAPACITY ∧ authCount emptyState ≤ AUTH_MAX ∧
    authFind (runScans emptyState [(some (4, aliceUID), 0), (some (4, strangerUID), 0)])
        aliceUID 4
      = authFind emptyState aliceUID 4 := by
  have h1 : logHead emptyState < LOG_CAPACITY := by rw [emptyState_log.1]; decide
  have h2 : authCount emptyState ≤ AUTH_MAX := Nat.le_of_lt emptyState_room
  have h := scans_keep_authFind emptyState h1 h2
  with_reducible exact ⟨h1, h2,
    h.2.2.2.2.2 [(some (4, aliceUID), 0), (some (4, strangerUID), 0)] aliceUID 4⟩

end ScanFrameAmended

section Footprint

/-- The instrumented loop of `authFind` computes what the loop computes. -/
theorem authFind_loopT_fst (s : State) (uid : Nat → Nat) (uidLen : Nat) :
    ∀ n i, (authFind.loopT s uid uidLen n i).1 = authFind.loop s uid uidLen n i := by
  intro n
  induction n with
  | zero => intro i; rfl
  | succ n ih =>
    intro i
    rw [authFind.loopT, authFind.loop]
    simp only []
    split_ifs <;> simp only [ih]

/-- The instrumented loop of `logListHTML` computes what the loop computes. -/
theorem logListHTML_loopT_fst (s : State) (tail cnt maxRows : Nat) :
    ∀ n i shown, (logListHTML.loopT s tail cnt maxRows n i shown).1
      = logListHTML.loop s tail cnt maxRows n i shown := by
  intro n
  induction n with
  | zero => intro i shown; rfl
  | succ n ih =>
    intro i shown
    rw [logListHTML.loopT, logListHTML.loop]
    simp only []
    split_ifs <;> simp only [ih]

theorem authFind_loopT_reads (s : State) (uid : Nat → Nat) (uidLen : Nat) :
    ∀ n i, i + n ≤ 80 → ∀ a ∈ (authFind.loopT s uid uidLen n i).2, 64 ≤ a ∧ a < 1984 := by
  intro n
  induction n with
  | zero => intro i _ a ha; simp [authFind.loopT] at ha
  | succ n ih =>
    intro i hi a ha
    rw [authFind.loopT] at ha
    simp only [AUTH_START, AUTH_REC_SIZE] at ha
    split_ifs at ha
    · simp only [List.mem_cons] at ha
      rcases ha with rfl | ha
      · omega
      · exact ih (i + 1) (by omega) a ha
    · simp only [List.mem_cons, List.mem_map, List.mem_range] at ha
      rcases ha with rfl | ⟨k, hk, rfl⟩
      · omega
      · omega
    · simp only [List.mem_cons, List.mem_append, List.mem_map, List.mem_range,
        List.cons_append] at ha
      rcases ha with rfl | ⟨k, hk, rfl⟩ | ha
      · omega
      · omega
      · exact ih (i + 1) (by omega) a ha

theorem authFind_reads_bound (s : State) (hcount : authCount s ≤ AUTH_MAX) (uid : Nat → Nat)
    (uidLen : Nat) :
    ∀ a ∈ authFind.reads s uid uidLen, a = 4 ∨ a = 5 ∨ (64 ≤ a ∧ a < 1984) := by
  intro a ha
  have hc : authCount s ≤ 80 := hcount
  unfold authFind.reads e16.reads at ha
  simp only [List.mem_append, List.mem_cons, List.mem_singleton, List.not_mem_nil,
    or_false] at ha
  rcases ha with (rfl | rfl) | ha
  · exact Or.inl rfl
  · exact Or.inr (Or.inl rfl)
  · exact Or.inr (Or.inr (authFind_loopT_reads s uid uidLen _ 0 (by omega) a ha))

theorem logListHTML_loopT_reads (s : State) (tail cnt maxRows : Nat) :
    ∀ n i shown, ∀ a ∈ (logListHTML.loopT s tail cnt maxRows n i shown).2,
      1984 ≤ a ∧ a < 4096 := by
  intro n
  induction n with
  | zero => intro i shown a ha; simp [logListHTML.loopT] at ha
  | succ n ih =>
    intro i shown a ha
    rw [logListHTML.loopT] at ha
    split_ifs at ha
    · have hidx : (tail + i) % 132 < 132 := Nat.mod_lt _ (by decide)
      simp only [logListHTML.rowReads, List.mem_cons, List.mem_append, List.mem_map,
        List.mem_range, List.mem_singleton, List.not_mem_nil, or_false, LOG_START, AUTH_START,
        AUTH_MAX, AUTH_REC_SIZE, LOG_REC_SIZE, LOG_CAPACITY, EEPROM_SIZE, Nat.reduceAdd,
        Nat.reduceMul, Nat.reduceSub, Nat.reduceDiv] at ha
      rcases ha with ((rfl | ⟨k, hk, rfl⟩) | (rfl | rfl | rfl | rfl | rfl)) | ha
      any_goals omega
      exact ih _ _ a ha
    · simp at ha

end Footprint

section WriteFootprint

/-- `WritesWithin` in terms of the effects appended between the two states. -/
theorem writesWithin_iff (P : Nat → Prop) (s s' : State) :
    WritesWithin P s s' ↔ ∃ X : List Effect, s'.trace = s.trace ++ X ∧ ∀ a ∈ writesOf X, P a := by
  unfold WritesWithin
  constructor
  · rintro ⟨⟨X, hX⟩, h⟩
    refine ⟨X, hX.symm, ?_⟩
    rw [← hX, List.drop_left] at h
    exact h
  · rintro ⟨X, hX, h⟩
    refine ⟨⟨X, hX.symm⟩, ?_⟩
    rw [hX, List.drop_left]
    exact h

theorem writesWithin_refl (P : Nat → Prop) (s : State) : WritesWithin P s s :=
  (writesWithin_iff P s s).mpr
    ⟨[], (List.append_nil _).symm, fun a ha => by simp [writesOf] at ha⟩

theorem writesWithin_trans {P : Nat → Prop} {s t u : State} (h1 : WritesWithin P s t)
    (h2 : WritesWithin P t u) : WritesWithin P s u := by
  rw [writesWithin_iff] at h1 h2 ⊢
  obtain ⟨X, hX, pX⟩ := h1
  obtain ⟨Y, hY, pY⟩ := h2
  refine ⟨X ++ Y, by rw [hY, hX, List.append_assoc], ?_⟩
  intro a ha
  unfold writesOf at ha pX pY
  rw [List.filterMap_append, List.mem_append] at ha
  rcases ha with ha | ha
  · exact pX a ha
  · exact pY a ha

theorem writesWithin_write {P : Nat → Prop} (s : State) (a v : Nat) (h : P a) :
    WritesWithin P s (EEPROM.write s a v) := by
  rw [writesWithin_iff]
  refine ⟨[Effect.eepromWrite a (v % 256)], rfl, ?_⟩
  intro b hb
  simp only [writesOf, List.filterMap_cons, List.filterMap_nil, List.mem_singleton] at hb
  rw [hb]
  exact h

theorem writesWithin_emit {P : Nat → Prop} (s : State) (e : Effect) (h : writesOf [e] = []) :
    WritesWithin P s (emit s e) := by
  rw [writesWithin_iff]
  refine ⟨[e], rfl, ?_⟩
  intro b hb
  rw [h] at hb
  cases hb

theorem writesWithin_eepromCommit {P : Nat → Prop} (s : State) :
    WritesWithin P s (eepromCommit s) :=
  writesWithin_emit s Effect.eepromCommit rfl

theorem writesWithin_w16 {P : Nat → Prop} (s : State) (a v : Nat) (h0 : P a) (h1 : P (a + 1)) :
    WritesWithin P s (w16 s a v) :=
  writesWithin_trans (writesWithin_write s a _ h0) (writesWithin_write _ (a + 1) _ h1)

theorem writesWithin_forRange {P : Nat → Prop} (body : Nat → State → State) :
    ∀ (n lo : Nat) (s : State),
      (∀ i t, lo ≤ i → i < lo + n → WritesWithin P t (body i t)) →
      WritesWithin P s (forRange lo n body s) := by
  intro n
  induction n with
  | zero => intro lo s _; exact writesWithin_refl P s
  | succ n ih =>
    intro lo s h
    rw [forRange_succ]
    exact writesWithin_trans (h lo s (Nat.le_refl _) (by omega))
      (ih (lo + 1) _ (fun i t h1 h2 => h i t (by omega) (by omega)))

theorem writesWithin_mono {P Q : Nat → Prop} {s t : State} (h : ∀ a, P a → Q a)
    (w : WritesWithin P s t) : WritesWithin Q s t :=
  ⟨w.1, fun a ha => h a (w.2 a ha)⟩

theorem writesWithin_eepromInitIfNeeded (s : State) :
    WritesWithin (fun a => a < 12 ∨ (64 ≤ a ∧ a < 4096)) s (eepromInitIfNeeded s) := by
  unfold eepromInitIfNeeded
  simp only []
  split
  · refine writesWithin_trans ?_ (writesWithin_eepromCommit _)
    refine writesWithin_trans ?_ (writesWithin_forRange _ _ _ _ (fun i t h1 h2 =>
      writesWithin_write t i _ (by
        have h1n : 1984 ≤ i := h1
        have h2n : i < 1984 + (4096 - 1984) := h2
        omega)))
    refine writesWithin_trans ?_ (writesWithin_forRange _ _ _ _ (fun i t h1 h2 =>
      writesWithin_write t i _ (by
        have h1n : 64 ≤ i := h1
        have h2n : i < 64 + (1984 - 64) := h2
        omega)))
    refine writesWithin_trans ?_ (writesWithin_w16 _ 10 _ (by omega) (by omega))
    refine writesWithin_trans ?_ (writesWithin_w16 _ 8 _ (by omega) (by omega))
    refine writesWithin_trans ?_ (writesWithin_w16 _ 6 _ (by omega) (by omega))
    refine writesWithin_trans ?_ (writesWithin_w16 _ 4 _ (by omega) (by omega))
    refine writesWithin_trans ?_ (writesWithin_w16 _ 2 _ (by omega) (by omega))
    exact writesWithin_w16 _ 0 _ (by omega) (by omega)
  · exact writesWithin_refl _ s

theorem writesWithin_handleWipeLogs (s : State) (authenticated : Bool) :
    WritesWithin (fun a => (6 ≤ a ∧ a < 12) ∨ (1984 ≤ a ∧ a < 4096)) s
      (handleWipeLogs s authenticated) := by
  unfold handleWipeLogs
  cases authenticated with
  | false => exact writesWithin_emit s _ rfl
  | true =>
    simp only [Bool.not_true, Bool.false_eq_true, if_false]
    refine writesWithin_trans ?_ (writesWithin_emit _ _ rfl)
    refine writesWithin_trans ?_ (writesWithin_emit _ _ rfl)
    refine writesWithin_trans ?_ (writesWithin_eepromCommit _)
    refine writesWithin_trans ?_ (writesWithin_forRange _ _ _ _ (fun i t h1 h2 =>
      writesWithin_write t i _ (by
        have h1n : 1984 ≤ i := h1
        have h2n : i < 1984 + (4096 - 1984) := h2
        omega)))
    refine writesWithin_trans ?_ (writesWithin_w16 _ 10 _ (by omega) (by omega))
    refine writesWithin_trans ?_ (writesWithin_w16 _ 8 _ (by omega) (by omega))
    exact writesWithin_w16 _ 6 _ (by omega) (by omega)

theorem writesWithin_handleWipeCards (s : State) (authenticated : Bool) :
    WritesWithin (fun a => a = 4 ∨ a = 5 ∨ (64 ≤ a ∧ a < 1984)) s
      (handleWipeCards s authenticated) := by
  unfold handleWipeCards
  cases authenticated with
  | false => exact writesWithin_emit s _ rfl
  | true =>
    simp only [Bool.not_true, Bool.false_eq_true, if_false]
    refine writesWithin_trans ?_ (writesWithin_emit _ _ rfl)
    refine writesWithin_trans ?_ (writesWithin_emit _ _ rfl)
    refine writesWithin_trans ?_ (writesWithin_eepromCommit _)
    refine writesWithin_trans ?_ (writesWithin_forRange _ _ _ _ (fun i t h1 h2 =>
      writesWithin_write t i _ (by
        have h1n : 64 ≤ i := h1
        have h2n : i < 64 + (1984 - 64) := h2
        omega)))
    exact writesWithin_w16 _ 4 _ (by omega) (by omega)

theorem writesWithin_authAdd (s : State) (uid : Nat → Nat) (uidLen : Nat) (name : List Nat) :
    WritesWithin (fun a => a = 4 ∨ a = 5 ∨ (64 ≤ a ∧ a < 1984)) s
      (authAdd s uid uidLen name).2 := by
  by_cases hv : uidLen = 0 ∨ uidLen > 7
  · rw [authAdd_invalid s uid uidLen name hv]; exact writesWithin_refl _ s
  cases hf : authFind s uid uidLen with
  | some i =>
    rw [authAdd_found s uid uidLen name hv (by rw [hf]; rfl)]; exact writesWithin_refl _ s
  | none =>
    by_cases hc : authCount s < AUTH_MAX
    swap
    · rw [authAdd_full s uid uidLen name hv hf (Nat.not_lt.mp hc)]; exact writesWithin_refl _ s
    have hc80 : authCount s < 80 := hc
    unfold authAdd
    rw [if_neg hv, hf]
    simp only [Option.isSome_none, Bool.false_eq_true, if_false, Nat.not_le.mpr hc]
    refine writesWithin_trans ?_ (writesWithin_eepromCommit _)
    refine writesWithin_trans ?_ (writesWithin_w16 _ 4 _ (by omega) (by omega))
    refine writesWithin_trans ?_ (writesWithin_forRange _ _ _ _ (fun i t h1 h2 =>
      writesWithin_write t _ _ (by
        show _ ∨ _ ∨ (64 ≤ 64 + authCount s * 24 + 8 + i ∧ 64 + authCount s * 24 + 8 + i < 1984)
        omega)))
    refine writesWithin_trans ?_ (writesWithin_forRange _ _ _ _ (fun i t h1 h2 =>
      writesWithin_write t _ _ (by
        show _ ∨ _ ∨ (64 ≤ 64 + authCount s * 24 + 1 + i ∧ 64 + authCount s * 24 + 1 + i < 1984)
        omega)))
    exact writesWithin_write s _ _ (by
      show _ ∨ _ ∨ (64 ≤ 64 + authCount s * 24 ∧ 64 + authCount s * 24 < 1984)
      omega)

theorem writesWithin_logWriteOne (s : State) (hhead : logHead s < LOG_CAPACITY)
    (uid : Nat → Nat) (uidLen : Nat) (allowed : Bool) (rtc : Nat) :
    WritesWithin (fun a => (6 ≤ a ∧ a < 12) ∨ (1984 ≤ a ∧ a < 4096)) s
      (logWriteOne s uid uidLen allowed rtc) := by
  have hh : logHead s < 132 := hhead
  unfold logWriteOne
  simp only []
  refine writesWithin_trans ?_ (writesWithin_eepromCommit _)
  refine writesWithin_trans ?_ (writesWithin_w16 _ 10 _ (by omega) (by omega))
  refine writesWithin_trans ?_ (writesWithin_w16 _ 8 _ (by omega) (by omega))
  refine writesWithin_trans ?_ (writesWithin_w16 _ 6 _ (by omega) (by omega))
  refine writesWithin_trans ?_ (writesWithin_write _ _ _ (by
    show _ ∨ (1984 ≤ 1984 + logHead s * 16 + 15 ∧ 1984 + logHead s * 16 + 15 < 4096)
    omega))
  refine writesWithin_trans ?_ (writesWithin_write _ _ _ (by
    show _ ∨ (1984 ≤ 1984 + logHead s * 16 + 14 ∧ 1984 + logHead s * 16 + 14 < 4096)
    omega))
  refine writesWithin_trans ?_ (writesWithin_write _ _ _ (by
    show _ ∨ (1984 ≤ 1984 + logHead s * 16 + 13 ∧ 1984 + logHead s * 16 + 13 < 4096)
    omega))
  refine writesWithin_trans ?_ (writesWithin_write _ _ _ (by
    show _ ∨ (1984 ≤ 1984 + logHead s * 16 + 12 ∧ 1984 + logHead s * 16 + 12 < 4096)
    omega))
  refine writesWithin_trans ?_ (writesWithin_forRange _ _ _ _ (fun i t h1 h2 =>
    writesWithin_write t _ _ (by
      show _ ∨ (1984 ≤ 1984 + logHead s * 16 + 8 + i ∧ 1984 + logHead s * 16 + 8 + i < 4096)
      omega)))
  refine writesWithin_trans ?_ (writesWithin_forRange _ _ _ _ (fun i t h1 h2 =>
    writesWithin_write t _ _ (by
      show _ ∨ (1984 ≤ 1984 + logHead s * 16 + 1 + i ∧ 1984 + logHead s * 16 + 1 + i < 4096)
      omega)))
  exact writesWithin_write s _ _ (by
    show _ ∨ (1984 ≤ 1984 + logHead s * 16 + 0 ∧ 1984 + logHead s * 16 + 0 < 4096)
    omega)

end WriteFootprint

section LayoutSafety

/-- Claim C17. Layout safety: the header fields (bytes 0..11), the registry
partition [64, 1984) and the log partition [1984, 4096) are pairwise disjoint
and lie inside the 4096-byte region, and in every state with registryCount <=
80 and logHead < LOG_CAPACITY every address that `eepromInitIfNeeded`,
`authFind`, `authAdd`, `logWriteOne`, `logListHTML` and the two wipes pass to
`EEPROM.read` or `EEPROM.write` is below 4096: header accesses stay in bytes
0..11, registry slot accesses in the registry partition and log slot accesses
in the log partition. The instrumented loops that list the read addresses
return what `authFind` and `logListHTML` return. -/
theorem layout_safety (s : State) (hcount : authCount s ≤ AUTH_MAX)
    (hhead : logHead s < LOG_CAPACITY) :
    (12 ≤ AUTH_START ∧ AUTH_START = 64 ∧ AUTH_START + AUTH_MAX * AUTH_REC_SIZE = LOG_START ∧
      LOG_START = 1984 ∧ LOG_START + LOG_CAPACITY * LOG_REC_SIZE = EEPROM_SIZE ∧
      EEPROM_SIZE = 4096) ∧
    (∀ a ∈ eepromInitIfNeeded.reads, a < 12) ∧
    WritesWithin (fun a => a < 12 ∨ (AUTH_START ≤ a ∧ a < EEPROM_SIZE)) s
      (eepromInitIfNeeded s) ∧
    (∀ (uid : Nat → Nat) (uidLen : Nat),
      (authFind.loopT s uid uidLen (authCount s) 0).1 = authFind s uid uidLen ∧
      ∀ a ∈ authFind.reads s uid uidLen, a = 4 ∨ a = 5 ∨ (AUTH_START ≤ a ∧ a < LOG_START)) ∧
    (∀ (uid : Nat → Nat) (uidLen : Nat) (name : List Nat),
      (∀ a ∈ authAdd.reads s uid uidLen, a = 4 ∨ a = 5 ∨ (AUTH_START ≤ a ∧ a < LOG_START)) ∧
      WritesWithin (fun a => a = 4 ∨ a = 5 ∨ (AUTH_START ≤ a ∧ a < LOG_START)) s
        (authAdd s uid uidLen name).2) ∧
    (∀ a ∈ logWriteOne.reads, 6 ≤ a ∧ a < 12) ∧
    (∀ (uid : Nat → Nat) (uidLen : Nat) (allowed : Bool) (rtc : Nat),
      WritesWithin (fun a => (6 ≤ a ∧ a < 12) ∨ (LOG_START ≤ a ∧ a < EEPROM_SIZE)) s
        (logWriteOne s uid uidLen allowed rtc)) ∧
    (∀ maxRows : Nat,
      (logListHTML.loopT s (logTail s) (logCount s) maxRows (logCount s) 0 0).1
        = logListHTML s maxRows ∧
      ∀ a ∈ logListHTML.reads s maxRows,
        (8 ≤ a ∧ a < 12) ∨ (LOG_START ≤ a ∧ a < EEPROM_SIZE)) ∧
    (∀ authenticated : Bool,
      WritesWithin (fun a => (6 ≤ a ∧ a < 12) ∨ (LOG_START ≤ a ∧ a < EEPROM_SIZE)) s
        (handleWipeLogs s authenticated)) ∧
    (∀ authenticated : Bool,
      WritesWithin (fun a => a = 4 ∨ a = 5 ∨ (AUTH_START ≤ a ∧ a < LOG_START)) s
        (handleWipeCards s authenticated)) := by
  refine ⟨by decide, by decide, writesWithin_eepromInitIfNeeded s, ?_, ?_, by decide, ?_, ?_,
    writesWithin_handleWipeLogs s, writesWithin_handleWipeCards s⟩
  · intro uid uidLen
    exact ⟨authFind_loopT_fst s uid uidLen _ 0, authFind_reads_bound s hcount uid uidLen⟩
  · intro uid uidLen name
    refine ⟨?_, writesWithin_authAdd s uid uidLen name⟩
    intro a ha
    unfold authAdd.reads at ha
    split_ifs at ha
    · cases ha
    · exact authFind_reads_bound s hcount uid uidLen a ha
    · rw [List.mem_append] at ha
      rcases ha with ha | ha
      · exact authFind_reads_bound s hcount uid uidLen a ha
      · simp only [e16.reads, List.mem_cons, List.mem_singleton, List.not_mem_nil,
          or_false] at ha
        rcases ha with rfl | rfl
        · exact Or.inl rfl
        · exact Or.inr (Or.inl rfl)
  · exact writesWithin_logWriteOne s hhead
  · intro maxRows
    refine ⟨logListHTML_loopT_fst s _ _ maxRows _ 0 0, ?_⟩
    intro a ha
    unfold logListHTML.reads e16.reads at ha
    simp only [List.mem_append, List.mem_cons, List.mem_singleton, List.not_mem_nil,
      or_false] at ha
    rcases ha with ((((rfl | rfl) | (rfl | rfl)) | (rfl | rfl)) | (rfl | rfl)) | ha
    all_goals first
      | exact Or.inr (logListHTML_loopT_reads s _ _ maxRows _ 0 0 _ ha)
      | exact Or.inl ⟨by omega, by omega⟩

/-- Instance of C17 on the bootstrapped store of a factory-fresh device: the
lookup of Alice's card reads the count field and the registry partition
only. -/
theorem layout_safety_witness :
    authCount emptyState ≤ AUTH_MAX ∧ logHead emptyState < LOG_CAPACITY ∧
    ∀ a ∈ authFind.reads emptyState aliceUID 4,
      a = 4 ∨ a = 5 ∨ (AUTH_START ≤ a ∧ a < LOG_START) := by
  have h1 : authCount emptyState ≤ AUTH_MAX := Nat.le_of_lt emptyState_room
  have h2 : logHead emptyState < LOG_CAPACITY := by rw [emptyState_log.1]; decide
  have h := layout_safety emptyState h1 h2
  with_reducible exact ⟨h1, h2, (h.2.2.2.1 aliceUID 4).2⟩

end LayoutSafety

section LayoutWitness

/-- Instance of the amended C12 on a factory-fresh device: after the
bootstrap the last registry slot (79) is empty and the last byte of the last
log slot (131) is zero. -/
theorem bootstrap_capacities_witness :
    ¬ (e16 blankState 0 = 0xBEEF ∧ e16 blankState 2 = 1) ∧
    EEPROM.read emptyState (AUTH_START + 79 * AUTH_REC_SIZE) = 0xFF ∧
    EEPROM.read emptyState (LOG_START + 131 * LOG_REC_SIZE + 15) = 0 := by
  have h := (bootstrap_capacities blankState).2.2.2.2.2 blankState_header
  have h1 := h.1 79 (by decide)
  have h2 := h.2 131 15 (by decide) (by decide)
  with_reducible exact ⟨blankState_header, h1, h2⟩

end LayoutWitness

end Kartli
